import Mathlib

/-!
Verification of the flatbox sandbox-specification compiler.

This file shallowly embeds the core of the flatbox program (src/main.rs,
src/bwrap.rs): the sandbox specification compiler that turns installation
metadata into an ordered list of namespace-construction operations, the
extension-resolution engine, the host-exposure policy, and the final
exit-code relay. Filesystem access is modelled by a pure `FS` structure;
the bwrap command accumulator is modelled as an ordered list of operations
together with the temp-file backing store counter. Machine behaviour that
the claims depend on (IndexMap iteration order, Rust `str::split`,
`Path::join`, `strip_prefix`, HashSet insert) is translated faithfully.
-/

/-! ## String and path primitives (Rust str and Path semantics) -/

/-- Splits a character list at every occurrence of `c`, like Rust
`str::split(c)`: `"a;;b"` gives `["a", "", "b"]` and `""` gives `[""]`. -/
def splitCharAux (c : Char) : List Char → List Char → List (List Char)
  | [], acc => [acc.reverse]
  | x :: xs, acc =>
    if x == c then acc.reverse :: splitCharAux c xs []
    else splitCharAux c xs (x :: acc)

/-- Rust `str::split(c)` on a `String`, collecting the pieces. -/
def splitOnChar (c : Char) (s : String) : List String :=
  (splitCharAux c s.data []).map String.mk

/-- Whether a path string is absolute (starts with a slash). -/
def strStartsSlash (s : String) : Bool := s.data.head? == some '/'

/-- Whether a path string ends with a slash. -/
def strEndsSlash (s : String) : Bool := s.data.getLast? == some '/'

/-- Rust `Path::join`: an absolute right operand replaces the left; otherwise
the components are joined with a separator (none added after a trailing
slash). -/
def pathJoin (p q : String) : String :=
  if strStartsSlash q then q
  else if strEndsSlash p then p ++ q
  else p ++ "/" ++ q

/-- Rust `str::trim`: drops whitespace from both ends. -/
def trimList (l : List Char) : List Char :=
  ((l.dropWhile Char.isWhitespace).reverse.dropWhile Char.isWhitespace).reverse

/-- Rust `str::trim` on `String`. -/
def strTrim (s : String) : String := String.mk (trimList s.data)

/-- Rust `str::replace('.', "-")`: replaces every dot with a dash. -/
def replaceDotDash (s : String) : String :=
  String.mk (s.data.map (fun ch => if ch == '.' then '-' else ch))

/-- Rust `str::strip_prefix`: removes `p` from the front of `s` if present. -/
def stripPre (s p : String) : Option String :=
  if p.data.isPrefixOf s.data then some (String.mk (s.data.drop p.length)) else none

/-- Rust `Path::file_name` for the paths this program builds: the last
nonempty slash-separated component. -/
def pathFileName (p : String) : Option String :=
  ((splitOnChar '/' p).filter (fun s => s ≠ "")).getLast?

/-- A name is simple when it is nonempty and contains no slash — the shape
every real directory-entry file name and well-formed merge-dir name has. -/
def simpleName (s : String) : Bool := s ≠ "" && !(s.data.contains '/')

/-! ## Filesystem model

Directory entries carry the file name, whether the name is valid UTF-8
(`OsString::into_string` / `OsStr::to_str` succeed), and the result of
`DirEntry::file_type()?.is_file()`. A `read_dir` call either fails to open
(outer `Except`) or yields a list of per-entry results (inner `Except`,
modelling fallible entry iteration). -/

instance {ε α : Type} [DecidableEq ε] [DecidableEq α] : DecidableEq (Except ε α) := fun a b =>
  match a, b with
  | .error e, .error f =>
    decidable_of_iff (e = f) ⟨fun h => by rw [h], fun h => by cases h; rfl⟩
  | .error _, .ok _ => isFalse (by intro h; cases h)
  | .ok _, .error _ => isFalse (by intro h; cases h)
  | .ok x, .ok y =>
    decidable_of_iff (x = y) ⟨fun h => by rw [h], fun h => by cases h; rfl⟩

/-- A directory entry as observed through `std::fs::DirEntry`. -/
structure DirEntry where
  name : String
  nameValidUtf8 : Bool
  isFileResult : Except String Bool
deriving DecidableEq, Repr

/-- A pure model of the filesystem reads the program performs. -/
structure FS where
  readDir : String → Except String (List (Except String DirEntry))
  pathExists : String → Bool
  readFile : String → Except String String
  readLink : String → Option String

/-! ## Metadata model (parsed key-file, insertion ordered) -/

/-- One metadata group: ordered key-value pairs, first binding wins on
lookup (keys are unique in an IndexMap). -/
abbrev KeyMap := List (String × String)

/-- Parsed metadata: ordered groups of key-value pairs. -/
abbrev Metadata := List (String × KeyMap)

/-- IndexMap lookup for a group key. -/
def kget (m : KeyMap) (k : String) : Option String := m.lookup k

/-- IndexMap lookup for a metadata group. -/
def mGet (m : Metadata) (g : String) : Option KeyMap := m.lookup g

/-! ## Bwrap operations and the builder (src/bwrap.rs)

Every builder method appends arguments to the accumulated bwrap command;
we record them as tagged operations in call order. `ro_bind_data` writes
its contents to a fresh file named `tempfile-<n>` in the process-scoped
temporary directory and emits a read-only bind from that backing file, as
in `BwrapBuilder::ro_bind_data`/`tempfile`. -/

/-- One namespace-construction operation handed to bwrap. -/
inductive Op where
  | tmpfs (path : String)
  | bind (src dst : String)
  | roBind (src dst : String)
  | symlink (src dst : String)
  | setEnv (key val : String)
  | unsetEnv (key : String)
  | devBind (src dst : String)
  | roBindData (tempSrc dst contents : String)
deriving DecidableEq, Repr

/-- The bwrap command accumulator plus its virtual-file backing store
state: the temp directory path and the number of files created so far. -/
structure BwrapBuilder where
  ops : List Op
  tempdir : String
  nfiles : Nat
deriving DecidableEq, Repr

/-- BwrapBuilder::new with the freshly created temp directory. -/
def BwrapBuilder.new (tempdir : String) : BwrapBuilder :=
  { ops := [], tempdir := tempdir, nfiles := 0 }

/-- Appends one operation to the command, as each builder method does. -/
def BwrapBuilder.emit (b : BwrapBuilder) (o : Op) : BwrapBuilder :=
  { b with ops := b.ops ++ [o] }

/-- BwrapBuilder::tmpfs. -/
def BwrapBuilder.tmpfs (b : BwrapBuilder) (path : String) : BwrapBuilder :=
  b.emit (.tmpfs path)

/-- BwrapBuilder::bind. -/
def BwrapBuilder.bind (b : BwrapBuilder) (src dst : String) : BwrapBuilder :=
  b.emit (.bind src dst)

/-- BwrapBuilder::ro_bind. -/
def BwrapBuilder.ro_bind (b : BwrapBuilder) (src dst : String) : BwrapBuilder :=
  b.emit (.roBind src dst)

/-- BwrapBuilder::symlink. -/
def BwrapBuilder.symlink (b : BwrapBuilder) (src dst : String) : BwrapBuilder :=
  b.emit (.symlink src dst)

/-- BwrapBuilder::set_env. -/
def BwrapBuilder.set_env (b : BwrapBuilder) (key val : String) : BwrapBuilder :=
  b.emit (.setEnv key val)

/-- BwrapBuilder::unset_env. -/
def BwrapBuilder.unset_env (b : BwrapBuilder) (key : String) : BwrapBuilder :=
  b.emit (.unsetEnv key)

/-- BwrapBuilder::dev_bind. -/
def BwrapBuilder.dev_bind (b : BwrapBuilder) (src dst : String) : BwrapBuilder :=
  b.emit (.devBind src dst)

/-- BwrapBuilder::tempfile: the backing file path for the next virtual
file, `<tempdir>/tempfile-<nfiles>`. -/
def BwrapBuilder.tempfilePath (b : BwrapBuilder) : String :=
  b.tempdir ++ "/tempfile-" ++ toString b.nfiles

/-- BwrapBuilder::ro_bind_data: writes the contents to a fresh backing
file and emits a read-only bind of it at the given path. -/
def BwrapBuilder.ro_bind_data (b : BwrapBuilder) (path contents : String) : BwrapBuilder :=
  { ops := b.ops ++ [.roBindData b.tempfilePath path contents]
    tempdir := b.tempdir
    nfiles := b.nfiles + 1 }

/-! ## Constants from src/main.rs -/

/-- ROOT_USR_MERGED_DIRS. -/
def ROOT_USR_MERGED_DIRS : List String := ["bin", "lib", "lib32", "lib64", "sbin"]

/-- FORBIDDEN_HOST_ROOT_DIRS. -/
def FORBIDDEN_HOST_ROOT_DIRS : List String := ["app", "usr", "run", "etc", "var"]

/-- FORBIDDEN_RUN_DIRS. -/
def FORBIDDEN_RUN_DIRS : List String := ["flatpak", "host"]

/-- EXPOSED_ETC_PATHS. -/
def EXPOSED_ETC_PATHS : List String := ["passwd", "group", "shadow"]

/-- EXTENSION_PREFIX, the group-name marker for extension declarations. -/
def EXTENSION_GROUP_TAG : String := "Extension "

/-- PATH_BINDINDGS (sic): fixed (source, destination, writable) bind table. -/
def PATH_BINDINDGS : List (String × String × Bool) :=
  [ ("/", "/run/host/root", true)
  , ("/usr/share/fonts", "/run/host/fonts", false)
  , ("/usr/lib/fontconfig/cache", "/run/host/fonts-cache", false)
  , ("/usr/share/icons", "/run/host/share/icons", false)
  , ("/etc/machine-id", "/etc/machine-id", false)
  , ("/var/lib/dbus/machine-id", "/var/lib/dbus/machine-id", false) ]

/-- DEFAULT_ENV: the fixed table of 44 default environment entries;
`some` means set to the value, `none` means unset. -/
def DEFAULT_ENV : List (String × Option String) :=
  [ ("FLATBOX_ENV", some "1")
  , ("PATH", some "/app/bin:/usr/bin")
  , ("LD_LIBRARY_PATH", none)
  , ("LD_PRELOAD", none)
  , ("LD_AUDIT", none)
  , ("XDG_CONFIG_DIRS", some "/app/etc/xdg:/etc/xdg")
  , ("XDG_DATA_DIRS", some "/app/share:/usr/share")
  , ("SHELL", some "/bin/sh")
  , ("TEMP", none)
  , ("TEMPDIR", none)
  , ("TMP", none)
  , ("TMPDIR", none)
  , ("container", none)
  , ("TZDIR", none)
  , ("PYTHONPATH", none)
  , ("PYTHONPYCACHEPREFIX", none)
  , ("PERLLIB", none)
  , ("PERL5LIB", none)
  , ("XCURSOR_PATH", none)
  , ("GST_PLUGIN_PATH_1_0", none)
  , ("GST_REGISTRY", none)
  , ("GST_REGISTRY_1_0", none)
  , ("GST_PLUGIN_PATH", none)
  , ("GST_PLUGIN_SYSTEM_PATH", none)
  , ("GST_PLUGIN_SCANNER", none)
  , ("GST_PLUGIN_SCANNER_1_0", none)
  , ("GST_PLUGIN_SYSTEM_PATH_1_0", none)
  , ("GST_PRESET_PATH", none)
  , ("GST_PTP_HELPER", none)
  , ("GST_PTP_HELPER_1_0", none)
  , ("GST_INSTALL_PLUGINS_HELPER", none)
  , ("KRB5CCNAME", none)
  , ("XKB_CONFIG_ROOT", none)
  , ("GIO_EXTRA_MODULES", none)
  , ("GDK_BACKEND", none)
  , ("VK_ADD_DRIVER_FILES", none)
  , ("VK_ADD_LAYER_PATH", none)
  , ("VK_DRIVER_FILES", none)
  , ("VK_ICD_FILENAMES", none)
  , ("VK_LAYER_PATH", none)
  , ("__EGL_EXTERNAL_PLATFORM_CONFIG_DIRS", none)
  , ("__EGL_EXTERNAL_PLATFORM_CONFIG_FILENAMES", none)
  , ("__EGL_VENDOR_LIBRARY_DIRS", none)
  , ("__EGL_VENDOR_LIBRARY_FILENAMES", none) ]

/-! ## Exit-code relay (end of `run`, src/main.rs lines 224-230)

`child.wait()` yields an `ExitStatus`; `status.code()` is `some c` when
the child exited normally with status `c` and `none` when it was
terminated by a signal. The program maps that through
`code().and_then(|code| u8::try_from(code).ok()).map(ExitCode::from).unwrap_or(ExitCode::SUCCESS)`,
where `ExitCode::SUCCESS` is exit code 0. -/

/-- The overall exit code produced by `run` from the exit status of the
spawned child: `code` is the `ExitStatus::code()` result. -/
def relay_exit_code (code : Option Int) : Nat :=
  match code with
  | some c => if 0 ≤ c ∧ c ≤ 255 then c.toNat else 0
  | none => 0

/-! ## Install resolution (src/main.rs `find_install_path`,
`list_available_runtimes`) -/

/-- find_install_path: the first install root under which
`<root>/<kind>/<name>` exists, where kind is app or runtime. -/
def find_install_path (fs : FS) (name : String) (is_app : Bool)
    (install_dirs : List String) : Option String :=
  let kindDir := if is_app then "app" else "runtime"
  install_dirs.findSome? fun dir =>
    let path := pathJoin (pathJoin dir kindDir) name
    if fs.pathExists path then some path else none

/-- Converts one runtime directory's entry list to names, failing on an
entry read error or a non-UTF-8 file name, as the
`collect::<anyhow::Result<Vec<String>>>` in list_available_runtimes does. -/
def runtime_entries_to_names : List (Except String DirEntry) → Except String (List String)
  | [] => .ok []
  | .error _ :: _ => .error "Could not read entry"
  | .ok ent :: rest =>
    if ent.nameValidUtf8 then (runtime_entries_to_names rest).map (ent.name :: ·)
    else .error "Invalid runtime name"

/-- list_available_runtimes: enumerates the names under
`<root>/runtime` for every install root; a root whose runtime directory
fails to open is skipped (`into_iter().flatten()`), while any entry
failure aborts the whole enumeration. -/
def list_available_runtimes (fs : FS) : List String → Except String (List String)
  | [] => .ok []
  | dir :: rest =>
    match fs.readDir (pathJoin dir "runtime") with
    | .error _ => list_available_runtimes fs rest
    | .ok entries =>
      match runtime_entries_to_names entries with
      | .error e => .error e
      | .ok names => (list_available_runtimes fs rest).map (names ++ ·)

/-! ## Extension resolution engine (src/main.rs `setup_extension`) -/

/-- The diagnostic printed for an unrecognized enable-if value. -/
def unsupported_enable_if_msg (enable_if name : String) : String :=
  "Unsupported enable-if reason " ++ enable_if ++ " on extension " ++ name

/-- Enablement decision for one implementation of an extension, with the
diagnostics emitted while deciding (src/main.rs lines 381-399): no
enable-if means enabled; active-gl-driver enables default and host,
enables nvidia-<ver> exactly when the trimmed contents of
/sys/module/nvidia/version with dots replaced by dashes equal <ver>, and
disables everything else; any other enable-if value is disabled with a
non-fatal diagnostic. -/
def impl_enable_decision (fs : FS) (extension_metadata : KeyMap)
    (name extension_impl_name : String) : Bool × List String :=
  match kget extension_metadata "enable-if" with
  | some enable_if =>
    if enable_if = "active-gl-driver" then
      if extension_impl_name = "default" || extension_impl_name = "host" then (true, [])
      else
        match stripPre extension_impl_name "nvidia-" with
        | some nvidia_version =>
          match fs.readFile "/sys/module/nvidia/version" with
          | .ok version => (replaceDotDash (strTrim version) = nvidia_version, [])
          | .error _ => (false, [])
        | none => (false, [])
    else (false, [unsupported_enable_if_msg enable_if name])
  | none => (true, [])

/-- The candidate install path probed for one version of an extension
implementation: `<identifier>/<arch>/<version>/active/files`. -/
def extVersionPath (extension arch version : String) : String :=
  pathJoin (pathJoin (pathJoin (pathJoin extension arch) version) "active") "files"

/-- Version resolution for one enabled implementation (src/main.rs lines
405-414): the semicolon-separated candidate versions are mapped to
`<identifier>/<arch>/<version>/active/files` paths and the first one an
install root resolves wins (`find_map`). -/
def resolve_impl_path (fs : FS) (extension arch allowed_versions : String)
    (install_dirs : List String) : Option String :=
  ((splitOnChar ';' allowed_versions).map (fun version =>
      extVersionPath extension arch version)).findSome?
    (fun path => find_install_path fs path false install_dirs)

/-- The mount-collection loop of setup_extension (src/main.rs lines
376-420): walks the enumerated runtime identifiers, keeps those carrying
the `<name>.` marker, decides enablement, resolves a version, emits one
read-only bind per resolved implementation and records the
(resolved path, mount path) pair. -/
def collect_mounts (fs : FS) (extension_metadata : KeyMap)
    (name arch allowed_versions : String) (install_dirs : List String)
    (extension_base_mount_path : String) :
    List String → BwrapBuilder → List (String × String) →
    BwrapBuilder × List (String × String)
  | [], b, mounted_paths => (b, mounted_paths)
  | extension :: rest, b, mounted_paths =>
    match stripPre extension (name ++ ".") with
    | none =>
      collect_mounts fs extension_metadata name arch allowed_versions install_dirs
        extension_base_mount_path rest b mounted_paths
    | some extension_impl_name =>
      if (impl_enable_decision fs extension_metadata name extension_impl_name).1 then
        match resolve_impl_path fs extension arch allowed_versions install_dirs with
        | some full_extension_path =>
          let extension_mount_path := pathJoin extension_base_mount_path extension_impl_name
          collect_mounts fs extension_metadata name arch allowed_versions install_dirs
            extension_base_mount_path rest
            (b.ro_bind full_extension_path extension_mount_path)
            (mounted_paths ++ [(full_extension_path, extension_mount_path)])
        | none =>
          collect_mounts fs extension_metadata name arch allowed_versions install_dirs
            extension_base_mount_path rest b mounted_paths
      else
        collect_mounts fs extension_metadata name arch allowed_versions install_dirs
          extension_base_mount_path rest b mounted_paths

/-- The per-entry merge-dirs loop (src/main.rs lines 428-444): an entry
read error or a file-type error is fatal; non-files are skipped; a source
path already processed for this mount is skipped; a destination already
claimed in this extension is skipped silently; otherwise a symlink is
emitted and the destination claimed. Returns the builder together with
the processed-source set and the claimed-destination set. -/
def merge_entries (extension_base_mount_path target source merge_dir : String) :
    List (Except String DirEntry) → BwrapBuilder → List String → List String →
    Except String (BwrapBuilder × List String × List String)
  | [], b, processed_paths, existing_symlinks => .ok (b, processed_paths, existing_symlinks)
  | .error e :: _, _, _, _ => .error e
  | .ok entry :: rest, b, processed_paths, existing_symlinks =>
    match entry.isFileResult with
    | .error e => .error e
    | .ok false =>
      merge_entries extension_base_mount_path target source merge_dir rest b
        processed_paths existing_symlinks
    | .ok true =>
      let entry_path := pathJoin (pathJoin source merge_dir) entry.name
      if entry_path ∈ processed_paths then
        merge_entries extension_base_mount_path target source merge_dir rest b
          processed_paths existing_symlinks
      else
        let symlink_source := pathJoin (pathJoin target merge_dir) entry.name
        let symlink_target := pathJoin (pathJoin extension_base_mount_path merge_dir) entry.name
        if symlink_target ∈ existing_symlinks then
          merge_entries extension_base_mount_path target source merge_dir rest b
            (entry_path :: processed_paths) existing_symlinks
        else
          merge_entries extension_base_mount_path target source merge_dir rest
            (b.symlink symlink_source symlink_target)
            (entry_path :: processed_paths) (symlink_target :: existing_symlinks)

/-- The per-merge-dir loop of one recorded mount (src/main.rs lines
426-446): a directory whose listing fails to open is skipped silently
(`if let Ok(entries)`), otherwise its entries are processed. -/
def merge_dirs_loop (fs : FS) (extension_base_mount_path target source : String) :
    List String → BwrapBuilder → List String → List String →
    Except String (BwrapBuilder × List String × List String)
  | [], b, processed_paths, existing_symlinks => .ok (b, processed_paths, existing_symlinks)
  | merge_dir :: rest, b, processed_paths, existing_symlinks =>
    match fs.readDir (pathJoin source merge_dir) with
    | .error _ =>
      merge_dirs_loop fs extension_base_mount_path target source rest b
        processed_paths existing_symlinks
    | .ok entries =>
      match merge_entries extension_base_mount_path target source merge_dir entries b
          processed_paths existing_symlinks with
      | .error e => .error e
      | .ok (b, processed_paths, existing_symlinks) =>
        merge_dirs_loop fs extension_base_mount_path target source rest b
          processed_paths existing_symlinks

/-- Post-processing of one recorded mount (src/main.rs lines 423-466):
the merge-dirs pass with a fresh processed-source set, then the
dynamic-linker pass, which emits a virtual file named
`runtime-<name>.<impl>.conf` under /run/flatpak/ld.so.conf.d whose single
newline-terminated line is the mount-relative search path. -/
def setup_mount_post (fs : FS) (extension_metadata : KeyMap)
    (name extension_base_mount_path : String) (source target : String)
    (b : BwrapBuilder) (existing_symlinks : List String) :
    Except String (BwrapBuilder × List String) :=
  let merged : Except String (BwrapBuilder × List String) :=
    match kget extension_metadata "merge-dirs" with
    | some merge_dirs =>
      match merge_dirs_loop fs extension_base_mount_path target source
          (splitOnChar ';' merge_dirs) b [] existing_symlinks with
      | .error e => .error e
      | .ok (b, _, existing_symlinks) => .ok (b, existing_symlinks)
    | none => .ok (b, existing_symlinks)
  match merged with
  | .error e => .error e
  | .ok (b, existing_symlinks) =>
    match kget extension_metadata "add-ld-path" with
    | some add_ld_path =>
      let ld_path := pathJoin target add_ld_path
      let ld_contents := ld_path ++ "\n"
      match pathFileName target with
      | none => .error "Invalid extension name"
      | some impl_name =>
        let filename := "runtime-" ++ name ++ "." ++ impl_name ++ ".conf"
        .ok (b.ro_bind_data (pathJoin "/run/flatpak/ld.so.conf.d" filename) ld_contents,
             existing_symlinks)
    | none => .ok (b, existing_symlinks)

/-- The loop over all recorded mounts for the merge-dirs and
dynamic-linker passes, threading the claimed-destination set through the
whole extension. -/
def mounts_post_loop (fs : FS) (extension_metadata : KeyMap)
    (name extension_base_mount_path : String) :
    List (String × String) → BwrapBuilder → List String →
    Except String (BwrapBuilder × List String)
  | [], b, existing_symlinks => .ok (b, existing_symlinks)
  | (source, target) :: rest, b, existing_symlinks =>
    match setup_mount_post fs extension_metadata name extension_base_mount_path
        source target b existing_symlinks with
    | .error e => .error e
    | .ok (b, existing_symlinks) =>
      mounts_post_loop fs extension_metadata name extension_base_mount_path rest b
        existing_symlinks

/-- The candidate-version computation inside setup_extension (src/main.rs
lines 366-370): the versions field, else the version field, else the
version passed from the owning image. -/
def allowed_versions_of (extension_metadata : KeyMap) (runtime_version : String) : String :=
  ((kget extension_metadata "versions").orElse
    (fun _ => kget extension_metadata "version")).getD runtime_version

/-- setup_extension (src/main.rs lines 349-470): requires the directory
field, emits the tmpfs for the extension base, collects enabled resolved
implementation mounts, then runs the merge-dirs and dynamic-linker
passes. -/
def setup_extension (fs : FS) (extension_metadata : KeyMap) (b : BwrapBuilder)
    (name arch runtime_version : String) (available_runtimes : List String)
    (install_dirs : List String) (base_path : String) :
    Except String BwrapBuilder :=
  match kget extension_metadata "directory" with
  | none => .error "Missing directory"
  | some directory =>
    let extension_base_mount_path := pathJoin base_path directory
    let allowed_versions := allowed_versions_of extension_metadata runtime_version
    let b := b.tmpfs extension_base_mount_path
    let cm := collect_mounts fs extension_metadata name arch allowed_versions install_dirs
      extension_base_mount_path available_runtimes b []
    match mounts_post_loop fs extension_metadata name extension_base_mount_path
        cm.2 cm.1 [] with
    | .error e => .error e
    | .ok (b, _) => .ok b

/-- The (resolved path, mount path) pairs recorded by one extension, as a
function of the inputs alone (the builder does not influence them). -/
def recorded_mounts (fs : FS) (extension_metadata : KeyMap)
    (name arch allowed_versions : String) (install_dirs : List String)
    (extension_base_mount_path : String) (available_runtimes : List String) :
    List (String × String) :=
  (collect_mounts fs extension_metadata name arch allowed_versions install_dirs
    extension_base_mount_path available_runtimes (BwrapBuilder.new "") []).2

/-! ## Runtime and app extension group loops (src/main.rs
`setup_runtime_extensions`, `setup_app_extensions`) -/

/-- Wraps an error with an anyhow-style context line. -/
def withCtx (ctx : String) : Except String BwrapBuilder → Except String BwrapBuilder
  | .error e => .error (ctx ++ ": " ++ e)
  | .ok b => .ok b

/-- The group loop of setup_runtime_extensions: every group whose name
carries the extension marker is set up against the /usr base with the
runtime-id arch and version. -/
def runtime_ext_groups_loop (fs : FS) (arch version : String)
    (available_runtimes install_dirs : List String) :
    Metadata → BwrapBuilder → Except String BwrapBuilder
  | [], b => .ok b
  | (group, metadata) :: rest, b =>
    match stripPre group EXTENSION_GROUP_TAG with
    | none => runtime_ext_groups_loop fs arch version available_runtimes install_dirs rest b
    | some extension =>
      match withCtx ("Could not set up extension " ++ extension)
          (setup_extension fs metadata b extension arch version available_runtimes
            install_dirs "/usr") with
      | .error e => .error e
      | .ok b => runtime_ext_groups_loop fs arch version available_runtimes install_dirs rest b

/-- setup_runtime_extensions (src/main.rs lines 272-307): extracts arch
and version from the runtime id declared in the Runtime group, then
processes every extension group. -/
def setup_runtime_extensions (fs : FS) (runtime_metadata : Metadata) (b : BwrapBuilder)
    (available_runtimes install_dirs : List String) : Except String BwrapBuilder :=
  match (mGet runtime_metadata "Runtime").bind (fun runtime => kget runtime "runtime") with
  | none => .error "Missing runtime spec"
  | some runtime =>
    let parts := splitOnChar '/' runtime
    match parts.get? 1 with
    | none => .error "Could not extract architecture from runtime id"
    | some arch =>
      match parts.get? 2 with
      | none => .error "Could not extract version from runtime id"
      | some version =>
        runtime_ext_groups_loop fs arch version available_runtimes install_dirs
          runtime_metadata b

/-- The per-group version passed by setup_app_extensions (src/main.rs
lines 326-330): the version field, else the versions field, else the
literal "master". -/
def app_ext_version (metadata : KeyMap) : String :=
  ((kget metadata "version").orElse (fun _ => kget metadata "versions")).getD "master"

/-- The group loop of setup_app_extensions: every extension group is set
up against the /app base with the app-runtime-id arch and the per-group
default version. -/
def app_ext_groups_loop (fs : FS) (arch : String)
    (available_runtimes install_dirs : List String) :
    Metadata → BwrapBuilder → Except String BwrapBuilder
  | [], b => .ok b
  | (group, metadata) :: rest, b =>
    match stripPre group EXTENSION_GROUP_TAG with
    | none => app_ext_groups_loop fs arch available_runtimes install_dirs rest b
    | some extension =>
      match withCtx ("Could not set up app extension " ++ extension)
          (setup_extension fs metadata b extension arch (app_ext_version metadata)
            available_runtimes install_dirs "/app") with
      | .error e => .error e
      | .ok b => app_ext_groups_loop fs arch available_runtimes install_dirs rest b

/-- setup_app_extensions (src/main.rs lines 309-347): extracts the arch
from the runtime id declared in the Application group, then processes
every extension group of the app metadata. -/
def setup_app_extensions (fs : FS) (app_metadata : Metadata) (b : BwrapBuilder)
    (available_runtimes install_dirs : List String) : Except String BwrapBuilder :=
  match (mGet app_metadata "Application").bind (fun app => kget app "runtime") with
  | none => .error "Missing app runtime spec"
  | some runtime =>
    let parts := splitOnChar '/' runtime
    match parts.get? 1 with
    | none => .error "Could not extract architecture from runtime id"
    | some arch =>
      app_ext_groups_loop fs arch available_runtimes install_dirs app_metadata b

/-! ## Runtime setup (src/main.rs `setup_runtime`) -/

/-- The loop over the entries of the runtime image's etc directory: an
entry error is fatal; a symlink is replayed as a symlink, anything else
is bound read-only, both at the runtime-relative target path. -/
def runtime_etc_loop (fs : FS) (runtime_files_path : String) :
    List (Except String DirEntry) → BwrapBuilder → Except String BwrapBuilder
  | [], b => .ok b
  | .error e :: _, _ => .error e
  | .ok entry :: rest, b =>
    let path := pathJoin (pathJoin runtime_files_path "etc") entry.name
    let target_path := pathJoin "etc" entry.name
    match fs.readLink path with
    | some symlink_target =>
      runtime_etc_loop fs runtime_files_path rest (b.symlink symlink_target target_path)
    | none =>
      runtime_etc_loop fs runtime_files_path rest (b.ro_bind path target_path)

/-- The loop symlinking the merged usr directories present in the runtime
image at the sandbox root. -/
def merged_dirs_loop (fs : FS) (runtime_files_path : String) :
    List String → BwrapBuilder → BwrapBuilder
  | [], b => b
  | dir :: rest, b =>
    if fs.pathExists (pathJoin runtime_files_path dir) then
      merged_dirs_loop fs runtime_files_path rest (b.symlink (pathJoin "/usr" dir) dir)
    else
      merged_dirs_loop fs runtime_files_path rest b

/-- setup_runtime (src/main.rs lines 233-270): binds the runtime files at
/usr and the app files at /app, replays the runtime etc entries, symlinks
the merged usr directories, and injects an empty /.flatpak-info virtual
file. Failure to open the runtime etc directory is fatal. -/
def setup_runtime (fs : FS) (b : BwrapBuilder) (runtime_files_path : String)
    (app_files_path : Option String) : Except String BwrapBuilder :=
  let b := b.ro_bind runtime_files_path "/usr"
  let b := match app_files_path with
           | some app_path => b.ro_bind app_path "/app"
           | none => b
  match fs.readDir (pathJoin runtime_files_path "etc") with
  | .error e => .error e
  | .ok runtime_etc =>
    match runtime_etc_loop fs runtime_files_path runtime_etc b with
    | .error e => .error e
    | .ok b =>
      let b := merged_dirs_loop fs runtime_files_path ROOT_USR_MERGED_DIRS b
      .ok (b.ro_bind_data "/.flatpak-info" "")

/-! ## Host exposure policy (src/main.rs `setup_host_root_dirs`) -/

/-- The host root scan: entries with non-UTF-8 names are skipped, names in
the two deny lists are skipped, everything else is bound writable at its
own path. An entry read error is fatal. -/
def root_entries_loop : List (Except String DirEntry) → BwrapBuilder →
    Except String BwrapBuilder
  | [], b => .ok b
  | .error e :: _, _ => .error ("Could not evaluate root dir: " ++ e)
  | .ok entry :: rest, b =>
    if entry.nameValidUtf8 then
      let entry_path := pathJoin "/" entry.name
      if FORBIDDEN_HOST_ROOT_DIRS.contains entry.name
          || ROOT_USR_MERGED_DIRS.contains entry.name then
        root_entries_loop rest b
      else
        root_entries_loop rest (b.bind entry_path entry_path)
    else
      root_entries_loop rest b

/-- The /run scan: like the root scan but with its own deny list and a
best-effort existence re-check before binding. -/
def run_entries_loop (fs : FS) : List (Except String DirEntry) → BwrapBuilder →
    Except String BwrapBuilder
  | [], b => .ok b
  | .error e :: _, _ => .error ("Could not evaluate run dir: " ++ e)
  | .ok entry :: rest, b =>
    if entry.nameValidUtf8 then
      let entry_path := pathJoin "/run" entry.name
      if FORBIDDEN_RUN_DIRS.contains entry.name then
        run_entries_loop fs rest b
      else if fs.pathExists entry_path then
        run_entries_loop fs rest (b.bind entry_path entry_path)
      else
        run_entries_loop fs rest b
    else
      run_entries_loop fs rest b

/-- The fixed sensitive /etc files, bound read-only when present. -/
def etc_expose_loop (fs : FS) : List String → BwrapBuilder → BwrapBuilder
  | [], b => b
  | name :: rest, b =>
    let path := pathJoin "/etc" name
    if fs.pathExists path then etc_expose_loop fs rest (b.ro_bind path path)
    else etc_expose_loop fs rest b

/-- The fixed path-binding table, applied when the source exists. -/
def path_bindings_loop (fs : FS) : List (String × String × Bool) → BwrapBuilder → BwrapBuilder
  | [], b => b
  | (source, target, writable) :: rest, b =>
    if fs.pathExists source then
      if writable then path_bindings_loop fs rest (b.bind source target)
      else path_bindings_loop fs rest (b.ro_bind source target)
    else path_bindings_loop fs rest b

/-- setup_host_root_dirs (src/main.rs lines 484-536): the host root scan,
the /run scan, the /etc identity files, the fixed binding table, the
device bind of /dev and the /var/run symlink, in that order. -/
def setup_host_root_dirs (fs : FS) (b : BwrapBuilder) : Except String BwrapBuilder :=
  match fs.readDir "/" with
  | .error e => .error ("Could not read root dir: " ++ e)
  | .ok root_dirs =>
    match root_entries_loop root_dirs b with
    | .error e => .error e
    | .ok b =>
      match fs.readDir "/run" with
      | .error e => .error ("Could not read root dir: " ++ e)
      | .ok run_dirs =>
        match run_entries_loop fs run_dirs b with
        | .error e => .error e
        | .ok b =>
          let b := etc_expose_loop fs EXPOSED_ETC_PATHS b
          let b := path_bindings_loop fs PATH_BINDINDGS b
          let b := b.dev_bind "/dev" "/dev"
          .ok (b.symlink "/run" "/var/run")

/-! ## Dynamic-linker configuration and environment
(src/main.rs `add_ld_so_conf`, `setup_env`) -/

/-- The fixed /etc/ld.so.conf contents injected by add_ld_so_conf. -/
def LD_SO_CONF_CONTENTS : String :=
  "include /run/flatpak/ld.so.conf.d/app-*.conf\ninclude /app/etc/ld.so.conf\n/app/lib\ninclude /run/flatpak/ld.so.conf.d/runtime-*.conf\n"

/-- add_ld_so_conf (src/main.rs lines 472-482). -/
def add_ld_so_conf (b : BwrapBuilder) : Except String BwrapBuilder :=
  .ok (b.ro_bind_data "/etc/ld.so.conf" LD_SO_CONF_CONTENTS)

/-- The default environment table pass. -/
def default_env_loop : List (String × Option String) → BwrapBuilder → BwrapBuilder
  | [], b => b
  | (env, some value) :: rest, b => default_env_loop rest (b.set_env env value)
  | (env, none) :: rest, b => default_env_loop rest (b.unset_env env)

/-- The runtime-declared environment pass. -/
def runtime_env_loop : KeyMap → BwrapBuilder → BwrapBuilder
  | [], b => b
  | (env, value) :: rest, b => runtime_env_loop rest (b.set_env env value)

/-- setup_env (src/main.rs lines 538-559): the fixed default table, the
runtime overrides, then the four app-namespaced XDG directories when an
app id and a home directory are known. -/
def setup_env (b : BwrapBuilder) (runtime_env : KeyMap) (app_id : Option String)
    (home : Option String) : BwrapBuilder :=
  let b := default_env_loop DEFAULT_ENV b
  let b := runtime_env_loop runtime_env b
  match app_id, home with
  | some app, some home =>
    let app_id_dir := pathJoin (pathJoin (pathJoin home ".var") "app") app
    let b := b.set_env "XDG_DATA_HOME" (pathJoin app_id_dir "data")
    let b := b.set_env "XDG_CONFIG_HOME" (pathJoin app_id_dir "config")
    let b := b.set_env "XDG_CACHE_HOME" (pathJoin app_id_dir "cache")
    b.set_env "XDG_STATE_HOME" (pathJoin (pathJoin app_id_dir ".local") "state")
  | _, _ => b

/-! ## The composition pipeline of `run` (src/main.rs lines 160-195)

The builder phase of `run`: runtime setup, host exposure, runtime
extensions, app extensions, ld.so.conf injection, environment. The
AppArmor re-wrap changes only the spawned program, not the operation
list, and is omitted. -/

/-- The ordered composition performed by `run` between creating the
builder and finishing it. -/
def run_compose (fs : FS) (tempdir : String) (runtime_files_path : String)
    (app_files_path : Option String) (runtime_metadata : Metadata)
    (app_metadata : Option Metadata) (available_runtimes install_dirs : List String)
    (app_id : Option String) (home : Option String) : Except String BwrapBuilder :=
  match setup_runtime fs (BwrapBuilder.new tempdir) runtime_files_path app_files_path with
  | .error e => .error e
  | .ok b =>
    match setup_host_root_dirs fs b with
    | .error e => .error e
    | .ok b =>
      match setup_runtime_extensions fs runtime_metadata b available_runtimes install_dirs with
      | .error e => .error e
      | .ok b =>
        match (match app_metadata with
            | some app_meta =>
              setup_app_extensions fs app_meta b available_runtimes install_dirs
            | none => .ok b) with
        | .error e => .error e
        | .ok b =>
          match add_ld_so_conf b with
          | .error e => .error e
          | .ok b =>
            .ok (setup_env b ((mGet runtime_metadata "Environment").getD []) app_id home)

/-! ## Helper predicates used by the claim statements -/

/-- The operation list of a composition result, empty on failure. -/
def opsOf (r : Except String BwrapBuilder) : List Op :=
  match r with
  | .ok b => b.ops
  | .error _ => []

/-- An entry that makes runtime enumeration fail: an entry read error or
a non-UTF-8 file name. -/
def badRuntimeEntry : Except String DirEntry → Bool
  | .error _ => true
  | .ok ent => !ent.nameValidUtf8

/-- Concrete filesystem for the C10 witness: one unreadable runtime
subdirectory and one whose single entry has a non-UTF-8 name. -/
def c10FS : FS :=
  { readDir := fun p =>
      if p = "/a/runtime" then .error "denied"
      else if p = "/b/runtime" then .ok [.ok ⟨"bad", false, .ok false⟩]
      else .error "io"
    pathExists := fun _ => false
    readFile := fun _ => .error "io"
    readLink := fun _ => none }

/-- Concrete filesystem for the C6 witness: versions 2 and 1 of the
implementation are installed, version 3 is not. -/
def c6FS : FS :=
  { readDir := fun _ => .error "io"
    pathExists := fun p =>
      p = "/inst/runtime/org.ex.Ext.impl/x86_64/2/active/files"
        || p = "/inst/runtime/org.ex.Ext.impl/x86_64/1/active/files"
    readFile := fun _ => .error "io"
    readLink := fun _ => none }

/-- Concrete filesystem for the C7 witness: the host nvidia driver
version file contains `550.100` and a trailing newline. -/
def c7FS : FS :=
  { readDir := fun _ => .error "io"
    pathExists := fun _ => false
    readFile := fun p =>
      if p = "/sys/module/nvidia/version" then .ok "550.100\n" else .error "io"
    readLink := fun _ => none }

/-- Metadata for the C7 witness with the recognized predicate. -/
def c7Meta : KeyMap := [("enable-if", "active-gl-driver")]

/-- Metadata for the C7 witness with an unrecognized predicate. -/
def c7MetaUnknown : KeyMap := [("enable-if", "custom-thing")]

/-! ## Claim C5: default candidate versions of app extensions -/

/-- Concrete filesystem for C5: only version 48 (the owning runtime's
version component) of the extension implementation is installed. -/
def c5FS : FS :=
  { readDir := fun _ => .error "io"
    pathExists := fun p => p = "/inst/runtime/org.ex.Ext.impl/x86_64/48/active/files"
    readFile := fun _ => .error "io"
    readLink := fun _ => none }

/-- Concrete app metadata for C5: the owning runtime id has version
component 48 and the extension declaration has neither a version nor a
versions field. -/
def c5AppMeta : Metadata :=
  [ ("Application", [("runtime", "org.ex.Platform/x86_64/48")])
  , ("Extension org.ex.Ext", [("directory", "ext")]) ]

/-! ## Claim C3: dynamic-linker configuration file naming -/

/-- Concrete filesystem for C3: version 1 of the extension
implementation is installed. -/
def c3FS : FS :=
  { readDir := fun _ => .error "io"
    pathExists := fun p => p = "/inst/runtime/org.ex.Ext.impl/x86_64/1/active/files"
    readFile := fun _ => .error "io"
    readLink := fun _ => none }

/-- Concrete extension declaration for C3 with an add-ld-path field. -/
def c3Meta : KeyMap := [("directory", "ext"), ("add-ld-path", "lib"), ("version", "1")]

/-! ## Claim C2: merge-dirs failure semantics -/

/-- An entry that makes the merge-dirs pass fail: an entry read error or
a file-type read error. -/
def badMergeEntry : Except String DirEntry → Bool
  | .error _ => true
  | .ok ent =>
    match ent.isFileResult with
    | .error _ => true
    | .ok _ => false

/-- The resolved implementation path used by the C2 scenarios. -/
def c2SrcPath : String := "/inst/runtime/org.ex.Ext.impl/x86_64/1/active/files"

/-- Concrete extension declaration for C2 with a merge-dirs field. -/
def c2Meta : KeyMap := [("directory", "ext"), ("merge-dirs", "lib"), ("version", "1")]

/-- Concrete filesystem for the C2 counterexample: the implementation is
installed but listing its merge directory fails to open. -/
def c2FS : FS :=
  { readDir := fun _ => .error "io"
    pathExists := fun p => p = c2SrcPath
    readFile := fun _ => .error "io"
    readLink := fun _ => none }

/-- Concrete filesystem for the C2 witness: the merge directory opens but
its only entry fails to read. -/
def c2BadFS : FS :=
  { readDir := fun p =>
      if p = pathJoin c2SrcPath "lib" then .ok [.error "boom"] else .error "io"
    pathExists := fun p => p = c2SrcPath
    readFile := fun _ => .error "io"
    readLink := fun _ => none }

/-! ## Claim C9: determinism up to the temp backing store

Two runs of the composition differ only in the freshly created temp
directory name (`TempDir::new`). We relate the two runs: the operation
lists agree once the backing-store source path inside each virtual-file
bind is erased, and the backing-store counters agree. -/

/-- Erases the temp backing-store source path of a virtual-file bind;
all other operations are kept as they are. -/
def eraseOp : Op → Op
  | .roBindData _ dst contents => .roBindData "" dst contents
  | o => o

/-- Two builders agree up to backing-store paths. -/
def EquivB (b₁ b₂ : BwrapBuilder) : Prop :=
  b₁.ops.map eraseOp = b₂.ops.map eraseOp ∧ b₁.nfiles = b₂.nfiles

/-- Two fallible builder results agree up to backing-store paths. -/
def EquivE : Except String BwrapBuilder → Except String BwrapBuilder → Prop
  | .ok b₁, .ok b₂ => EquivB b₁ b₂
  | .error e₁, .error e₂ => e₁ = e₂
  | _, _ => False

/-- Two fallible builder-and-state results agree up to backing-store
paths, with equal extra state. -/
def EquivEP {α : Type} : Except String (BwrapBuilder × α) →
    Except String (BwrapBuilder × α) → Prop
  | .ok (b₁, a₁), .ok (b₂, a₂) => EquivB b₁ b₂ ∧ a₁ = a₂
  | .error e₁, .error e₂ => e₁ = e₂
  | _, _ => False

/-- Sequencing combinator mirroring how every loop propagates an error
and feeds the builder and extra state of a successful step onward. -/
def exceptStepP {α β : Type} (f : BwrapBuilder → α → Except String (BwrapBuilder × β)) :
    Except String (BwrapBuilder × α) → Except String (BwrapBuilder × β)
  | .error e => .error e
  | .ok (b, a) => f b a

/-- Result-indexed append-only property: a successful phase only appends
to the incoming builder's operations. -/
def opsExtendE (b : BwrapBuilder) : Except String BwrapBuilder → Prop
  | .ok b' => ∃ d, b'.ops = b.ops ++ d
  | .error _ => True

/-- Result-indexed append-only property for phases that return extra
state alongside the builder. -/
def opsExtendP {α : Type} (b : BwrapBuilder) : Except String (BwrapBuilder × α) → Prop
  | .ok (b', _) => ∃ d, b'.ops = b.ops ++ d
  | .error _ => True

/-- The phase decomposition of a successful composition: each phase
succeeds on the previous phase's builder and only appends a contiguous
block of operations, in the call order runtime setup, host exposure,
runtime extensions, app extensions, ld.so.conf, environment. -/
def ComposeDecomp (fs : FS) (tempdir runtime_files_path : String)
    (app_files_path : Option String) (runtime_metadata : Metadata)
    (app_metadata : Option Metadata) (available_runtimes install_dirs : List String)
    (app_id home : Option String) : Except String BwrapBuilder → Prop
  | .error _ => True
  | .ok b => ∃ b₁ b₂ b₃ b₄ b₅,
      setup_runtime fs (BwrapBuilder.new tempdir) runtime_files_path app_files_path
        = .ok b₁ ∧
      setup_host_root_dirs fs b₁ = .ok b₂ ∧
      setup_runtime_extensions fs runtime_metadata b₂ available_runtimes install_dirs
        = .ok b₃ ∧
      (match app_metadata with
        | some app_meta =>
          setup_app_extensions fs app_meta b₃ available_runtimes install_dirs
        | none => .ok b₃) = .ok b₄ ∧
      add_ld_so_conf b₄ = .ok b₅ ∧
      b = setup_env b₅ ((mGet runtime_metadata "Environment").getD []) app_id home ∧
      (∃ d, b₂.ops = b₁.ops ++ d) ∧
      (∃ d, b₃.ops = b₂.ops ++ d) ∧
      (∃ d, b₄.ops = b₃.ops ++ d) ∧
      (∃ d, b₅.ops = b₄.ops ++ d) ∧
      (∃ d, b.ops = b₅.ops ++ d)

/-- Concrete filesystem for the C4 counterexample: one host root entry,
an empty /run, and an empty runtime etc directory. -/
def c4FS : FS :=
  { readDir := fun p =>
      if p = "/" then .ok [.ok ⟨"srv", true, .ok false⟩]
      else if p = "/run" then .ok []
      else if p = "/rt/files/etc" then .ok []
      else .error "io"
    pathExists := fun _ => false
    readFile := fun _ => .error "io"
    readLink := fun _ => none }

/-- Concrete runtime metadata for the C4 counterexample: one extension
declaration. -/
def c4RuntimeMeta : Metadata :=
  [ ("Runtime", [("runtime", "org.example.Platform/x86_64/48")])
  , ("Extension org.example.Ext", [("directory", "ext")]) ]

/-! ## Claim C8: first-writer-wins merge symlinks

Infrastructure: under the well-formedness every real directory tree has
(entry names and merge-dir names nonempty and slash-free), the joined
path `base/mdir/name` determines `mdir` and `name` uniquely, so the
per-mount processed-source set and the per-extension claimed-destination
set interact exactly as first-writer-wins bookkeeping. -/

/-- The destination of a symlink operation. -/
def symDst : Op → Option String
  | .symlink _ dst => some dst
  | _ => none

/-- All directory-entry names that the filesystem model ever produces are
plain file names: nonempty and slash-free (true of every real readdir). -/
def fsSimpleNames (fs : FS) : Prop :=
  ∀ p es, fs.readDir p = .ok es → ∀ ent, Except.ok ent ∈ es → simpleName ent.name = true

/-- One merge/ld pass fragment from `(b, ex)` to `(b', ex')`: the ops grew
by a delta whose members satisfy `shape`, the claimed-destination set grew
by exactly the destinations of the delta's symlinks, and those
destinations are mutually distinct and fresh. -/
def DeltaChar (b b' : BwrapBuilder) (ex ex' : List String) (shape : Op → Prop) : Prop :=
  ∃ δ, b'.ops = b.ops ++ δ ∧ (∀ op ∈ δ, shape op) ∧
    (∀ dd, dd ∈ ex' ↔ dd ∈ ex ∨ ∃ s, Op.symlink s dd ∈ δ) ∧
    (δ.filterMap symDst).Nodup ∧
    (∀ dd ∈ δ.filterMap symDst, dd ∉ ex)

/-- DeltaChar on the result of the entries/merge-dirs loops. -/
def MChar3 (b : BwrapBuilder) (ex : List String) (shape : Op → Prop) :
    Except String (BwrapBuilder × List String × List String) → Prop
  | .error _ => True
  | .ok (b', _, ex') => DeltaChar b b' ex ex' shape

/-- DeltaChar on the result of the per-mount and mounts loops. -/
def MChar2 (b : BwrapBuilder) (ex : List String) (shape : Op → Prop) :
    Except String (BwrapBuilder × List String) → Prop
  | .error _ => True
  | .ok (b', ex') => DeltaChar b b' ex ex' shape

/-- The shape of every symlink the entries loop can emit for one merge
directory of one mount. -/
def entrySymShape (extension_base_mount_path target merge_dir : String)
    (es : List (Except String DirEntry)) (op : Op) : Prop :=
  ∃ ent, Except.ok ent ∈ es ∧ ent.isFileResult = .ok true ∧
    op = .symlink (pathJoin (pathJoin target merge_dir) ent.name)
                  (pathJoin (pathJoin extension_base_mount_path merge_dir) ent.name)

/-- The shape of every symlink one mount's merge-dirs pass can emit. -/
def mountSymShape (fs : FS) (extension_metadata : KeyMap)
    (extension_base_mount_path source target : String) (op : Op) : Prop :=
  ∃ merge_dirs_str, kget extension_metadata "merge-dirs" = some merge_dirs_str ∧
    ∃ merge_dir ∈ splitOnChar ';' merge_dirs_str, ∃ es,
      fs.readDir (pathJoin source merge_dir) = .ok es ∧
      entrySymShape extension_base_mount_path target merge_dir es op

/-- The mount `(source, target)` exposes the in-sandbox destination `d`
through one of the merge directories. -/
def mountExposesHyp (fs : FS) (extension_base_mount_path source : String)
    (merge_dirs : List String) (d : String) : Prop :=
  ∃ md ∈ merge_dirs, ∃ es, fs.readDir (pathJoin source md) = .ok es ∧
    ∃ ent, Except.ok ent ∈ es ∧ ent.isFileResult = .ok true ∧
      pathJoin (pathJoin extension_base_mount_path md) ent.name = d

/-- `src` is the merge-pass symlink source pointing into mount
`(source, target)` for destination `d`. -/
def mountSrcP (fs : FS) (extension_base_mount_path source target : String)
    (merge_dirs : List String) (d src : String) : Prop :=
  ∃ md ∈ merge_dirs, ∃ es, fs.readDir (pathJoin source md) = .ok es ∧
    ∃ ent, Except.ok ent ∈ es ∧ ent.isFileResult = .ok true ∧
      src = pathJoin (pathJoin target md) ent.name ∧
      pathJoin (pathJoin extension_base_mount_path md) ent.name = d

/-- First-writer-wins bookkeeping invariant of one mount's merge pass:
every already-processed source path has its destination claimed. -/
def MergeInv (source extension_base_mount_path : String)
    (processed_paths existing_symlinks : List String) : Prop :=
  ∀ m n : String, simpleName m = true → simpleName n = true →
    pathJoin (pathJoin source m) n ∈ processed_paths →
    pathJoin (pathJoin extension_base_mount_path m) n ∈ existing_symlinks

/-- The invariant holds of the state a loop returns. -/
def InvAfter3 (source extension_base_mount_path : String) :
    Except String (BwrapBuilder × List String × List String) → Prop
  | .error _ => True
  | .ok (_, proc', ex') => MergeInv source extension_base_mount_path proc' ex'

/-- A symlink to `d` with a source satisfying `P` has been emitted and
`d` is claimed, stable under the rest of the pass. -/
def StableD3 (d : String) (P : String → Prop) :
    Except String (BwrapBuilder × List String × List String) → Prop
  | .error _ => True
  | .ok (b', _, ex') => (∃ src, Op.symlink src d ∈ b'.ops ∧ P src) ∧ d ∈ ex'

/-- StableD3 for the pair-returning loops. -/
def StableD2 (d : String) (P : String → Prop) :
    Except String (BwrapBuilder × List String) → Prop
  | .error _ => True
  | .ok (b', ex') => (∃ src, Op.symlink src d ∈ b'.ops ∧ P src) ∧ d ∈ ex'

/-- The shape of every symlink the per-mount merge-dirs loop can emit. -/
def dirSymShape (fs : FS) (extension_base_mount_path target source : String)
    (merge_dirs : List String) (op : Op) : Prop :=
  ∃ md ∈ merge_dirs, ∃ es, fs.readDir (pathJoin source md) = .ok es ∧
    entrySymShape extension_base_mount_path target md es op

/-- The error-propagating continuation pattern of the merge loops. -/
def bindLoop3 (r : Except String (BwrapBuilder × List String × List String))
    (k : BwrapBuilder → List String → List String →
      Except String (BwrapBuilder × List String × List String)) :
    Except String (BwrapBuilder × List String × List String) :=
  match r with
  | .error e => .error e
  | .ok (c, p, x) => k c p x

/-- The error-propagating continuation pattern of the mount loops. -/
def bindLoop2 (r : Except String (BwrapBuilder × List String))
    (k : BwrapBuilder → List String → Except String (BwrapBuilder × List String)) :
    Except String (BwrapBuilder × List String) :=
  match r with
  | .error e => .error e
  | .ok (c, x) => k c x

/-- The shape of every operation one mount's post pass can append:
either destination-free (the ld.so.conf drop-in) or a merge symlink of
this mount's shape. -/
def mountPostShape (fs : FS) (extension_metadata : KeyMap)
    (extension_base_mount_path source target : String) (op : Op) : Prop :=
  symDst op = none ∨ mountSymShape fs extension_metadata extension_base_mount_path
    source target op

/-- The shape of every operation the whole mounts loop can append. -/
def mountsShape (fs : FS) (extension_metadata : KeyMap) (extension_base_mount_path : String)
    (mounts : List (String × String)) (op : Op) : Prop :=
  symDst op = none ∨ ∃ st ∈ mounts,
    mountSymShape fs extension_metadata extension_base_mount_path st.1 st.2 op

/-- The final unwrap step of setup_extension. -/
def bindFinal (r : Except String (BwrapBuilder × List String)) :
    Except String BwrapBuilder :=
  match r with
  | .error e => .error e
  | .ok (c, _) => .ok c

/-- The result predicate of setup_extension used by the C8 theorem. -/
def SEOut (Q : BwrapBuilder → Prop) : Except String BwrapBuilder → Prop
  | .error _ => True
  | .ok b' => Q b'

/-- C8 witness fixture: two implementations A and B of one extension,
both exposing lib/foo.so under the declared merge directory. -/
def c8Meta : KeyMap := [("directory", "ext"), ("merge-dirs", "lib"), ("version", "1")]

def c8SrcA : String := "/inst/runtime/org.ex.Ext.A/x86_64/1/active/files"

def c8SrcB : String := "/inst/runtime/org.ex.Ext.B/x86_64/1/active/files"

def c8Entries : List (Except String DirEntry) :=
  [Except.ok ⟨"foo.so", true, Except.ok true⟩]

def c8FS : FS :=
  { readDir := fun p =>
      if p = "/inst/runtime/org.ex.Ext.A/x86_64/1/active/files/lib" then .ok c8Entries
      else if p = "/inst/runtime/org.ex.Ext.B/x86_64/1/active/files/lib" then .ok c8Entries
      else .error "io"
    pathExists := fun p => p = c8SrcA || p = c8SrcB
    readFile := fun _ => .error "io"
    readLink := fun _ => none }

def c8Result : BwrapBuilder :=
  match setup_extension c8FS c8Meta (BwrapBuilder.new "/td") "org.ex.Ext" "x86_64" "1"
      ["org.ex.Ext.A", "org.ex.Ext.B"] ["/inst"] "/app" with
  | .ok b => b
  | .error _ => BwrapBuilder.new ""

/-! ## Claim C1: exit-code relay -/

theorem relay_some_of_bounds (c : Int) (h0 : 0 ≤ c) (h255 : c ≤ 255) :
    relay_exit_code (some c) = c.toNat := by
  simp [relay_exit_code, h0, h255]

/-- Claim C1 (counterexample): the claim says a signal-terminated child
produces a generic non-zero exit code, but the code maps the signal case
(`ExitStatus::code()` returning none) to `ExitCode::SUCCESS`, which is
exit code 0. -/
theorem c1_signal_gives_success_cex : relay_exit_code none = 0 := rfl

/-- Claim C1 (amended): a normally exiting child's status (always in
0..=255 on Unix) is relayed as the program's exit code, while a child
terminated by a signal yields the generic success exit code 0 rather than
a non-zero code. -/
theorem c1_exit_relay_amended (c : Int) (h0 : 0 ≤ c) (h255 : c ≤ 255) :
    relay_exit_code (some c) = c.toNat ∧ relay_exit_code none = 0 :=
  ⟨relay_some_of_bounds c h0 h255, rfl⟩

/-- Witness for the amended C1 at the concrete exit status 7. -/
theorem c1_exit_relay_amended_witness :
    relay_exit_code (some 7) = 7 ∧ relay_exit_code none = 0 :=
  c1_exit_relay_amended 7 (by decide) (by decide)

/-! ## Claim C10: runtime enumeration error behaviour -/

theorem runtime_entries_to_names_error (es : List (Except String DirEntry))
    (hbad : ∃ x ∈ es, badRuntimeEntry x = true) :
    ∃ e, runtime_entries_to_names es = .error e := by
  induction es with
  | nil => rcases hbad with ⟨x, hx, _⟩; cases hx
  | cons head rest ih =>
    cases head with
    | error e => exact ⟨"Could not read entry", rfl⟩
    | ok ent =>
      by_cases hv : ent.nameValidUtf8
      · rcases hbad with ⟨x, hx, hbx⟩
        rcases List.mem_cons.mp hx with rfl | hx
        · simp [badRuntimeEntry, hv] at hbx
        · rcases ih ⟨x, hx, hbx⟩ with ⟨e, he⟩
          exact ⟨e, by simp [runtime_entries_to_names, hv, he, Except.map]⟩
      · exact ⟨"Invalid runtime name", by simp [runtime_entries_to_names, hv]⟩

theorem list_available_runtimes_skips_unreadable (fs : FS) (d : String) (e : String)
    (pre post : List String) (hd : fs.readDir (pathJoin d "runtime") = .error e) :
    list_available_runtimes fs (pre ++ d :: post) = list_available_runtimes fs (pre ++ post) := by
  induction pre with
  | nil => simp [list_available_runtimes, hd]
  | cons p rest ih =>
    simp only [List.cons_append, list_available_runtimes, List.append_eq]
    rw [ih]

theorem list_available_runtimes_fails_on_bad_entry (fs : FS) (d : String)
    (dirs : List String) (es : List (Except String DirEntry))
    (hmem : d ∈ dirs) (hok : fs.readDir (pathJoin d "runtime") = .ok es)
    (hbad : ∃ x ∈ es, badRuntimeEntry x = true) :
    ∃ e, list_available_runtimes fs dirs = .error e := by
  induction dirs with
  | nil => cases hmem
  | cons p rest ih =>
    rcases List.mem_cons.mp hmem with rfl | hmem
    · rcases runtime_entries_to_names_error es hbad with ⟨e, he⟩
      exact ⟨e, by simp [list_available_runtimes, hok, he]⟩
    · rcases ih hmem with ⟨e, he⟩
      cases hread : fs.readDir (pathJoin p "runtime") with
      | error f => exact ⟨e, by simp [list_available_runtimes, hread, he]⟩
      | ok es' =>
        cases hnames : runtime_entries_to_names es' with
        | error f => exact ⟨f, by simp [list_available_runtimes, hread, hnames]⟩
        | ok names =>
          exact ⟨e, by simp [list_available_runtimes, hread, hnames, he, Except.map]⟩

/-- Claim C10: an install root whose runtime subdirectory fails to open is
silently skipped (the enumeration of the remaining roots is unchanged),
while a readable runtime subdirectory containing an entry whose read
fails or whose file name is not valid UTF-8 makes the whole enumeration
fail. -/
theorem c10_runtime_enumeration (fs : FS) :
    (∀ d e pre post, fs.readDir (pathJoin d "runtime") = .error e →
      list_available_runtimes fs (pre ++ d :: post) = list_available_runtimes fs (pre ++ post)) ∧
    (∀ d dirs es, d ∈ dirs → fs.readDir (pathJoin d "runtime") = .ok es →
      (∃ x ∈ es, badRuntimeEntry x = true) →
      ∃ e, list_available_runtimes fs dirs = .error e) := by
  constructor
  · intro d e pre post hd
    exact list_available_runtimes_skips_unreadable fs d e pre post hd
  · intro d dirs es hmem hok hbad
    exact list_available_runtimes_fails_on_bad_entry fs d dirs es hmem hok hbad

/-- Witness for C10: with the concrete filesystem, the unreadable root /a
is skipped, and the bad entry under /b makes enumeration fail. -/
theorem c10_runtime_enumeration_witness :
    list_available_runtimes c10FS ["/a", "/b"] = list_available_runtimes c10FS ["/b"] ∧
    ∃ e, list_available_runtimes c10FS ["/b"] = .error e :=
  ⟨(c10_runtime_enumeration c10FS).1 "/a" "denied" [] ["/b"] (by decide),
   (c10_runtime_enumeration c10FS).2 "/b" ["/b"] [.ok ⟨"bad", false, .ok false⟩]
     (by decide) (by decide) ⟨.ok ⟨"bad", false, .ok false⟩, by decide, by decide⟩⟩

/-! ## Claim C6: version candidates tried in declared order -/

theorem findSome?_first_hit {α β : Type} (f : α → Option β) (pre : List α) (v : α)
    (post : List α) (p : β) (hpre : ∀ x ∈ pre, f x = none) (hv : f v = some p) :
    (pre ++ v :: post).findSome? f = some p := by
  induction pre with
  | nil => simp [List.findSome?_cons, hv]
  | cons a rest ih =>
    have ha : f a = none := hpre a (List.mem_cons_self a rest)
    simp only [List.cons_append, List.findSome?_cons, ha]
    exact ih (fun x hx => hpre x (List.mem_cons_of_mem a hx))

/-- Claim C6: the semicolon-separated candidate version list is tried
strictly in declared order — whenever the split decomposes as earlier
versions that all fail to resolve, then a version that resolves, the
resolved path of that version is the result for any trailing versions
(so later versions are never consulted) — and an implementation whose
candidate versions all fail to resolve is skipped by the mount loop,
contributing no operations and no recorded mount (and hence no error). -/
theorem c6_version_order (fs : FS) :
    (∀ extension arch allowed_versions install_dirs pre v post p,
      splitOnChar ';' allowed_versions = pre ++ v :: post →
      (∀ x ∈ pre, find_install_path fs (extVersionPath extension arch x) false install_dirs
        = none) →
      find_install_path fs (extVersionPath extension arch v) false install_dirs = some p →
      resolve_impl_path fs extension arch allowed_versions install_dirs = some p) ∧
    (∀ extension_metadata name arch allowed_versions install_dirs
        extension_base_mount_path extension rest b mounted_paths,
      resolve_impl_path fs extension arch allowed_versions install_dirs = none →
      collect_mounts fs extension_metadata name arch allowed_versions install_dirs
          extension_base_mount_path (extension :: rest) b mounted_paths
        = collect_mounts fs extension_metadata name arch allowed_versions install_dirs
          extension_base_mount_path rest b mounted_paths) := by
  constructor
  · intro extension arch allowed_versions install_dirs pre v post p hsplit hpre hv
    unfold resolve_impl_path
    rw [hsplit, List.map_append, List.map_cons]
    exact findSome?_first_hit _ _ _ _ p
      (fun x hx => by
        rcases List.mem_map.mp hx with ⟨y, hy, rfl⟩
        exact hpre y hy) hv
  · intro extension_metadata name arch allowed_versions install_dirs
      extension_base_mount_path extension rest b mounted_paths hnone
    simp only [collect_mounts]
    cases hstrip : stripPre extension (name ++ ".") with
    | none => rfl
    | some impl =>
      simp only []
      by_cases hen : (impl_enable_decision fs extension_metadata name impl).1
      · simp [hen, hnone]
      · simp [hen]

/-- Witness for C6: with versions `3;2;1` declared and versions 2 and 1
present on disk, version 2 is chosen; and an implementation resolving no
version is skipped by the mount loop. -/
theorem c6_version_order_witness :
    resolve_impl_path c6FS "org.ex.Ext.impl" "x86_64" "3;2;1" ["/inst"]
      = some "/inst/runtime/org.ex.Ext.impl/x86_64/2/active/files" ∧
    collect_mounts c6FS [] "org.ex.Ext" "x86_64" "9" ["/inst"] "/usr/ext"
        ["org.ex.Ext.impl"] (BwrapBuilder.new "/td") []
      = collect_mounts c6FS [] "org.ex.Ext" "x86_64" "9" ["/inst"] "/usr/ext"
        [] (BwrapBuilder.new "/td") [] :=
  ⟨(c6_version_order c6FS).1 "org.ex.Ext.impl" "x86_64" "3;2;1" ["/inst"] ["3"] "2" ["1"]
      "/inst/runtime/org.ex.Ext.impl/x86_64/2/active/files"
      (by decide) (by decide) (by decide),
   (c6_version_order c6FS).2 [] "org.ex.Ext" "x86_64" "9" ["/inst"] "/usr/ext"
      "org.ex.Ext.impl" [] (BwrapBuilder.new "/td") [] (by decide)⟩

/-! ## Claim C7: active-gl-driver enablement -/

/-- Claim C7: under enable-if = active-gl-driver, implementations named
default or host are enabled; an implementation named nvidia-<ver> is
enabled exactly when the host driver version file reads successfully and
its trimmed contents with dots replaced by dashes equal <ver>; every
other implementation name is disabled; and any other enable-if value
disables the implementation while emitting a non-fatal diagnostic. -/
theorem c7_enable_if (fs : FS) (extension_metadata : KeyMap) (name : String) :
    (∀ impl, kget extension_metadata "enable-if" = some "active-gl-driver" →
      (impl = "default" ∨ impl = "host") →
      (impl_enable_decision fs extension_metadata name impl).1 = true) ∧
    (∀ impl ver, kget extension_metadata "enable-if" = some "active-gl-driver" →
      impl ≠ "default" → impl ≠ "host" → stripPre impl "nvidia-" = some ver →
      ((impl_enable_decision fs extension_metadata name impl).1 = true ↔
        ∃ contents, fs.readFile "/sys/module/nvidia/version" = .ok contents ∧
          replaceDotDash (strTrim contents) = ver)) ∧
    (∀ impl, kget extension_metadata "enable-if" = some "active-gl-driver" →
      impl ≠ "default" → impl ≠ "host" → stripPre impl "nvidia-" = none →
      (impl_enable_decision fs extension_metadata name impl).1 = false) ∧
    (∀ impl enable_if, kget extension_metadata "enable-if" = some enable_if →
      enable_if ≠ "active-gl-driver" →
      impl_enable_decision fs extension_metadata name impl
        = (false, [unsupported_enable_if_msg enable_if name])) := by
  refine ⟨?_, ?_, ?_, ?_⟩
  · intro impl hget hname
    unfold impl_enable_decision
    rw [hget]
    rcases hname with rfl | rfl <;> simp
  · intro impl ver hget hd hh hstrip
    cases hread : fs.readFile "/sys/module/nvidia/version" with
    | ok contents =>
      simp [impl_enable_decision, hget, hd, hh, hstrip, hread]
    | error e =>
      simp [impl_enable_decision, hget, hd, hh, hstrip, hread]
  · intro impl hget hd hh hstrip
    simp [impl_enable_decision, hget, hd, hh, hstrip]
  · intro impl enable_if hget hne
    simp [impl_enable_decision, hget, hne]

/-- Witness for C7: default is enabled, nvidia-550-100 is enabled against
the 550.100 driver, nvidia-1 and an unrelated name are disabled, and an
unknown predicate disables with a diagnostic. -/
theorem c7_enable_if_witness :
    (impl_enable_decision c7FS c7Meta "Ext" "default").1 = true ∧
    (impl_enable_decision c7FS c7Meta "Ext" "nvidia-550-100").1 = true ∧
    (impl_enable_decision c7FS c7Meta "Ext" "nvidia-1").1 = false ∧
    (impl_enable_decision c7FS c7Meta "Ext" "other").1 = false ∧
    impl_enable_decision c7FS c7MetaUnknown "Ext" "default"
      = (false, [unsupported_enable_if_msg "custom-thing" "Ext"]) := by
  have h := c7_enable_if c7FS c7Meta "Ext"
  have hu := c7_enable_if c7FS c7MetaUnknown "Ext"
  refine ⟨h.1 "default" rfl (Or.inl rfl), ?_, ?_, ?_, hu.2.2.2 "default" "custom-thing" rfl (by decide)⟩
  · exact (h.2.1 "nvidia-550-100" "550-100" rfl (by decide) (by decide) (by decide)).mpr
      ⟨"550.100\n", rfl, by decide⟩
  · refine Bool.eq_false_iff.mpr (fun ht => ?_)
    rcases (h.2.1 "nvidia-1" "1" rfl (by decide) (by decide) (by decide)).mp ht with ⟨c, hc, hr⟩
    have hc2 : Except.ok (ε := String) "550.100\n" = Except.ok c := hc
    cases hc2
    exact absurd hr (by decide)
  · exact h.2.2.1 "other" rfl (by decide) (by decide) (by decide)

/-- Claim C5 (counterexample): for an app extension declaration with
neither version nor versions, the candidate version is the literal
master, not the owning runtime's version component 48 — so the
implementation installed under version 48 is not mounted even though it
exists, and the produced operations are just the base tmpfs. -/
theorem c5_app_default_version_cex :
    app_ext_version [("directory", "ext")] = "master" ∧ ("master" : String) ≠ "48" ∧
    c5FS.pathExists "/inst/runtime/org.ex.Ext.impl/x86_64/48/active/files" = true ∧
    setup_app_extensions c5FS c5AppMeta (BwrapBuilder.new "/td") ["org.ex.Ext.impl"] ["/inst"]
      = .ok { ops := [Op.tmpfs "/app/ext"], tempdir := "/td", nfiles := 0 } := by
  decide

/-- Claim C5 (amended): for every app extension declaration with neither
a version nor a versions field, the candidate version set used for
resolution is exactly the single literal version master (the fallback in
setup_app_extensions), not the version component of the owning runtime's
identifier. -/
theorem c5_app_default_version_amended (metadata : KeyMap)
    (hv : kget metadata "version" = none) (hvs : kget metadata "versions" = none) :
    app_ext_version metadata = "master" ∧
    allowed_versions_of metadata (app_ext_version metadata) = "master" ∧
    splitOnChar ';' (allowed_versions_of metadata (app_ext_version metadata)) = ["master"] := by
  have h1 : app_ext_version metadata = "master" := by
    simp [app_ext_version, hv, hvs, Option.orElse]
  have h2 : allowed_versions_of metadata "master" = "master" := by
    simp [allowed_versions_of, hv, hvs, Option.orElse]
  exact ⟨h1, by rw [h1]; exact h2, by rw [h1, h2]; decide⟩

/-- Witness for the amended C5 at a declaration with only a directory
field. -/
theorem c5_app_default_version_amended_witness :
    app_ext_version [("directory", "ext")] = "master" ∧
    allowed_versions_of [("directory", "ext")] (app_ext_version [("directory", "ext")])
      = "master" ∧
    splitOnChar ';'
        (allowed_versions_of [("directory", "ext")] (app_ext_version [("directory", "ext")]))
      = ["master"] :=
  c5_app_default_version_amended [("directory", "ext")] (by decide) (by decide)

/-- Claim C3 (code divergence): an app-origin extension (base path /app)
with add-ld-path emits its dynamic-linker drop-in with the runtime-
marker file name `runtime-<extension>.<impl>.conf` — the same fixed
marker as runtime-origin extensions — although the injected
/etc/ld.so.conf expects app-origin drop-ins to match `app-*.conf`. The
virtual file body is the single newline-terminated absolute
mount-relative search path, as claimed. -/
theorem c3_app_ld_conf_uses_runtime_marker :
    setup_extension c3FS c3Meta (BwrapBuilder.new "/td") "org.ex.Ext" "x86_64" "1"
      ["org.ex.Ext.impl"] ["/inst"] "/app"
    = .ok { ops :=
              [ Op.tmpfs "/app/ext"
              , Op.roBind "/inst/runtime/org.ex.Ext.impl/x86_64/1/active/files" "/app/ext/impl"
              , Op.roBindData "/td/tempfile-0"
                  "/run/flatpak/ld.so.conf.d/runtime-org.ex.Ext.impl.conf"
                  "/app/ext/impl/lib\n" ]
            tempdir := "/td", nfiles := 1 } ∧
    (LD_SO_CONF_CONTENTS.data.take 45).asString = "include /run/flatpak/ld.so.conf.d/app-*.conf\n" := by
  decide

theorem collect_mounts_snd_builder_independent (fs : FS) (extension_metadata : KeyMap)
    (name arch allowed_versions : String) (install_dirs : List String)
    (extension_base_mount_path : String) (rts : List String) :
    ∀ b₁ b₂ m,
      (collect_mounts fs extension_metadata name arch allowed_versions install_dirs
        extension_base_mount_path rts b₁ m).2
      = (collect_mounts fs extension_metadata name arch allowed_versions install_dirs
        extension_base_mount_path rts b₂ m).2 := by
  induction rts with
  | nil => intro b₁ b₂ m; rfl
  | cons extension rest ih =>
    intro b₁ b₂ m
    simp only [collect_mounts]
    cases stripPre extension (name ++ ".") with
    | none => exact ih b₁ b₂ m
    | some impl =>
      by_cases hen : (impl_enable_decision fs extension_metadata name impl).1
      · simp only [hen, if_true]
        cases resolve_impl_path fs extension arch allowed_versions install_dirs with
        | none => exact ih b₁ b₂ m
        | some p => exact ih _ _ _
      · simp only [hen, if_false]
        exact ih b₁ b₂ m

theorem collect_mounts_snd_eq_recorded (fs : FS) (extension_metadata : KeyMap)
    (name arch allowed_versions : String) (install_dirs : List String)
    (extension_base_mount_path : String) (rts : List String) (b : BwrapBuilder) :
    (collect_mounts fs extension_metadata name arch allowed_versions install_dirs
      extension_base_mount_path rts b []).2
    = recorded_mounts fs extension_metadata name arch allowed_versions install_dirs
      extension_base_mount_path rts :=
  collect_mounts_snd_builder_independent fs extension_metadata name arch allowed_versions
    install_dirs extension_base_mount_path rts b (BwrapBuilder.new "") []

theorem merge_entries_fatal (extension_base_mount_path target source merge_dir : String)
    (es : List (Except String DirEntry)) (hbad : ∃ x ∈ es, badMergeEntry x = true) :
    ∀ b processed_paths existing_symlinks,
      ∃ e, merge_entries extension_base_mount_path target source merge_dir es b
        processed_paths existing_symlinks = .error e := by
  induction es with
  | nil => rcases hbad with ⟨x, hx, _⟩; cases hx
  | cons head rest ih =>
    intro b processed_paths existing_symlinks
    cases head with
    | error e => exact ⟨e, rfl⟩
    | ok ent =>
      cases hft : ent.isFileResult with
      | error e => exact ⟨e, by simp [merge_entries, hft]⟩
      | ok isf =>
        have hrest : ∃ x ∈ rest, badMergeEntry x = true := by
          rcases hbad with ⟨x, hx, hbx⟩
          rcases List.mem_cons.mp hx with rfl | hx
          · simp [badMergeEntry, hft] at hbx
          · exact ⟨x, hx, hbx⟩
        cases isf with
        | false =>
          rcases ih hrest b processed_paths existing_symlinks with ⟨e, he⟩
          exact ⟨e, by simp [merge_entries, hft, he]⟩
        | true =>
          simp only [merge_entries, hft]
          by_cases hp : pathJoin (pathJoin source merge_dir) ent.name ∈ processed_paths
          · simp only [hp, if_true]
            exact (ih hrest) b processed_paths existing_symlinks
          · simp only [hp, if_false]
            by_cases hex : pathJoin (pathJoin extension_base_mount_path merge_dir) ent.name
                ∈ existing_symlinks
            · simp only [hex, if_true]
              exact (ih hrest) _ _ _
            · simp only [hex, if_false]
              exact (ih hrest) _ _ _

theorem merge_dirs_loop_fatal (fs : FS) (extension_base_mount_path target source : String)
    (merge_dir : String) (es : List (Except String DirEntry))
    (mdirs : List String) (hmem : merge_dir ∈ mdirs)
    (hok : fs.readDir (pathJoin source merge_dir) = .ok es)
    (hbad : ∃ x ∈ es, badMergeEntry x = true) :
    ∀ b processed_paths existing_symlinks,
      ∃ e, merge_dirs_loop fs extension_base_mount_path target source mdirs b
        processed_paths existing_symlinks = .error e := by
  induction mdirs with
  | nil => cases hmem
  | cons head rest ih =>
    intro b processed_paths existing_symlinks
    rcases List.mem_cons.mp hmem with rfl | hmem
    · rcases merge_entries_fatal extension_base_mount_path target source merge_dir es hbad
        b processed_paths existing_symlinks with ⟨e, he⟩
      exact ⟨e, by simp [merge_dirs_loop, hok, he]⟩
    · cases hread : fs.readDir (pathJoin source head) with
      | error f =>
        rcases ih hmem b processed_paths existing_symlinks with ⟨e, he⟩
        exact ⟨e, by simp [merge_dirs_loop, hread, he]⟩
      | ok es' =>
        cases hme : merge_entries extension_base_mount_path target source head es' b
            processed_paths existing_symlinks with
        | error f => exact ⟨f, by simp [merge_dirs_loop, hread, hme]⟩
        | ok triple =>
          rcases triple with ⟨b', proc', ex'⟩
          rcases ih hmem b' proc' ex' with ⟨e, he⟩
          exact ⟨e, by simp [merge_dirs_loop, hread, hme, he]⟩

theorem setup_mount_post_fatal (fs : FS) (extension_metadata : KeyMap)
    (name extension_base_mount_path source target : String)
    (merge_dirs_str merge_dir : String) (es : List (Except String DirEntry))
    (hmd : kget extension_metadata "merge-dirs" = some merge_dirs_str)
    (hmem : merge_dir ∈ splitOnChar ';' merge_dirs_str)
    (hok : fs.readDir (pathJoin source merge_dir) = .ok es)
    (hbad : ∃ x ∈ es, badMergeEntry x = true) :
    ∀ b existing_symlinks,
      ∃ e, setup_mount_post fs extension_metadata name extension_base_mount_path
        source target b existing_symlinks = .error e := by
  intro b existing_symlinks
  rcases merge_dirs_loop_fatal fs extension_base_mount_path target source merge_dir es
      (splitOnChar ';' merge_dirs_str) hmem hok hbad b [] existing_symlinks with ⟨e, he⟩
  exact ⟨e, by simp [setup_mount_post, hmd, he]⟩

theorem mounts_post_loop_fatal (fs : FS) (extension_metadata : KeyMap)
    (name extension_base_mount_path source target : String)
    (merge_dirs_str merge_dir : String) (es : List (Except String DirEntry))
    (mounts : List (String × String))
    (hmount : (source, target) ∈ mounts)
    (hmd : kget extension_metadata "merge-dirs" = some merge_dirs_str)
    (hmem : merge_dir ∈ splitOnChar ';' merge_dirs_str)
    (hok : fs.readDir (pathJoin source merge_dir) = .ok es)
    (hbad : ∃ x ∈ es, badMergeEntry x = true) :
    ∀ b existing_symlinks,
      ∃ e, mounts_post_loop fs extension_metadata name extension_base_mount_path
        mounts b existing_symlinks = .error e := by
  revert hmount
  induction mounts with
  | nil => intro h; cases h
  | cons head rest ih =>
    intro hmount b existing_symlinks
    rcases List.mem_cons.mp hmount with heq | hmem2
    · rcases head with ⟨s, t⟩
      rcases Prod.mk.injEq .. ▸ heq with ⟨rfl, rfl⟩
      rcases setup_mount_post_fatal fs extension_metadata name extension_base_mount_path
        source target merge_dirs_str merge_dir es hmd hmem hok hbad b existing_symlinks
        with ⟨e, he⟩
      exact ⟨e, by simp [mounts_post_loop, he]⟩
    · rcases head with ⟨s, t⟩
      cases hm : setup_mount_post fs extension_metadata name extension_base_mount_path
          s t b existing_symlinks with
      | error f => exact ⟨f, by simp [mounts_post_loop, hm]⟩
      | ok pair =>
        rcases pair with ⟨b', ex'⟩
        rcases ih hmem2 b' ex' with ⟨e, he⟩
        exact ⟨e, by simp [mounts_post_loop, hm, he]⟩

/-- Claim C2 (amended): a filesystem error opening a recorded mount's
merge directory for listing is skipped silently (that directory
contributes nothing and processing continues), whereas a read error on an
individual entry of a successfully opened merge directory — or on its
file type — aborts the extension setup with a propagated error, so no
specification is produced from it. -/
theorem c2_merge_dirs_failure_amended (fs : FS) :
    (∀ extension_base_mount_path target source merge_dir rest b processed_paths
        existing_symlinks e,
      fs.readDir (pathJoin source merge_dir) = .error e →
      merge_dirs_loop fs extension_base_mount_path target source (merge_dir :: rest) b
          processed_paths existing_symlinks
        = merge_dirs_loop fs extension_base_mount_path target source rest b
          processed_paths existing_symlinks) ∧
    (∀ extension_metadata b name arch runtime_version available_runtimes install_dirs
        base_path directory merge_dirs_str source target merge_dir es,
      kget extension_metadata "directory" = some directory →
      kget extension_metadata "merge-dirs" = some merge_dirs_str →
      (source, target) ∈ recorded_mounts fs extension_metadata name arch
        (allowed_versions_of extension_metadata runtime_version) install_dirs
        (pathJoin base_path directory) available_runtimes →
      merge_dir ∈ splitOnChar ';' merge_dirs_str →
      fs.readDir (pathJoin source merge_dir) = .ok es →
      (∃ x ∈ es, badMergeEntry x = true) →
      ∃ e, setup_extension fs extension_metadata b name arch runtime_version
        available_runtimes install_dirs base_path = .error e) := by
  constructor
  · intro extension_base_mount_path target source merge_dir rest b processed_paths
      existing_symlinks e hread
    simp [merge_dirs_loop, hread]
  · intro extension_metadata b name arch runtime_version available_runtimes install_dirs
      base_path directory merge_dirs_str source target merge_dir es hdir hmd hmount hmem
      hok hbad
    have hmount2 : (source, target) ∈ (collect_mounts fs extension_metadata name arch
        (allowed_versions_of extension_metadata runtime_version) install_dirs
        (pathJoin base_path directory) available_runtimes
        ((b.tmpfs (pathJoin base_path directory))) []).2 := by
      rw [collect_mounts_snd_eq_recorded]
      exact hmount
    rcases mounts_post_loop_fatal fs extension_metadata name (pathJoin base_path directory)
        source target merge_dirs_str merge_dir es _ hmount2 hmd hmem hok hbad
        (collect_mounts fs extension_metadata name arch
          (allowed_versions_of extension_metadata runtime_version) install_dirs
          (pathJoin base_path directory) available_runtimes
          ((b.tmpfs (pathJoin base_path directory))) []).1 []
      with ⟨e, he⟩
    exact ⟨e, by simp [setup_extension, hdir, he]⟩

/-- Claim C2 (counterexample): with a recorded mount whose merge
directory fails to open for listing, the whole extension setup still
succeeds — the filesystem read error is swallowed by the
`if let Ok(entries)` in the merge pass rather than propagated, so the
claim that any such read error fails the composition is false. -/
theorem c2_merge_open_error_swallowed_cex :
    c2FS.readDir (pathJoin c2SrcPath "lib") = .error "io" ∧
    (c2SrcPath, "/usr/ext/impl") ∈ recorded_mounts c2FS c2Meta "org.ex.Ext" "x86_64"
      (allowed_versions_of c2Meta "1") ["/inst"] "/usr/ext" ["org.ex.Ext.impl"] ∧
    setup_extension c2FS c2Meta (BwrapBuilder.new "/td") "org.ex.Ext" "x86_64" "1"
      ["org.ex.Ext.impl"] ["/inst"] "/usr"
      = .ok { ops := [Op.tmpfs "/usr/ext", Op.roBind c2SrcPath "/usr/ext/impl"]
              tempdir := "/td", nfiles := 0 } := by
  decide

/-- Witness for the amended C2: the open failure is skipped by the merge
loop, and the unreadable entry makes the extension setup fail. -/
theorem c2_merge_dirs_failure_amended_witness :
    (merge_dirs_loop c2FS "/usr/ext" "/usr/ext/impl" c2SrcPath ["lib"]
        (BwrapBuilder.new "/td") [] []
      = merge_dirs_loop c2FS "/usr/ext" "/usr/ext/impl" c2SrcPath []
        (BwrapBuilder.new "/td") [] []) ∧
    (∃ e, setup_extension c2BadFS c2Meta (BwrapBuilder.new "/td") "org.ex.Ext" "x86_64" "1"
      ["org.ex.Ext.impl"] ["/inst"] "/usr" = .error e) :=
  ⟨(c2_merge_dirs_failure_amended c2FS).1 "/usr/ext" "/usr/ext/impl" c2SrcPath "lib" []
      (BwrapBuilder.new "/td") [] [] "io" (by decide),
   (c2_merge_dirs_failure_amended c2BadFS).2 c2Meta (BwrapBuilder.new "/td") "org.ex.Ext"
      "x86_64" "1" ["org.ex.Ext.impl"] ["/inst"] "/usr" "ext" "lib" c2SrcPath
      "/usr/ext/impl" "lib" [.error "boom"] (by decide) (by decide) (by decide)
      (by decide) (by decide) ⟨.error "boom", by decide, by decide⟩⟩

theorem EquivB.emit {b₁ b₂ : BwrapBuilder} (h : EquivB b₁ b₂) (o : Op) :
    EquivB (b₁.emit o) (b₂.emit o) :=
  ⟨by simp [BwrapBuilder.emit, h.1], by simp [BwrapBuilder.emit, h.2]⟩

theorem EquivB.rbd {b₁ b₂ : BwrapBuilder} (h : EquivB b₁ b₂) (path contents : String) :
    EquivB (b₁.ro_bind_data path contents) (b₂.ro_bind_data path contents) :=
  ⟨by simp [BwrapBuilder.ro_bind_data, eraseOp, h.1], by simp [BwrapBuilder.ro_bind_data, h.2]⟩

theorem sim_runtime_etc_loop (fs : FS) (runtime_files_path : String) :
    ∀ es (b₁ b₂ : BwrapBuilder), EquivB b₁ b₂ →
      EquivE (runtime_etc_loop fs runtime_files_path es b₁)
        (runtime_etc_loop fs runtime_files_path es b₂) := by
  intro es
  induction es with
  | nil => intro b₁ b₂ h; exact h
  | cons head rest ih =>
    intro b₁ b₂ h
    cases head with
    | error e => exact rfl
    | ok ent =>
      simp only [runtime_etc_loop]
      cases fs.readLink (pathJoin (pathJoin runtime_files_path "etc") ent.name) with
      | some t => exact ih _ _ (h.emit _)
      | none => exact ih _ _ (h.emit _)

theorem sim_merged_dirs_loop (fs : FS) (runtime_files_path : String) :
    ∀ dirs (b₁ b₂ : BwrapBuilder), EquivB b₁ b₂ →
      EquivB (merged_dirs_loop fs runtime_files_path dirs b₁)
        (merged_dirs_loop fs runtime_files_path dirs b₂) := by
  intro dirs
  induction dirs with
  | nil => intro b₁ b₂ h; exact h
  | cons dir rest ih =>
    intro b₁ b₂ h
    simp only [merged_dirs_loop]
    by_cases hex : fs.pathExists (pathJoin runtime_files_path dir)
    · simp only [hex, if_true]; exact ih _ _ (h.emit _)
    · simp only [hex, if_false]; exact ih _ _ h

theorem sim_setup_runtime (fs : FS) (runtime_files_path : String)
    (app_files_path : Option String) (b₁ b₂ : BwrapBuilder) (h : EquivB b₁ b₂) :
    EquivE (setup_runtime fs b₁ runtime_files_path app_files_path)
      (setup_runtime fs b₂ runtime_files_path app_files_path) := by
  have main : ∀ c₁ c₂ : BwrapBuilder, EquivB c₁ c₂ →
      ∀ es, EquivE
        (match runtime_etc_loop fs runtime_files_path es c₁ with
          | .error e => .error e
          | .ok b =>
            .ok ((merged_dirs_loop fs runtime_files_path ROOT_USR_MERGED_DIRS
              b).ro_bind_data "/.flatpak-info" ""))
        (match runtime_etc_loop fs runtime_files_path es c₂ with
          | .error e => .error e
          | .ok b =>
            .ok ((merged_dirs_loop fs runtime_files_path ROOT_USR_MERGED_DIRS
              b).ro_bind_data "/.flatpak-info" "")) := by
    intro c₁ c₂ hc es
    have h2 := sim_runtime_etc_loop fs runtime_files_path es c₁ c₂ hc
    revert h2
    cases runtime_etc_loop fs runtime_files_path es c₁ with
    | error e =>
      cases runtime_etc_loop fs runtime_files_path es c₂ with
      | error f => intro h2; exact h2
      | ok d₂ => intro h2; exact False.elim h2
    | ok d₁ =>
      cases runtime_etc_loop fs runtime_files_path es c₂ with
      | error f => intro h2; exact False.elim h2
      | ok d₂ =>
        intro h2
        exact (sim_merged_dirs_loop fs runtime_files_path ROOT_USR_MERGED_DIRS _ _ h2).rbd _ _
  cases app_files_path with
  | none =>
    unfold setup_runtime
    cases fs.readDir (pathJoin runtime_files_path "etc") with
    | error e => exact rfl
    | ok es => exact main _ _ (h.emit _) es
  | some app_path =>
    unfold setup_runtime
    cases fs.readDir (pathJoin runtime_files_path "etc") with
    | error e => exact rfl
    | ok es => exact main _ _ ((h.emit _).emit _) es

theorem sim_root_entries_loop :
    ∀ es (b₁ b₂ : BwrapBuilder), EquivB b₁ b₂ →
      EquivE (root_entries_loop es b₁) (root_entries_loop es b₂) := by
  intro es
  induction es with
  | nil => intro b₁ b₂ h; exact h
  | cons head rest ih =>
    intro b₁ b₂ h
    cases head with
    | error e => exact rfl
    | ok ent =>
      simp only [root_entries_loop]
      by_cases hv : ent.nameValidUtf8
      · simp only [hv, if_true]
        by_cases hf : FORBIDDEN_HOST_ROOT_DIRS.contains ent.name
            || ROOT_USR_MERGED_DIRS.contains ent.name
        · simp only [hf, if_true]; exact ih _ _ h
        · simp only [hf, if_false]; exact ih _ _ (h.emit _)
      · simp only [hv, if_false]; exact ih _ _ h

theorem sim_run_entries_loop (fs : FS) :
    ∀ es (b₁ b₂ : BwrapBuilder), EquivB b₁ b₂ →
      EquivE (run_entries_loop fs es b₁) (run_entries_loop fs es b₂) := by
  intro es
  induction es with
  | nil => intro b₁ b₂ h; exact h
  | cons head rest ih =>
    intro b₁ b₂ h
    cases head with
    | error e => exact rfl
    | ok ent =>
      simp only [run_entries_loop]
      by_cases hv : ent.nameValidUtf8
      · simp only [hv, if_true]
        by_cases hf : FORBIDDEN_RUN_DIRS.contains ent.name
        · simp only [hf, if_true]; exact ih _ _ h
        · simp only [hf, if_false]
          by_cases hex : fs.pathExists (pathJoin "/run" ent.name)
          · simp only [hex, if_true]; exact ih _ _ (h.emit _)
          · simp only [hex, if_false]; exact ih _ _ h
      · simp only [hv, if_false]; exact ih _ _ h

theorem sim_etc_expose_loop (fs : FS) :
    ∀ names (b₁ b₂ : BwrapBuilder), EquivB b₁ b₂ →
      EquivB (etc_expose_loop fs names b₁) (etc_expose_loop fs names b₂) := by
  intro names
  induction names with
  | nil => intro b₁ b₂ h; exact h
  | cons name rest ih =>
    intro b₁ b₂ h
    simp only [etc_expose_loop]
    by_cases hex : fs.pathExists (pathJoin "/etc" name)
    · simp only [hex, if_true]; exact ih _ _ (h.emit _)
    · simp only [hex, if_false]; exact ih _ _ h

theorem sim_path_bindings_loop (fs : FS) :
    ∀ table (b₁ b₂ : BwrapBuilder), EquivB b₁ b₂ →
      EquivB (path_bindings_loop fs table b₁) (path_bindings_loop fs table b₂) := by
  intro table
  induction table with
  | nil => intro b₁ b₂ h; exact h
  | cons head rest ih =>
    intro b₁ b₂ h
    rcases head with ⟨source, target, writable⟩
    simp only [path_bindings_loop]
    by_cases hex : fs.pathExists source
    · simp only [hex, if_true]
      cases writable with
      | true => exact ih _ _ (h.emit _)
      | false => exact ih _ _ (h.emit _)
    · simp only [hex, if_false]; exact ih _ _ h

theorem sim_setup_host_root_dirs (fs : FS) (b₁ b₂ : BwrapBuilder) (h : EquivB b₁ b₂) :
    EquivE (setup_host_root_dirs fs b₁) (setup_host_root_dirs fs b₂) := by
  have tail : ∀ c₁ c₂ : BwrapBuilder, EquivB c₁ c₂ → ∀ run_dirs,
      EquivE
        (match run_entries_loop fs run_dirs c₁ with
          | .error e => .error e
          | .ok b =>
            .ok ((((path_bindings_loop fs PATH_BINDINDGS
              (etc_expose_loop fs EXPOSED_ETC_PATHS b)).dev_bind "/dev"
                "/dev")).symlink "/run" "/var/run"))
        (match run_entries_loop fs run_dirs c₂ with
          | .error e => .error e
          | .ok b =>
            .ok ((((path_bindings_loop fs PATH_BINDINDGS
              (etc_expose_loop fs EXPOSED_ETC_PATHS b)).dev_bind "/dev"
                "/dev")).symlink "/run" "/var/run")) := by
    intro c₁ c₂ hc run_dirs
    have h3 := sim_run_entries_loop fs run_dirs c₁ c₂ hc
    revert h3
    cases run_entries_loop fs run_dirs c₁ with
    | error e =>
      cases run_entries_loop fs run_dirs c₂ with
      | error f => intro h3; exact h3
      | ok d₂ => intro h3; exact False.elim h3
    | ok d₁ =>
      cases run_entries_loop fs run_dirs c₂ with
      | error f => intro h3; exact False.elim h3
      | ok d₂ =>
        intro h3
        exact (((sim_path_bindings_loop fs PATH_BINDINDGS _ _
          (sim_etc_expose_loop fs EXPOSED_ETC_PATHS _ _ h3)).emit _).emit _)
  have mid : ∀ root_dirs, EquivE
      (match root_entries_loop root_dirs b₁ with
        | .error e => .error e
        | .ok b =>
          match fs.readDir "/run" with
          | .error e => .error ("Could not read root dir: " ++ e)
          | .ok run_dirs =>
            match run_entries_loop fs run_dirs b with
            | .error e => .error e
            | .ok b =>
              .ok ((((path_bindings_loop fs PATH_BINDINDGS
                (etc_expose_loop fs EXPOSED_ETC_PATHS b)).dev_bind "/dev"
                  "/dev")).symlink "/run" "/var/run"))
      (match root_entries_loop root_dirs b₂ with
        | .error e => .error e
        | .ok b =>
          match fs.readDir "/run" with
          | .error e => .error ("Could not read root dir: " ++ e)
          | .ok run_dirs =>
            match run_entries_loop fs run_dirs b with
            | .error e => .error e
            | .ok b =>
              .ok ((((path_bindings_loop fs PATH_BINDINDGS
                (etc_expose_loop fs EXPOSED_ETC_PATHS b)).dev_bind "/dev"
                  "/dev")).symlink "/run" "/var/run")) := by
    intro root_dirs
    have h2 := sim_root_entries_loop root_dirs b₁ b₂ h
    revert h2
    cases root_entries_loop root_dirs b₁ with
    | error e =>
      cases root_entries_loop root_dirs b₂ with
      | error f => intro h2; exact h2
      | ok c₂ => intro h2; exact False.elim h2
    | ok c₁ =>
      cases root_entries_loop root_dirs b₂ with
      | error f => intro h2; exact False.elim h2
      | ok c₂ =>
        intro h2
        cases fs.readDir "/run" with
        | error e => exact rfl
        | ok run_dirs => exact tail c₁ c₂ h2 run_dirs
  unfold setup_host_root_dirs
  cases fs.readDir "/" with
  | error e => exact rfl
  | ok root_dirs => exact mid root_dirs

theorem sim_collect_mounts (fs : FS) (extension_metadata : KeyMap)
    (name arch allowed_versions : String) (install_dirs : List String)
    (extension_base_mount_path : String) :
    ∀ rts (b₁ b₂ : BwrapBuilder) m, EquivB b₁ b₂ →
      EquivB (collect_mounts fs extension_metadata name arch allowed_versions install_dirs
          extension_base_mount_path rts b₁ m).1
        (collect_mounts fs extension_metadata name arch allowed_versions install_dirs
          extension_base_mount_path rts b₂ m).1 := by
  intro rts
  induction rts with
  | nil => intro b₁ b₂ m h; exact h
  | cons extension rest ih =>
    intro b₁ b₂ m h
    simp only [collect_mounts]
    cases stripPre extension (name ++ ".") with
    | none => exact ih _ _ _ h
    | some impl =>
      by_cases hen : (impl_enable_decision fs extension_metadata name impl).1
      · simp only [hen, if_true]
        cases resolve_impl_path fs extension arch allowed_versions install_dirs with
        | none => exact ih _ _ _ h
        | some p => exact ih _ _ _ (h.emit _)
      · simp only [hen, if_false]
        exact ih _ _ _ h

theorem sim_merge_entries (extension_base_mount_path target source merge_dir : String) :
    ∀ es (b₁ b₂ : BwrapBuilder) proc ex, EquivB b₁ b₂ →
      EquivEP (merge_entries extension_base_mount_path target source merge_dir es b₁ proc ex)
        (merge_entries extension_base_mount_path target source merge_dir es b₂ proc ex) := by
  intro es
  induction es with
  | nil => intro b₁ b₂ proc ex h; exact ⟨h, rfl⟩
  | cons head rest ih =>
    intro b₁ b₂ proc ex h
    cases head with
    | error e => exact rfl
    | ok ent =>
      cases hft : ent.isFileResult with
      | error e => simp only [merge_entries, hft]; exact rfl
      | ok isf =>
        cases isf
        · simp only [merge_entries, hft]
          exact ih _ _ _ _ h
        · simp only [merge_entries, hft]
          by_cases hp : pathJoin (pathJoin source merge_dir) ent.name ∈ proc
          · simp only [hp, if_true]
            exact ih _ _ _ _ h
          · simp only [hp, if_false]
            by_cases hex : pathJoin (pathJoin extension_base_mount_path merge_dir) ent.name
                ∈ ex
            · simp only [hex, if_true]
              exact ih _ _ _ _ h
            · simp only [hex, if_false]
              exact ih _ _ _ _ (h.emit _)

theorem equivEP_chain {α β : Type} (f : BwrapBuilder → α → Except String (BwrapBuilder × β))
    {r₁ r₂ : Except String (BwrapBuilder × α)} (h : EquivEP r₁ r₂)
    (hf : ∀ c₁ c₂ a, EquivB c₁ c₂ → EquivEP (f c₁ a) (f c₂ a)) :
    EquivEP (exceptStepP f r₁) (exceptStepP f r₂) := by
  cases r₁ with
  | error e₁ =>
    cases r₂ with
    | error e₂ => exact h
    | ok t => exact False.elim h
  | ok t₁ =>
    cases r₂ with
    | error e₂ => exact False.elim h
    | ok t₂ =>
      rcases t₁ with ⟨c₁, a₁⟩
      rcases t₂ with ⟨c₂, a₂⟩
      rcases h with ⟨hc, ha⟩
      cases ha
      exact hf c₁ c₂ a₁ hc

theorem sim_merge_dirs_loop (fs : FS) (extension_base_mount_path target source : String) :
    ∀ mdirs (b₁ b₂ : BwrapBuilder) proc ex, EquivB b₁ b₂ →
      EquivEP (merge_dirs_loop fs extension_base_mount_path target source mdirs b₁ proc ex)
        (merge_dirs_loop fs extension_base_mount_path target source mdirs b₂ proc ex) := by
  intro mdirs
  induction mdirs with
  | nil => intro b₁ b₂ proc ex h; exact ⟨h, rfl⟩
  | cons merge_dir rest ih =>
    intro b₁ b₂ proc ex h
    simp only [merge_dirs_loop]
    cases fs.readDir (pathJoin source merge_dir) with
    | error e => exact ih _ _ _ _ h
    | ok entries =>
      have hmain : EquivEP
          (match merge_entries extension_base_mount_path target source merge_dir entries b₁
              proc ex with
            | .error e => .error e
            | .ok (b, processed_paths, existing_symlinks) =>
              merge_dirs_loop fs extension_base_mount_path target source rest b
                processed_paths existing_symlinks)
          (match merge_entries extension_base_mount_path target source merge_dir entries b₂
              proc ex with
            | .error e => .error e
            | .ok (b, processed_paths, existing_symlinks) =>
              merge_dirs_loop fs extension_base_mount_path target source rest b
                processed_paths existing_symlinks) := by
        have h2 := sim_merge_entries extension_base_mount_path target source merge_dir
          entries b₁ b₂ proc ex h
        revert h2
        cases merge_entries extension_base_mount_path target source merge_dir entries b₁
            proc ex with
        | error e =>
          cases merge_entries extension_base_mount_path target source merge_dir entries b₂
              proc ex with
          | error f => intro h2; exact h2
          | ok t₂ => intro h2; exact False.elim h2
        | ok t₁ =>
          cases merge_entries extension_base_mount_path target source merge_dir entries b₂
              proc ex with
          | error f => intro h2; exact False.elim h2
          | ok t₂ =>
            rcases t₁ with ⟨d₁, p₁, x₁⟩
            rcases t₂ with ⟨d₂, p₂, x₂⟩
            intro h2
            rcases h2 with ⟨hd, heq⟩
            rcases Prod.mk.injEq .. ▸ heq with ⟨rfl, rfl⟩
            exact ih _ _ _ _ hd
      exact hmain

theorem sim_setup_mount_post (fs : FS) (extension_metadata : KeyMap)
    (name extension_base_mount_path source target : String)
    (b₁ b₂ : BwrapBuilder) (ex : List String) (h : EquivB b₁ b₂) :
    EquivEP (setup_mount_post fs extension_metadata name extension_base_mount_path
        source target b₁ ex)
      (setup_mount_post fs extension_metadata name extension_base_mount_path
        source target b₂ ex) := by
  have ld : ∀ (c₁ c₂ : BwrapBuilder) (ex' : List String), EquivB c₁ c₂ →
      EquivEP (α := List String)
        (match kget extension_metadata "add-ld-path" with
          | some add_ld_path =>
            let ld_path := pathJoin target add_ld_path
            let ld_contents := ld_path ++ "\n"
            match pathFileName target with
            | none => .error "Invalid extension name"
            | some impl_name =>
              let filename := "runtime-" ++ name ++ "." ++ impl_name ++ ".conf"
              .ok (c₁.ro_bind_data (pathJoin "/run/flatpak/ld.so.conf.d" filename)
                ld_contents, ex')
          | none => .ok (c₁, ex'))
        (match kget extension_metadata "add-ld-path" with
          | some add_ld_path =>
            let ld_path := pathJoin target add_ld_path
            let ld_contents := ld_path ++ "\n"
            match pathFileName target with
            | none => .error "Invalid extension name"
            | some impl_name =>
              let filename := "runtime-" ++ name ++ "." ++ impl_name ++ ".conf"
              .ok (c₂.ro_bind_data (pathJoin "/run/flatpak/ld.so.conf.d" filename)
                ld_contents, ex')
          | none => .ok (c₂, ex')) := by
    intro c₁ c₂ ex' hc
    cases kget extension_metadata "add-ld-path" with
    | none => exact ⟨hc, rfl⟩
    | some add_ld_path =>
      cases pathFileName target with
      | none => exact rfl
      | some impl_name => exact ⟨hc.rbd _ _, rfl⟩
  unfold setup_mount_post
  cases kget extension_metadata "merge-dirs" with
  | none => exact ld b₁ b₂ ex h
  | some merge_dirs =>
    have hmain : EquivEP (α := List String)
        (match ((match merge_dirs_loop fs extension_base_mount_path target source
                (splitOnChar ';' merge_dirs) b₁ [] ex with
              | .error e => .error e
              | .ok (b, _, existing_symlinks) => .ok (b, existing_symlinks)) :
              Except String (BwrapBuilder × List String)) with
          | .error e => .error e
          | .ok (b, existing_symlinks) =>
            match kget extension_metadata "add-ld-path" with
            | some add_ld_path =>
              let ld_path := pathJoin target add_ld_path
              let ld_contents := ld_path ++ "\n"
              match pathFileName target with
              | none => .error "Invalid extension name"
              | some impl_name =>
                let filename := "runtime-" ++ name ++ "." ++ impl_name ++ ".conf"
                .ok (b.ro_bind_data (pathJoin "/run/flatpak/ld.so.conf.d" filename)
                  ld_contents, existing_symlinks)
            | none => .ok (b, existing_symlinks))
        (match ((match merge_dirs_loop fs extension_base_mount_path target source
                (splitOnChar ';' merge_dirs) b₂ [] ex with
              | .error e => .error e
              | .ok (b, _, existing_symlinks) => .ok (b, existing_symlinks)) :
              Except String (BwrapBuilder × List String)) with
          | .error e => .error e
          | .ok (b, existing_symlinks) =>
            match kget extension_metadata "add-ld-path" with
            | some add_ld_path =>
              let ld_path := pathJoin target add_ld_path
              let ld_contents := ld_path ++ "\n"
              match pathFileName target with
              | none => .error "Invalid extension name"
              | some impl_name =>
                let filename := "runtime-" ++ name ++ "." ++ impl_name ++ ".conf"
                .ok (b.ro_bind_data (pathJoin "/run/flatpak/ld.so.conf.d" filename)
                  ld_contents, existing_symlinks)
            | none => .ok (b, existing_symlinks)) := by
      have h2 := sim_merge_dirs_loop fs extension_base_mount_path target source
        (splitOnChar ';' merge_dirs) b₁ b₂ [] ex h
      revert h2
      cases merge_dirs_loop fs extension_base_mount_path target source
          (splitOnChar ';' merge_dirs) b₁ [] ex with
      | error e =>
        cases merge_dirs_loop fs extension_base_mount_path target source
            (splitOnChar ';' merge_dirs) b₂ [] ex with
        | error f => intro h2; exact h2
        | ok t₂ => intro h2; exact False.elim h2
      | ok t₁ =>
        cases merge_dirs_loop fs extension_base_mount_path target source
            (splitOnChar ';' merge_dirs) b₂ [] ex with
        | error f => intro h2; exact False.elim h2
        | ok t₂ =>
          rcases t₁ with ⟨d₁, p₁, x₁⟩
          rcases t₂ with ⟨d₂, p₂, x₂⟩
          intro h2
          rcases h2 with ⟨hd, heq⟩
          rcases Prod.mk.injEq .. ▸ heq with ⟨rfl, rfl⟩
          exact ld d₁ d₂ x₁ hd
    exact hmain

theorem sim_mounts_post_loop (fs : FS) (extension_metadata : KeyMap)
    (name extension_base_mount_path : String) :
    ∀ mounts (b₁ b₂ : BwrapBuilder) ex, EquivB b₁ b₂ →
      EquivEP (mounts_post_loop fs extension_metadata name extension_base_mount_path
          mounts b₁ ex)
        (mounts_post_loop fs extension_metadata name extension_base_mount_path
          mounts b₂ ex) := by
  intro mounts
  induction mounts with
  | nil => intro b₁ b₂ ex h; exact ⟨h, rfl⟩
  | cons head rest ih =>
    intro b₁ b₂ ex h
    rcases head with ⟨source, target⟩
    simp only [mounts_post_loop]
    have hmain : EquivEP (α := List String)
        (match setup_mount_post fs extension_metadata name extension_base_mount_path
            source target b₁ ex with
          | .error e => .error e
          | .ok (b, existing_symlinks) =>
            mounts_post_loop fs extension_metadata name extension_base_mount_path rest b
              existing_symlinks)
        (match setup_mount_post fs extension_metadata name extension_base_mount_path
            source target b₂ ex with
          | .error e => .error e
          | .ok (b, existing_symlinks) =>
            mounts_post_loop fs extension_metadata name extension_base_mount_path rest b
              existing_symlinks) := by
      have h2 := sim_setup_mount_post fs extension_metadata name extension_base_mount_path
        source target b₁ b₂ ex h
      revert h2
      cases setup_mount_post fs extension_metadata name extension_base_mount_path
          source target b₁ ex with
      | error e =>
        cases setup_mount_post fs extension_metadata name extension_base_mount_path
            source target b₂ ex with
        | error f => intro h2; exact h2
        | ok t₂ => intro h2; exact False.elim h2
      | ok t₁ =>
        cases setup_mount_post fs extension_metadata name extension_base_mount_path
            source target b₂ ex with
        | error f => intro h2; exact False.elim h2
        | ok t₂ =>
          rcases t₁ with ⟨c₁, x₁⟩
          rcases t₂ with ⟨c₂, x₂⟩
          intro h2
          rcases h2 with ⟨hc, heq⟩
          cases heq
          exact ih _ _ _ hc
    exact hmain

theorem sim_setup_extension (fs : FS) (extension_metadata : KeyMap)
    (name arch runtime_version : String) (available_runtimes install_dirs : List String)
    (base_path : String) (b₁ b₂ : BwrapBuilder) (h : EquivB b₁ b₂) :
    EquivE (setup_extension fs extension_metadata b₁ name arch runtime_version
        available_runtimes install_dirs base_path)
      (setup_extension fs extension_metadata b₂ name arch runtime_version
        available_runtimes install_dirs base_path) := by
  unfold setup_extension
  cases kget extension_metadata "directory" with
  | none => exact rfl
  | some directory =>
    have hmain : ∀ (mounts : List (String × String)) (c₁ c₂ : BwrapBuilder),
        EquivB c₁ c₂ →
        EquivE
          (match mounts_post_loop fs extension_metadata name (pathJoin base_path directory)
              mounts c₁ [] with
            | .error e => .error e
            | .ok (b, _) => .ok b)
          (match mounts_post_loop fs extension_metadata name (pathJoin base_path directory)
              mounts c₂ [] with
            | .error e => .error e
            | .ok (b, _) => .ok b) := by
      intro mounts c₁ c₂ hc
      have h2 := sim_mounts_post_loop fs extension_metadata name
        (pathJoin base_path directory) mounts c₁ c₂ [] hc
      revert h2
      cases mounts_post_loop fs extension_metadata name (pathJoin base_path directory)
          mounts c₁ [] with
      | error e =>
        cases mounts_post_loop fs extension_metadata name (pathJoin base_path directory)
            mounts c₂ [] with
        | error f => intro h2; exact h2
        | ok t₂ => intro h2; exact False.elim h2
      | ok t₁ =>
        cases mounts_post_loop fs extension_metadata name (pathJoin base_path directory)
            mounts c₂ [] with
        | error f => intro h2; exact False.elim h2
        | ok t₂ =>
          rcases t₁ with ⟨d₁, x₁⟩
          rcases t₂ with ⟨d₂, x₂⟩
          intro h2
          exact h2.1
    show EquivE
      (match mounts_post_loop fs extension_metadata name (pathJoin base_path directory)
          ((collect_mounts fs extension_metadata name arch
            (allowed_versions_of extension_metadata runtime_version) install_dirs
            (pathJoin base_path directory) available_runtimes
            (b₁.tmpfs (pathJoin base_path directory)) []).2)
          ((collect_mounts fs extension_metadata name arch
            (allowed_versions_of extension_metadata runtime_version) install_dirs
            (pathJoin base_path directory) available_runtimes
            (b₁.tmpfs (pathJoin base_path directory)) []).1) [] with
        | .error e => .error e
        | .ok (b, _) => .ok b)
      (match mounts_post_loop fs extension_metadata name (pathJoin base_path directory)
          ((collect_mounts fs extension_metadata name arch
            (allowed_versions_of extension_metadata runtime_version) install_dirs
            (pathJoin base_path directory) available_runtimes
            (b₂.tmpfs (pathJoin base_path directory)) []).2)
          ((collect_mounts fs extension_metadata name arch
            (allowed_versions_of extension_metadata runtime_version) install_dirs
            (pathJoin base_path directory) available_runtimes
            (b₂.tmpfs (pathJoin base_path directory)) []).1) [] with
        | .error e => .error e
        | .ok (b, _) => .ok b)
    rw [collect_mounts_snd_builder_independent fs extension_metadata name arch
      (allowed_versions_of extension_metadata runtime_version) install_dirs
      (pathJoin base_path directory) available_runtimes
      (b₁.tmpfs (pathJoin base_path directory)) (b₂.tmpfs (pathJoin base_path directory)) []]
    exact hmain _ _ _ (sim_collect_mounts fs extension_metadata name arch
      (allowed_versions_of extension_metadata runtime_version) install_dirs
      (pathJoin base_path directory) available_runtimes
      (b₁.tmpfs (pathJoin base_path directory)) (b₂.tmpfs (pathJoin base_path directory))
      [] (h.emit _))

theorem sim_withCtx (ctx : String) {r₁ r₂ : Except String BwrapBuilder}
    (h : EquivE r₁ r₂) : EquivE (withCtx ctx r₁) (withCtx ctx r₂) := by
  cases r₁ with
  | error e =>
    cases r₂ with
    | error f => have he : e = f := h; cases he; exact rfl
    | ok b => exact False.elim h
  | ok b₁ =>
    cases r₂ with
    | error f => exact False.elim h
    | ok b₂ => exact h

theorem sim_runtime_ext_groups_loop (fs : FS) (arch version : String)
    (available_runtimes install_dirs : List String) :
    ∀ groups (b₁ b₂ : BwrapBuilder), EquivB b₁ b₂ →
      EquivE (runtime_ext_groups_loop fs arch version available_runtimes install_dirs
          groups b₁)
        (runtime_ext_groups_loop fs arch version available_runtimes install_dirs
          groups b₂) := by
  intro groups
  induction groups with
  | nil => intro b₁ b₂ h; exact h
  | cons head rest ih =>
    intro b₁ b₂ h
    rcases head with ⟨group, metadata⟩
    simp only [runtime_ext_groups_loop]
    cases stripPre group EXTENSION_GROUP_TAG with
    | none => exact ih _ _ h
    | some extension =>
      have hmain : EquivE
          (match withCtx ("Could not set up extension " ++ extension)
              (setup_extension fs metadata b₁ extension arch version available_runtimes
                install_dirs "/usr") with
            | .error e => .error e
            | .ok b => runtime_ext_groups_loop fs arch version available_runtimes
                install_dirs rest b)
          (match withCtx ("Could not set up extension " ++ extension)
              (setup_extension fs metadata b₂ extension arch version available_runtimes
                install_dirs "/usr") with
            | .error e => .error e
            | .ok b => runtime_ext_groups_loop fs arch version available_runtimes
                install_dirs rest b) := by
        have h2 := sim_withCtx ("Could not set up extension " ++ extension)
          (sim_setup_extension fs metadata extension arch version available_runtimes
            install_dirs "/usr" b₁ b₂ h)
        revert h2
        cases withCtx ("Could not set up extension " ++ extension)
            (setup_extension fs metadata b₁ extension arch version available_runtimes
              install_dirs "/usr") with
        | error e =>
          cases withCtx ("Could not set up extension " ++ extension)
              (setup_extension fs metadata b₂ extension arch version available_runtimes
                install_dirs "/usr") with
          | error f => intro h2; exact h2
          | ok c₂ => intro h2; exact False.elim h2
        | ok c₁ =>
          cases withCtx ("Could not set up extension " ++ extension)
              (setup_extension fs metadata b₂ extension arch version available_runtimes
                install_dirs "/usr") with
          | error f => intro h2; exact False.elim h2
          | ok c₂ => intro h2; exact ih _ _ h2
      exact hmain

theorem sim_app_ext_groups_loop (fs : FS) (arch : String)
    (available_runtimes install_dirs : List String) :
    ∀ groups (b₁ b₂ : BwrapBuilder), EquivB b₁ b₂ →
      EquivE (app_ext_groups_loop fs arch available_runtimes install_dirs groups b₁)
        (app_ext_groups_loop fs arch available_runtimes install_dirs groups b₂) := by
  intro groups
  induction groups with
  | nil => intro b₁ b₂ h; exact h
  | cons head rest ih =>
    intro b₁ b₂ h
    rcases head with ⟨group, metadata⟩
    simp only [app_ext_groups_loop]
    cases stripPre group EXTENSION_GROUP_TAG with
    | none => exact ih _ _ h
    | some extension =>
      have hmain : EquivE
          (match withCtx ("Could not set up app extension " ++ extension)
              (setup_extension fs metadata b₁ extension arch (app_ext_version metadata)
                available_runtimes install_dirs "/app") with
            | .error e => .error e
            | .ok b => app_ext_groups_loop fs arch available_runtimes install_dirs rest b)
          (match withCtx ("Could not set up app extension " ++ extension)
              (setup_extension fs metadata b₂ extension arch (app_ext_version metadata)
                available_runtimes install_dirs "/app") with
            | .error e => .error e
            | .ok b => app_ext_groups_loop fs arch available_runtimes install_dirs
                rest b) := by
        have h2 := sim_withCtx ("Could not set up app extension " ++ extension)
          (sim_setup_extension fs metadata extension arch (app_ext_version metadata)
            available_runtimes install_dirs "/app" b₁ b₂ h)
        revert h2
        cases withCtx ("Could not set up app extension " ++ extension)
            (setup_extension fs metadata b₁ extension arch (app_ext_version metadata)
              available_runtimes install_dirs "/app") with
        | error e =>
          cases withCtx ("Could not set up app extension " ++ extension)
              (setup_extension fs metadata b₂ extension arch (app_ext_version metadata)
                available_runtimes install_dirs "/app") with
          | error f => intro h2; exact h2
          | ok c₂ => intro h2; exact False.elim h2
        | ok c₁ =>
          cases withCtx ("Could not set up app extension " ++ extension)
              (setup_extension fs metadata b₂ extension arch (app_ext_version metadata)
                available_runtimes install_dirs "/app") with
          | error f => intro h2; exact False.elim h2
          | ok c₂ => intro h2; exact ih _ _ h2
      exact hmain

theorem sim_setup_runtime_extensions (fs : FS) (runtime_metadata : Metadata)
    (available_runtimes install_dirs : List String) (b₁ b₂ : BwrapBuilder)
    (h : EquivB b₁ b₂) :
    EquivE (setup_runtime_extensions fs runtime_metadata b₁ available_runtimes install_dirs)
      (setup_runtime_extensions fs runtime_metadata b₂ available_runtimes install_dirs) := by
  unfold setup_runtime_extensions
  cases (mGet runtime_metadata "Runtime").bind (fun runtime => kget runtime "runtime") with
  | none => exact rfl
  | some runtime =>
    have hmain : EquivE
        (match (splitOnChar '/' runtime).get? 1 with
          | none => .error "Could not extract architecture from runtime id"
          | some arch =>
            match (splitOnChar '/' runtime).get? 2 with
            | none => .error "Could not extract version from runtime id"
            | some version =>
              runtime_ext_groups_loop fs arch version available_runtimes install_dirs
                runtime_metadata b₁)
        (match (splitOnChar '/' runtime).get? 1 with
          | none => .error "Could not extract architecture from runtime id"
          | some arch =>
            match (splitOnChar '/' runtime).get? 2 with
            | none => .error "Could not extract version from runtime id"
            | some version =>
              runtime_ext_groups_loop fs arch version available_runtimes install_dirs
                runtime_metadata b₂) := by
      cases (splitOnChar '/' runtime).get? 1 with
      | none => exact rfl
      | some arch =>
        cases (splitOnChar '/' runtime).get? 2 with
        | none => exact rfl
        | some version =>
          exact sim_runtime_ext_groups_loop fs arch version available_runtimes
            install_dirs runtime_metadata b₁ b₂ h
    exact hmain

theorem sim_setup_app_extensions (fs : FS) (app_metadata : Metadata)
    (available_runtimes install_dirs : List String) (b₁ b₂ : BwrapBuilder)
    (h : EquivB b₁ b₂) :
    EquivE (setup_app_extensions fs app_metadata b₁ available_runtimes install_dirs)
      (setup_app_extensions fs app_metadata b₂ available_runtimes install_dirs) := by
  unfold setup_app_extensions
  cases (mGet app_metadata "Application").bind (fun app => kget app "runtime") with
  | none => exact rfl
  | some runtime =>
    have hmain : EquivE
        (match (splitOnChar '/' runtime).get? 1 with
          | none => .error "Could not extract architecture from runtime id"
          | some arch =>
            app_ext_groups_loop fs arch available_runtimes install_dirs app_metadata b₁)
        (match (splitOnChar '/' runtime).get? 1 with
          | none => .error "Could not extract architecture from runtime id"
          | some arch =>
            app_ext_groups_loop fs arch available_runtimes install_dirs app_metadata b₂) := by
      cases (splitOnChar '/' runtime).get? 1 with
      | none => exact rfl
      | some arch =>
        exact sim_app_ext_groups_loop fs arch available_runtimes install_dirs
          app_metadata b₁ b₂ h
    exact hmain

theorem sim_default_env_loop :
    ∀ table (b₁ b₂ : BwrapBuilder), EquivB b₁ b₂ →
      EquivB (default_env_loop table b₁) (default_env_loop table b₂) := by
  intro table
  induction table with
  | nil => intro b₁ b₂ h; exact h
  | cons head rest ih =>
    intro b₁ b₂ h
    rcases head with ⟨env, val⟩
    cases val with
    | some value => exact ih _ _ (h.emit _)
    | none => exact ih _ _ (h.emit _)

theorem sim_runtime_env_loop :
    ∀ kvs (b₁ b₂ : BwrapBuilder), EquivB b₁ b₂ →
      EquivB (runtime_env_loop kvs b₁) (runtime_env_loop kvs b₂) := by
  intro kvs
  induction kvs with
  | nil => intro b₁ b₂ h; exact h
  | cons head rest ih =>
    intro b₁ b₂ h
    rcases head with ⟨env, value⟩
    exact ih _ _ (h.emit _)

theorem sim_setup_env (runtime_env : KeyMap) (app_id home : Option String)
    (b₁ b₂ : BwrapBuilder) (h : EquivB b₁ b₂) :
    EquivB (setup_env b₁ runtime_env app_id home) (setup_env b₂ runtime_env app_id home) := by
  unfold setup_env
  have h2 := sim_runtime_env_loop runtime_env _ _
    (sim_default_env_loop DEFAULT_ENV b₁ b₂ h)
  cases app_id with
  | none => exact h2
  | some app =>
    cases home with
    | none => exact h2
    | some home_dir => exact (((h2.emit _).emit _).emit _).emit _

theorem sim_compose_ld_env (runtime_metadata : Metadata) (app_id home : Option String) :
    ∀ c₁ c₂ : BwrapBuilder, EquivB c₁ c₂ →
      EquivE
        (match add_ld_so_conf c₁ with
          | .error e => .error e
          | .ok b =>
            .ok (setup_env b ((mGet runtime_metadata "Environment").getD []) app_id home))
        (match add_ld_so_conf c₂ with
          | .error e => .error e
          | .ok b =>
            .ok (setup_env b ((mGet runtime_metadata "Environment").getD []) app_id home)) := by
  intro c₁ c₂ hc
  exact sim_setup_env ((mGet runtime_metadata "Environment").getD []) app_id home
    _ _ (hc.rbd _ _)

theorem sim_compose_app_step (fs : FS) (runtime_metadata : Metadata)
    (app_metadata : Option Metadata) (available_runtimes install_dirs : List String)
    (app_id home : Option String) :
    ∀ c₁ c₂ : BwrapBuilder, EquivB c₁ c₂ →
      EquivE
        (match (match app_metadata with
            | some app_meta =>
              setup_app_extensions fs app_meta c₁ available_runtimes install_dirs
            | none => .ok c₁) with
          | .error e => .error e
          | .ok b =>
            match add_ld_so_conf b with
            | .error e => .error e
            | .ok b =>
              .ok (setup_env b ((mGet runtime_metadata "Environment").getD []) app_id home))
        (match (match app_metadata with
            | some app_meta =>
              setup_app_extensions fs app_meta c₂ available_runtimes install_dirs
            | none => .ok c₂) with
          | .error e => .error e
          | .ok b =>
            match add_ld_so_conf b with
            | .error e => .error e
            | .ok b =>
              .ok (setup_env b ((mGet runtime_metadata "Environment").getD []) app_id
                home)) := by
  intro c₁ c₂ hc
  have happ : EquivE
      (match app_metadata with
        | some app_meta =>
          setup_app_extensions fs app_meta c₁ available_runtimes install_dirs
        | none => .ok c₁)
      (match app_metadata with
        | some app_meta =>
          setup_app_extensions fs app_meta c₂ available_runtimes install_dirs
        | none => .ok c₂) := by
    cases app_metadata with
    | some app_meta =>
      exact sim_setup_app_extensions fs app_meta available_runtimes install_dirs c₁ c₂ hc
    | none => exact hc
  revert happ
  cases (match app_metadata with
      | some app_meta =>
        setup_app_extensions fs app_meta c₁ available_runtimes install_dirs
      | none => .ok c₁) with
  | error e =>
    cases (match app_metadata with
        | some app_meta =>
          setup_app_extensions fs app_meta c₂ available_runtimes install_dirs
        | none => .ok c₂) with
    | error f => intro happ; exact happ
    | ok d₂ => intro happ; exact False.elim happ
  | ok d₁ =>
    cases (match app_metadata with
        | some app_meta =>
          setup_app_extensions fs app_meta c₂ available_runtimes install_dirs
        | none => .ok c₂) with
    | error f => intro happ; exact False.elim happ
    | ok d₂ => intro happ; exact sim_compose_ld_env runtime_metadata app_id home d₁ d₂ happ

theorem sim_compose_rt_ext (fs : FS) (runtime_metadata : Metadata)
    (app_metadata : Option Metadata) (available_runtimes install_dirs : List String)
    (app_id home : Option String) :
    ∀ c₁ c₂ : BwrapBuilder, EquivB c₁ c₂ →
      EquivE
        (match setup_runtime_extensions fs runtime_metadata c₁ available_runtimes
            install_dirs with
          | .error e => .error e
          | .ok b =>
            match (match app_metadata with
                | some app_meta =>
                  setup_app_extensions fs app_meta b available_runtimes install_dirs
                | none => .ok b) with
            | .error e => .error e
            | .ok b =>
              match add_ld_so_conf b with
              | .error e => .error e
              | .ok b =>
                .ok (setup_env b ((mGet runtime_metadata "Environment").getD [])
                  app_id home))
        (match setup_runtime_extensions fs runtime_metadata c₂ available_runtimes
            install_dirs with
          | .error e => .error e
          | .ok b =>
            match (match app_metadata with
                | some app_meta =>
                  setup_app_extensions fs app_meta b available_runtimes install_dirs
                | none => .ok b) with
            | .error e => .error e
            | .ok b =>
              match add_ld_so_conf b with
              | .error e => .error e
              | .ok b =>
                .ok (setup_env b ((mGet runtime_metadata "Environment").getD [])
                  app_id home)) := by
  intro c₁ c₂ hc
  have h2 := sim_setup_runtime_extensions fs runtime_metadata available_runtimes
    install_dirs c₁ c₂ hc
  revert h2
  cases setup_runtime_extensions fs runtime_metadata c₁ available_runtimes install_dirs with
  | error e =>
    cases setup_runtime_extensions fs runtime_metadata c₂ available_runtimes install_dirs with
    | error f => intro h2; exact h2
    | ok d₂ => intro h2; exact False.elim h2
  | ok d₁ =>
    cases setup_runtime_extensions fs runtime_metadata c₂ available_runtimes install_dirs with
    | error f => intro h2; exact False.elim h2
    | ok d₂ =>
      intro h2
      exact sim_compose_app_step fs runtime_metadata app_metadata available_runtimes
        install_dirs app_id home d₁ d₂ h2

theorem sim_compose_host (fs : FS) (runtime_metadata : Metadata)
    (app_metadata : Option Metadata) (available_runtimes install_dirs : List String)
    (app_id home : Option String) :
    ∀ c₁ c₂ : BwrapBuilder, EquivB c₁ c₂ →
      EquivE
        (match setup_host_root_dirs fs c₁ with
          | .error e => .error e
          | .ok b =>
            match setup_runtime_extensions fs runtime_metadata b available_runtimes
                install_dirs with
            | .error e => .error e
            | .ok b =>
              match (match app_metadata with
                  | some app_meta =>
                    setup_app_extensions fs app_meta b available_runtimes install_dirs
                  | none => .ok b) with
              | .error e => .error e
              | .ok b =>
                match add_ld_so_conf b with
                | .error e => .error e
                | .ok b =>
                  .ok (setup_env b ((mGet runtime_metadata "Environment").getD [])
                    app_id home))
        (match setup_host_root_dirs fs c₂ with
          | .error e => .error e
          | .ok b =>
            match setup_runtime_extensions fs runtime_metadata b available_runtimes
                install_dirs with
            | .error e => .error e
            | .ok b =>
              match (match app_metadata with
                  | some app_meta =>
                    setup_app_extensions fs app_meta b available_runtimes install_dirs
                  | none => .ok b) with
              | .error e => .error e
              | .ok b =>
                match add_ld_so_conf b with
                | .error e => .error e
                | .ok b =>
                  .ok (setup_env b ((mGet runtime_metadata "Environment").getD [])
                    app_id home)) := by
  intro c₁ c₂ hc
  have h2 := sim_setup_host_root_dirs fs c₁ c₂ hc
  revert h2
  cases setup_host_root_dirs fs c₁ with
  | error e =>
    cases setup_host_root_dirs fs c₂ with
    | error f => intro h2; exact h2
    | ok d₂ => intro h2; exact False.elim h2
  | ok d₁ =>
    cases setup_host_root_dirs fs c₂ with
    | error f => intro h2; exact False.elim h2
    | ok d₂ =>
      intro h2
      exact sim_compose_rt_ext fs runtime_metadata app_metadata available_runtimes
        install_dirs app_id home d₁ d₂ h2

/-- Claim C9: the composition of `run` is deterministic with respect to an
unchanged install tree — two runs against the same filesystem model and
inputs, differing only in the freshly created temp backing-store
directory, either fail with the same error or produce operation lists
that are identical once the temporary backing-store source path inside
each virtual-file bind operation is erased (and with equal backing-store
file counters). -/
theorem c9_compose_deterministic (fs : FS) (tempdir₁ tempdir₂ : String)
    (runtime_files_path : String) (app_files_path : Option String)
    (runtime_metadata : Metadata) (app_metadata : Option Metadata)
    (available_runtimes install_dirs : List String)
    (app_id home : Option String) :
    EquivE
      (run_compose fs tempdir₁ runtime_files_path app_files_path runtime_metadata
        app_metadata available_runtimes install_dirs app_id home)
      (run_compose fs tempdir₂ runtime_files_path app_files_path runtime_metadata
        app_metadata available_runtimes install_dirs app_id home) := by
  unfold run_compose
  have h0 := sim_setup_runtime fs runtime_files_path app_files_path
    (BwrapBuilder.new tempdir₁) (BwrapBuilder.new tempdir₂) ⟨rfl, rfl⟩
  revert h0
  cases setup_runtime fs (BwrapBuilder.new tempdir₁) runtime_files_path app_files_path with
  | error e =>
    cases setup_runtime fs (BwrapBuilder.new tempdir₂) runtime_files_path app_files_path with
    | error f => intro h0; exact h0
    | ok d₂ => intro h0; exact False.elim h0
  | ok d₁ =>
    cases setup_runtime fs (BwrapBuilder.new tempdir₂) runtime_files_path app_files_path with
    | error f => intro h0; exact False.elim h0
    | ok d₂ =>
      intro h0
      exact sim_compose_host fs runtime_metadata app_metadata available_runtimes
        install_dirs app_id home d₁ d₂ h0

/-! ## Claim C4: ordering of the host exposure block

Every builder phase only appends operations; the composition therefore
decomposes the final operation list into one contiguous block per phase,
in call order. -/

theorem emit_ops (b : BwrapBuilder) (o : Op) : (b.emit o).ops = b.ops ++ [o] := rfl

theorem rbd_ops (b : BwrapBuilder) (path contents : String) :
    (b.ro_bind_data path contents).ops
      = b.ops ++ [.roBindData b.tempfilePath path contents] := rfl

theorem ao_runtime_etc_loop (fs : FS) (runtime_files_path : String) :
    ∀ es (b b' : BwrapBuilder), runtime_etc_loop fs runtime_files_path es b = .ok b' →
      ∃ d, b'.ops = b.ops ++ d := by
  intro es
  induction es with
  | nil => intro b b' h; cases h; exact ⟨[], by simp⟩
  | cons head rest ih =>
    intro b b' h
    cases head with
    | error e => exact Except.noConfusion h
    | ok ent =>
      simp only [runtime_etc_loop] at h
      revert h
      cases fs.readLink (pathJoin (pathJoin runtime_files_path "etc") ent.name) with
      | some t =>
        intro h
        rcases ih _ _ h with ⟨d, hd⟩
        exact ⟨_ :: d, by simpa [BwrapBuilder.symlink, BwrapBuilder.emit,
          List.append_assoc] using hd⟩
      | none =>
        intro h
        rcases ih _ _ h with ⟨d, hd⟩
        exact ⟨_ :: d, by simpa [BwrapBuilder.ro_bind, BwrapBuilder.emit,
          List.append_assoc] using hd⟩

theorem ao_merged_dirs_loop (fs : FS) (runtime_files_path : String) :
    ∀ dirs (b : BwrapBuilder),
      ∃ d, (merged_dirs_loop fs runtime_files_path dirs b).ops = b.ops ++ d := by
  intro dirs
  induction dirs with
  | nil => intro b; exact ⟨[], by simp [merged_dirs_loop]⟩
  | cons dir rest ih =>
    intro b
    simp only [merged_dirs_loop]
    by_cases hex : fs.pathExists (pathJoin runtime_files_path dir)
    · simp only [hex, if_true]
      rcases ih (b.symlink (pathJoin "/usr" dir) dir) with ⟨d, hd⟩
      exact ⟨_ :: d, by simpa [BwrapBuilder.symlink, BwrapBuilder.emit,
        List.append_assoc] using hd⟩
    · simp only [hex, if_false]
      exact ih b

theorem opsExtendE_ok {b b' : BwrapBuilder} {r : Except String BwrapBuilder}
    (hx : opsExtendE b r) (h : r = .ok b') : ∃ d, b'.ops = b.ops ++ d := by
  cases r with
  | ok c => cases h; exact hx
  | error e => exact Except.noConfusion h

theorem aoE_setup_runtime (fs : FS) (runtime_files_path : String)
    (app_files_path : Option String) (b : BwrapBuilder) :
    opsExtendE b (setup_runtime fs b runtime_files_path app_files_path) := by
  have main : ∀ c : BwrapBuilder, (∃ d, c.ops = b.ops ++ d) → ∀ es,
      opsExtendE b
        (match runtime_etc_loop fs runtime_files_path es c with
          | .error e => .error e
          | .ok b =>
            .ok ((merged_dirs_loop fs runtime_files_path ROOT_USR_MERGED_DIRS
              b).ro_bind_data "/.flatpak-info" "")) := by
    intro c hc es
    have aux := ao_runtime_etc_loop fs runtime_files_path es c
    revert aux
    cases runtime_etc_loop fs runtime_files_path es c with
    | error e => intro _; exact True.intro
    | ok c2 =>
      intro aux
      rcases hc with ⟨d0, hd0⟩
      rcases aux c2 rfl with ⟨d₁, hd₁⟩
      rcases ao_merged_dirs_loop fs runtime_files_path ROOT_USR_MERGED_DIRS c2 with ⟨d₂, hd₂⟩
      refine ⟨d0 ++ (d₁ ++ (d₂ ++ [Op.roBindData
        ((merged_dirs_loop fs runtime_files_path ROOT_USR_MERGED_DIRS c2).tempfilePath)
        "/.flatpak-info" ""])), ?_⟩
      simp [rbd_ops, hd₂, hd₁, hd0, List.append_assoc]
  unfold setup_runtime
  cases app_files_path with
  | none =>
    cases fs.readDir (pathJoin runtime_files_path "etc") with
    | error e => exact True.intro
    | ok es =>
      exact main _ ⟨[Op.roBind runtime_files_path "/usr"],
        by simp [BwrapBuilder.ro_bind, BwrapBuilder.emit]⟩ es
  | some app_path =>
    cases fs.readDir (pathJoin runtime_files_path "etc") with
    | error e => exact True.intro
    | ok es =>
      exact main _ ⟨[Op.roBind runtime_files_path "/usr", Op.roBind app_path "/app"],
        by simp [BwrapBuilder.ro_bind, BwrapBuilder.emit]⟩ es

theorem ao_setup_runtime (fs : FS) (runtime_files_path : String)
    (app_files_path : Option String) (b b' : BwrapBuilder)
    (h : setup_runtime fs b runtime_files_path app_files_path = .ok b') :
    ∃ d, b'.ops = b.ops ++ d :=
  opsExtendE_ok (aoE_setup_runtime fs runtime_files_path app_files_path b) h

theorem ao_root_entries_loop :
    ∀ es (b b' : BwrapBuilder), root_entries_loop es b = .ok b' →
      ∃ d, b'.ops = b.ops ++ d := by
  intro es
  induction es with
  | nil => intro b b' h; cases h; exact ⟨[], by simp⟩
  | cons head rest ih =>
    intro b b' h
    cases head with
    | error e => exact Except.noConfusion h
    | ok ent =>
      simp only [root_entries_loop] at h
      revert h
      by_cases hv : ent.nameValidUtf8
      · simp only [hv, if_true]
        by_cases hf : FORBIDDEN_HOST_ROOT_DIRS.contains ent.name
            || ROOT_USR_MERGED_DIRS.contains ent.name
        · simp only [hf, if_true]
          intro h; exact ih _ _ h
        · simp only [hf, if_false]
          intro h
          rcases ih _ _ h with ⟨d, hd⟩
          exact ⟨_ :: d, by simpa [BwrapBuilder.bind, BwrapBuilder.emit,
            List.append_assoc] using hd⟩
      · simp only [hv, if_false]
        intro h; exact ih _ _ h

theorem ao_run_entries_loop (fs : FS) :
    ∀ es (b b' : BwrapBuilder), run_entries_loop fs es b = .ok b' →
      ∃ d, b'.ops = b.ops ++ d := by
  intro es
  induction es with
  | nil => intro b b' h; cases h; exact ⟨[], by simp⟩
  | cons head rest ih =>
    intro b b' h
    cases head with
    | error e => exact Except.noConfusion h
    | ok ent =>
      simp only [run_entries_loop] at h
      revert h
      by_cases hv : ent.nameValidUtf8
      · simp only [hv, if_true]
        by_cases hf : FORBIDDEN_RUN_DIRS.contains ent.name
        · simp only [hf, if_true]
          intro h; exact ih _ _ h
        · simp only [hf, if_false]
          by_cases hex : fs.pathExists (pathJoin "/run" ent.name)
          · simp only [hex, if_true]
            intro h
            rcases ih _ _ h with ⟨d, hd⟩
            exact ⟨_ :: d, by simpa [BwrapBuilder.bind, BwrapBuilder.emit,
              List.append_assoc] using hd⟩
          · simp only [hex, if_false]
            intro h; exact ih _ _ h
      · simp only [hv, if_false]
        intro h; exact ih _ _ h

theorem ao_etc_expose_loop (fs : FS) :
    ∀ names (b : BwrapBuilder),
      ∃ d, (etc_expose_loop fs names b).ops = b.ops ++ d := by
  intro names
  induction names with
  | nil => intro b; exact ⟨[], by simp [etc_expose_loop]⟩
  | cons name rest ih =>
    intro b
    simp only [etc_expose_loop]
    by_cases hex : fs.pathExists (pathJoin "/etc" name)
    · simp only [hex, if_true]
      rcases ih (b.ro_bind (pathJoin "/etc" name) (pathJoin "/etc" name)) with ⟨d, hd⟩
      exact ⟨_ :: d, by simpa [BwrapBuilder.ro_bind, BwrapBuilder.emit,
        List.append_assoc] using hd⟩
    · simp only [hex, if_false]
      exact ih b

theorem ao_path_bindings_loop (fs : FS) :
    ∀ table (b : BwrapBuilder),
      ∃ d, (path_bindings_loop fs table b).ops = b.ops ++ d := by
  intro table
  induction table with
  | nil => intro b; exact ⟨[], by simp [path_bindings_loop]⟩
  | cons head rest ih =>
    intro b
    rcases head with ⟨source, target, writable⟩
    simp only [path_bindings_loop]
    by_cases hex : fs.pathExists source
    · simp only [hex, if_true]
      cases writable with
      | true =>
        rcases ih (b.bind source target) with ⟨d, hd⟩
        exact ⟨_ :: d, by simpa [BwrapBuilder.bind, BwrapBuilder.emit,
          List.append_assoc] using hd⟩
      | false =>
        rcases ih (b.ro_bind source target) with ⟨d, hd⟩
        exact ⟨_ :: d, by simpa [BwrapBuilder.ro_bind, BwrapBuilder.emit,
          List.append_assoc] using hd⟩
    · simp only [hex, if_false]
      exact ih b

theorem aoE_setup_host_root_dirs (fs : FS) (b : BwrapBuilder) :
    opsExtendE b (setup_host_root_dirs fs b) := by
  have tail : ∀ c : BwrapBuilder, (∃ d, c.ops = b.ops ++ d) → ∀ run_dirs,
      opsExtendE b
        (match run_entries_loop fs run_dirs c with
          | .error e => .error e
          | .ok b =>
            .ok ((((path_bindings_loop fs PATH_BINDINDGS
              (etc_expose_loop fs EXPOSED_ETC_PATHS b)).dev_bind "/dev"
                "/dev")).symlink "/run" "/var/run")) := by
    intro c hc run_dirs
    have aux := ao_run_entries_loop fs run_dirs c
    revert aux
    cases run_entries_loop fs run_dirs c with
    | error e => intro _; exact True.intro
    | ok c2 =>
      intro aux
      rcases hc with ⟨d0, hd0⟩
      rcases aux c2 rfl with ⟨d₁, hd₁⟩
      rcases ao_etc_expose_loop fs EXPOSED_ETC_PATHS c2 with ⟨d₂, hd₂⟩
      rcases ao_path_bindings_loop fs PATH_BINDINDGS
        (etc_expose_loop fs EXPOSED_ETC_PATHS c2) with ⟨d₃, hd₃⟩
      refine ⟨d0 ++ (d₁ ++ (d₂ ++ (d₃ ++ [Op.devBind "/dev" "/dev",
        Op.symlink "/run" "/var/run"]))), ?_⟩
      simp [BwrapBuilder.symlink, BwrapBuilder.dev_bind, BwrapBuilder.emit,
        hd₃, hd₂, hd₁, hd0, List.append_assoc]
  have mid : ∀ root_dirs,
      opsExtendE b
        (match root_entries_loop root_dirs b with
          | .error e => .error e
          | .ok b2 =>
            match fs.readDir "/run" with
            | .error e => .error ("Could not read root dir: " ++ e)
            | .ok run_dirs =>
              match run_entries_loop fs run_dirs b2 with
              | .error e => .error e
              | .ok b2 =>
                .ok ((((path_bindings_loop fs PATH_BINDINDGS
                  (etc_expose_loop fs EXPOSED_ETC_PATHS b2)).dev_bind "/dev"
                    "/dev")).symlink "/run" "/var/run")) := by
    intro root_dirs
    have aux := ao_root_entries_loop root_dirs b
    revert aux
    cases root_entries_loop root_dirs b with
    | error e => intro _; exact True.intro
    | ok c =>
      intro aux
      cases fs.readDir "/run" with
      | error e => exact True.intro
      | ok run_dirs => exact tail c (aux c rfl) run_dirs
  unfold setup_host_root_dirs
  cases fs.readDir "/" with
  | error e => exact True.intro
  | ok root_dirs => exact mid root_dirs

theorem ao_setup_host_root_dirs (fs : FS) (b b' : BwrapBuilder)
    (h : setup_host_root_dirs fs b = .ok b') : ∃ d, b'.ops = b.ops ++ d :=
  opsExtendE_ok (aoE_setup_host_root_dirs fs b) h

theorem opsExtendP_mono {α : Type} {b c : BwrapBuilder}
    {r : Except String (BwrapBuilder × α)} (hbc : ∃ d, c.ops = b.ops ++ d)
    (h : opsExtendP c r) : opsExtendP b r := by
  cases r with
  | error e => exact True.intro
  | ok t =>
    rcases t with ⟨b', a⟩
    rcases h with ⟨d₁, hd₁⟩
    rcases hbc with ⟨d₀, hd₀⟩
    exact ⟨d₀ ++ d₁, by simp [hd₁, hd₀, List.append_assoc]⟩

theorem opsExtendE_mono {b c : BwrapBuilder} {r : Except String BwrapBuilder}
    (hbc : ∃ d, c.ops = b.ops ++ d) (h : opsExtendE c r) : opsExtendE b r := by
  cases r with
  | error e => exact True.intro
  | ok b' =>
    rcases h with ⟨d₁, hd₁⟩
    rcases hbc with ⟨d₀, hd₀⟩
    exact ⟨d₀ ++ d₁, by simp [hd₁, hd₀, List.append_assoc]⟩

theorem emit_extends (b : BwrapBuilder) (o : Op) : ∃ d, (b.emit o).ops = b.ops ++ d :=
  ⟨[o], rfl⟩

theorem rbd_extends (b : BwrapBuilder) (path contents : String) :
    ∃ d, (b.ro_bind_data path contents).ops = b.ops ++ d :=
  ⟨[.roBindData b.tempfilePath path contents], rfl⟩

theorem aoP_merge_entries (extension_base_mount_path target source merge_dir : String) :
    ∀ es (b : BwrapBuilder) proc ex,
      opsExtendP b (merge_entries extension_base_mount_path target source merge_dir es b
        proc ex) := by
  intro es
  induction es with
  | nil => intro b proc ex; exact ⟨[], by simp⟩
  | cons head rest ih =>
    intro b proc ex
    cases head with
    | error e => exact True.intro
    | ok ent =>
      simp only [merge_entries]
      cases hft : ent.isFileResult with
      | error e => exact True.intro
      | ok isf =>
        cases isf
        · exact ih b proc ex
        · by_cases hp : pathJoin (pathJoin source merge_dir) ent.name ∈ proc
          · simp only [hp, if_true]
            exact ih b proc ex
          · simp only [hp, if_false]
            by_cases hex : pathJoin (pathJoin extension_base_mount_path merge_dir) ent.name
                ∈ ex
            · simp only [hex, if_true]
              exact ih b _ ex
            · simp only [hex, if_false]
              exact opsExtendP_mono (emit_extends b _) (ih _ _ _)

theorem aoP_merge_dirs_loop (fs : FS) (extension_base_mount_path target source : String) :
    ∀ mdirs (b : BwrapBuilder) proc ex,
      opsExtendP b (merge_dirs_loop fs extension_base_mount_path target source mdirs b
        proc ex) := by
  intro mdirs
  induction mdirs with
  | nil => intro b proc ex; exact ⟨[], by simp⟩
  | cons merge_dir rest ih =>
    intro b proc ex
    simp only [merge_dirs_loop]
    cases fs.readDir (pathJoin source merge_dir) with
    | error e => exact ih b proc ex
    | ok entries =>
      have hmain : opsExtendP b
          (match merge_entries extension_base_mount_path target source merge_dir entries b
              proc ex with
            | .error e => .error e
            | .ok (b, processed_paths, existing_symlinks) =>
              merge_dirs_loop fs extension_base_mount_path target source rest b
                processed_paths existing_symlinks) := by
        have aux := aoP_merge_entries extension_base_mount_path target source merge_dir
          entries b proc ex
        revert aux
        cases merge_entries extension_base_mount_path target source merge_dir entries b
            proc ex with
        | error e => intro _; exact True.intro
        | ok t =>
          rcases t with ⟨c, p, x⟩
          intro aux
          exact opsExtendP_mono aux (ih c p x)
      exact hmain

theorem aoP_setup_mount_post (fs : FS) (extension_metadata : KeyMap)
    (name extension_base_mount_path source target : String)
    (b : BwrapBuilder) (ex : List String) :
    opsExtendP b (setup_mount_post fs extension_metadata name extension_base_mount_path
      source target b ex) := by
  have ld : ∀ (c : BwrapBuilder) (ex' : List String), (∃ d, c.ops = b.ops ++ d) →
      opsExtendP (α := List String) b
        (match kget extension_metadata "add-ld-path" with
          | some add_ld_path =>
            let ld_path := pathJoin target add_ld_path
            let ld_contents := ld_path ++ "\n"
            match pathFileName target with
            | none => .error "Invalid extension name"
            | some impl_name =>
              let filename := "runtime-" ++ name ++ "." ++ impl_name ++ ".conf"
              .ok (c.ro_bind_data (pathJoin "/run/flatpak/ld.so.conf.d" filename)
                ld_contents, ex')
          | none => .ok (c, ex')) := by
    intro c ex' hc
    cases kget extension_metadata "add-ld-path" with
    | none => exact hc
    | some add_ld_path =>
      cases pathFileName target with
      | none => exact True.intro
      | some impl_name =>
        rcases hc with ⟨d₀, hd₀⟩
        exact ⟨d₀ ++ [Op.roBindData c.tempfilePath
          (pathJoin "/run/flatpak/ld.so.conf.d"
            ("runtime-" ++ name ++ "." ++ impl_name ++ ".conf"))
          (pathJoin target add_ld_path ++ "\n")],
          by simp [rbd_ops, hd₀, List.append_assoc]⟩
  unfold setup_mount_post
  cases kget extension_metadata "merge-dirs" with
  | none => exact ld b ex ⟨[], by simp⟩
  | some merge_dirs =>
    have hmain : opsExtendP (α := List String) b
        (match ((match merge_dirs_loop fs extension_base_mount_path target source
                (splitOnChar ';' merge_dirs) b [] ex with
              | .error e => .error e
              | .ok (b, _, existing_symlinks) => .ok (b, existing_symlinks)) :
              Except String (BwrapBuilder × List String)) with
          | .error e => .error e
          | .ok (b, existing_symlinks) =>
            match kget extension_metadata "add-ld-path" with
            | some add_ld_path =>
              let ld_path := pathJoin target add_ld_path
              let ld_contents := ld_path ++ "\n"
              match pathFileName target with
              | none => .error "Invalid extension name"
              | some impl_name =>
                let filename := "runtime-" ++ name ++ "." ++ impl_name ++ ".conf"
                .ok (b.ro_bind_data (pathJoin "/run/flatpak/ld.so.conf.d" filename)
                  ld_contents, existing_symlinks)
            | none => .ok (b, existing_symlinks)) := by
      have aux := aoP_merge_dirs_loop fs extension_base_mount_path target source
        (splitOnChar ';' merge_dirs) b [] ex
      revert aux
      cases merge_dirs_loop fs extension_base_mount_path target source
          (splitOnChar ';' merge_dirs) b [] ex with
      | error e => intro _; exact True.intro
      | ok t =>
        rcases t with ⟨c, p, x⟩
        intro aux
        exact ld c x aux
    exact hmain

theorem aoP_mounts_post_loop (fs : FS) (extension_metadata : KeyMap)
    (name extension_base_mount_path : String) :
    ∀ mounts (b : BwrapBuilder) ex,
      opsExtendP b (mounts_post_loop fs extension_metadata name extension_base_mount_path
        mounts b ex) := by
  intro mounts
  induction mounts with
  | nil => intro b ex; exact ⟨[], by simp⟩
  | cons head rest ih =>
    intro b ex
    rcases head with ⟨source, target⟩
    simp only [mounts_post_loop]
    have hmain : opsExtendP (α := List String) b
        (match setup_mount_post fs extension_metadata name extension_base_mount_path
            source target b ex with
          | .error e => .error e
          | .ok (b, existing_symlinks) =>
            mounts_post_loop fs extension_metadata name extension_base_mount_path rest b
              existing_symlinks) := by
      have aux := aoP_setup_mount_post fs extension_metadata name
        extension_base_mount_path source target b ex
      revert aux
      cases setup_mount_post fs extension_metadata name extension_base_mount_path
          source target b ex with
      | error e => intro _; exact True.intro
      | ok t =>
        rcases t with ⟨c, x⟩
        intro aux
        exact opsExtendP_mono aux (ih c x)
    exact hmain

theorem ao_collect_mounts (fs : FS) (extension_metadata : KeyMap)
    (name arch allowed_versions : String) (install_dirs : List String)
    (extension_base_mount_path : String) :
    ∀ rts (b : BwrapBuilder) m,
      ∃ d, (collect_mounts fs extension_metadata name arch allowed_versions install_dirs
        extension_base_mount_path rts b m).1.ops = b.ops ++ d := by
  intro rts
  induction rts with
  | nil => intro b m; exact ⟨[], by simp [collect_mounts]⟩
  | cons extension rest ih =>
    intro b m
    simp only [collect_mounts]
    cases stripPre extension (name ++ ".") with
    | none => exact ih b m
    | some impl =>
      by_cases hen : (impl_enable_decision fs extension_metadata name impl).1
      · simp only [hen, if_true]
        cases resolve_impl_path fs extension arch allowed_versions install_dirs with
        | none => exact ih b m
        | some p =>
          rcases ih (b.ro_bind p (pathJoin extension_base_mount_path impl)) _ with ⟨d, hd⟩
          exact ⟨_ :: d, by simpa [BwrapBuilder.ro_bind, BwrapBuilder.emit,
            List.append_assoc] using hd⟩
      · simp only [hen, if_false]
        exact ih b m

theorem aoE_setup_extension (fs : FS) (extension_metadata : KeyMap)
    (name arch runtime_version : String) (available_runtimes install_dirs : List String)
    (base_path : String) (b : BwrapBuilder) :
    opsExtendE b (setup_extension fs extension_metadata b name arch runtime_version
      available_runtimes install_dirs base_path) := by
  unfold setup_extension
  cases kget extension_metadata "directory" with
  | none => exact True.intro
  | some directory =>
    have hmain : ∀ (mounts : List (String × String)) (c : BwrapBuilder),
        (∃ d, c.ops = b.ops ++ d) →
        opsExtendE b
          (match mounts_post_loop fs extension_metadata name (pathJoin base_path directory)
              mounts c [] with
            | .error e => .error e
            | .ok (b, _) => .ok b) := by
      intro mounts c hc
      have aux := aoP_mounts_post_loop fs extension_metadata name
        (pathJoin base_path directory) mounts c []
      revert aux
      cases mounts_post_loop fs extension_metadata name (pathJoin base_path directory)
          mounts c [] with
      | error e => intro _; exact True.intro
      | ok t =>
        rcases t with ⟨b', x⟩
        intro aux
        rcases aux with ⟨d₁, hd₁⟩
        rcases hc with ⟨d₀, hd₀⟩
        exact ⟨d₀ ++ d₁, by simp [hd₁, hd₀, List.append_assoc]⟩
    show opsExtendE b
      (match mounts_post_loop fs extension_metadata name (pathJoin base_path directory)
          ((collect_mounts fs extension_metadata name arch
            (allowed_versions_of extension_metadata runtime_version) install_dirs
            (pathJoin base_path directory) available_runtimes
            (b.tmpfs (pathJoin base_path directory)) []).2)
          ((collect_mounts fs extension_metadata name arch
            (allowed_versions_of extension_metadata runtime_version) install_dirs
            (pathJoin base_path directory) available_runtimes
            (b.tmpfs (pathJoin base_path directory)) []).1) [] with
        | .error e => .error e
        | .ok (b, _) => .ok b)
    refine hmain _ _ ?_
    rcases ao_collect_mounts fs extension_metadata name arch
      (allowed_versions_of extension_metadata runtime_version) install_dirs
      (pathJoin base_path directory) available_runtimes
      (b.tmpfs (pathJoin base_path directory)) [] with ⟨d, hd⟩
    exact ⟨_ :: d, by simpa [BwrapBuilder.tmpfs, BwrapBuilder.emit,
      List.append_assoc] using hd⟩

theorem aoE_withCtx (ctx : String) {b : BwrapBuilder} {r : Except String BwrapBuilder}
    (h : opsExtendE b r) : opsExtendE b (withCtx ctx r) := by
  cases r with
  | error e => exact True.intro
  | ok c => exact h

theorem aoE_runtime_ext_groups_loop (fs : FS) (arch version : String)
    (available_runtimes install_dirs : List String) :
    ∀ groups (b : BwrapBuilder),
      opsExtendE b (runtime_ext_groups_loop fs arch version available_runtimes
        install_dirs groups b) := by
  intro groups
  induction groups with
  | nil => intro b; exact ⟨[], by simp⟩
  | cons head rest ih =>
    intro b
    rcases head with ⟨group, metadata⟩
    simp only [runtime_ext_groups_loop]
    cases stripPre group EXTENSION_GROUP_TAG with
    | none => exact ih b
    | some extension =>
      have hmain : opsExtendE b
          (match withCtx ("Could not set up extension " ++ extension)
              (setup_extension fs metadata b extension arch version available_runtimes
                install_dirs "/usr") with
            | .error e => .error e
            | .ok b => runtime_ext_groups_loop fs arch version available_runtimes
                install_dirs rest b) := by
        have aux := aoE_withCtx ("Could not set up extension " ++ extension)
          (aoE_setup_extension fs metadata extension arch version available_runtimes
            install_dirs "/usr" b)
        revert aux
        cases withCtx ("Could not set up extension " ++ extension)
            (setup_extension fs metadata b extension arch version available_runtimes
              install_dirs "/usr") with
        | error e => intro _; exact True.intro
        | ok c =>
          intro aux
          exact opsExtendE_mono aux (ih c)
      exact hmain

theorem aoE_app_ext_groups_loop (fs : FS) (arch : String)
    (available_runtimes install_dirs : List String) :
    ∀ groups (b : BwrapBuilder),
      opsExtendE b (app_ext_groups_loop fs arch available_runtimes install_dirs groups b) := by
  intro groups
  induction groups with
  | nil => intro b; exact ⟨[], by simp⟩
  | cons head rest ih =>
    intro b
    rcases head with ⟨group, metadata⟩
    simp only [app_ext_groups_loop]
    cases stripPre group EXTENSION_GROUP_TAG with
    | none => exact ih b
    | some extension =>
      have hmain : opsExtendE b
          (match withCtx ("Could not set up app extension " ++ extension)
              (setup_extension fs metadata b extension arch (app_ext_version metadata)
                available_runtimes install_dirs "/app") with
            | .error e => .error e
            | .ok b => app_ext_groups_loop fs arch available_runtimes install_dirs
                rest b) := by
        have aux := aoE_withCtx ("Could not set up app extension " ++ extension)
          (aoE_setup_extension fs metadata extension arch (app_ext_version metadata)
            available_runtimes install_dirs "/app" b)
        revert aux
        cases withCtx ("Could not set up app extension " ++ extension)
            (setup_extension fs metadata b extension arch (app_ext_version metadata)
              available_runtimes install_dirs "/app") with
        | error e => intro _; exact True.intro
        | ok c =>
          intro aux
          exact opsExtendE_mono aux (ih c)
      exact hmain

theorem aoE_setup_runtime_extensions (fs : FS) (runtime_metadata : Metadata)
    (available_runtimes install_dirs : List String) (b : BwrapBuilder) :
    opsExtendE b (setup_runtime_extensions fs runtime_metadata b available_runtimes
      install_dirs) := by
  unfold setup_runtime_extensions
  cases (mGet runtime_metadata "Runtime").bind (fun runtime => kget runtime "runtime") with
  | none => exact True.intro
  | some runtime =>
    have hmain : opsExtendE b
        (match (splitOnChar '/' runtime).get? 1 with
          | none => .error "Could not extract architecture from runtime id"
          | some arch =>
            match (splitOnChar '/' runtime).get? 2 with
            | none => .error "Could not extract version from runtime id"
            | some version =>
              runtime_ext_groups_loop fs arch version available_runtimes install_dirs
                runtime_metadata b) := by
      cases (splitOnChar '/' runtime).get? 1 with
      | none => exact True.intro
      | some arch =>
        cases (splitOnChar '/' runtime).get? 2 with
        | none => exact True.intro
        | some version =>
          exact aoE_runtime_ext_groups_loop fs arch version available_runtimes
            install_dirs runtime_metadata b
    exact hmain

theorem aoE_setup_app_extensions (fs : FS) (app_metadata : Metadata)
    (available_runtimes install_dirs : List String) (b : BwrapBuilder) :
    opsExtendE b (setup_app_extensions fs app_metadata b available_runtimes install_dirs) := by
  unfold setup_app_extensions
  cases (mGet app_metadata "Application").bind (fun app => kget app "runtime") with
  | none => exact True.intro
  | some runtime =>
    have hmain : opsExtendE b
        (match (splitOnChar '/' runtime).get? 1 with
          | none => .error "Could not extract architecture from runtime id"
          | some arch =>
            app_ext_groups_loop fs arch available_runtimes install_dirs app_metadata b) := by
      cases (splitOnChar '/' runtime).get? 1 with
      | none => exact True.intro
      | some arch =>
        exact aoE_app_ext_groups_loop fs arch available_runtimes install_dirs
          app_metadata b
    exact hmain

theorem ao_default_env_loop :
    ∀ table (b : BwrapBuilder), ∃ d, (default_env_loop table b).ops = b.ops ++ d := by
  intro table
  induction table with
  | nil => intro b; exact ⟨[], by simp [default_env_loop]⟩
  | cons head rest ih =>
    intro b
    rcases head with ⟨env, val⟩
    cases val with
    | some value =>
      rcases ih (b.set_env env value) with ⟨d, hd⟩
      exact ⟨_ :: d, by simpa [default_env_loop, BwrapBuilder.set_env, BwrapBuilder.emit,
        List.append_assoc] using hd⟩
    | none =>
      rcases ih (b.unset_env env) with ⟨d, hd⟩
      exact ⟨_ :: d, by simpa [default_env_loop, BwrapBuilder.unset_env, BwrapBuilder.emit,
        List.append_assoc] using hd⟩

theorem ao_runtime_env_loop :
    ∀ kvs (b : BwrapBuilder), ∃ d, (runtime_env_loop kvs b).ops = b.ops ++ d := by
  intro kvs
  induction kvs with
  | nil => intro b; exact ⟨[], by simp [runtime_env_loop]⟩
  | cons head rest ih =>
    intro b
    rcases head with ⟨env, value⟩
    rcases ih (b.set_env env value) with ⟨d, hd⟩
    exact ⟨_ :: d, by simpa [runtime_env_loop, BwrapBuilder.set_env, BwrapBuilder.emit,
      List.append_assoc] using hd⟩

theorem ao_setup_env (runtime_env : KeyMap) (app_id home : Option String)
    (b : BwrapBuilder) : ∃ d, (setup_env b runtime_env app_id home).ops = b.ops ++ d := by
  unfold setup_env
  rcases ao_default_env_loop DEFAULT_ENV b with ⟨d₁, hd₁⟩
  rcases ao_runtime_env_loop runtime_env (default_env_loop DEFAULT_ENV b) with ⟨d₂, hd₂⟩
  cases app_id with
  | none => exact ⟨d₁ ++ d₂, by simp [hd₂, hd₁, List.append_assoc]⟩
  | some app =>
    cases home with
    | none => exact ⟨d₁ ++ d₂, by simp [hd₂, hd₁, List.append_assoc]⟩
    | some home_dir =>
      refine ⟨d₁ ++ (d₂ ++
        [ Op.setEnv "XDG_DATA_HOME"
            (pathJoin (pathJoin (pathJoin (pathJoin home_dir ".var") "app") app) "data")
        , Op.setEnv "XDG_CONFIG_HOME"
            (pathJoin (pathJoin (pathJoin (pathJoin home_dir ".var") "app") app) "config")
        , Op.setEnv "XDG_CACHE_HOME"
            (pathJoin (pathJoin (pathJoin (pathJoin home_dir ".var") "app") app) "cache")
        , Op.setEnv "XDG_STATE_HOME"
            (pathJoin (pathJoin (pathJoin (pathJoin (pathJoin home_dir ".var") "app") app)
              ".local") "state") ]), ?_⟩
      simp [BwrapBuilder.set_env, BwrapBuilder.emit, hd₂, hd₁, List.append_assoc]

theorem ao_add_ld_so_conf (b b' : BwrapBuilder) (h : add_ld_so_conf b = .ok b') :
    ∃ d, b'.ops = b.ops ++ d := by
  unfold add_ld_so_conf at h
  cases h
  exact rbd_extends b "/etc/ld.so.conf" LD_SO_CONF_CONTENTS

theorem ao_app_step (fs : FS) (app_metadata : Option Metadata)
    (available_runtimes install_dirs : List String) (b₃ b₄ : BwrapBuilder)
    (h : (match app_metadata with
        | some app_meta => setup_app_extensions fs app_meta b₃ available_runtimes
            install_dirs
        | none => .ok b₃) = .ok b₄) :
    ∃ d, b₄.ops = b₃.ops ++ d := by
  revert h
  cases app_metadata with
  | some app_meta =>
    intro h
    exact opsExtendE_ok (aoE_setup_app_extensions fs app_meta available_runtimes
      install_dirs b₃) h
  | none =>
    intro h
    cases h
    exact ⟨[], by simp⟩

/-- Claim C4 (amended): in every produced operation list, the Host
Exposure Policy operations form one contiguous block appended immediately
after the runtime-setup operations and before every operation emitted by
runtime-extension setup, app-extension setup, the ld.so.conf injection
and the environment pass — not after extension setup as claimed. -/
theorem c4_phase_order_amended (fs : FS) (tempdir runtime_files_path : String)
    (app_files_path : Option String) (runtime_metadata : Metadata)
    (app_metadata : Option Metadata) (available_runtimes install_dirs : List String)
    (app_id home : Option String) :
    ComposeDecomp fs tempdir runtime_files_path app_files_path runtime_metadata
      app_metadata available_runtimes install_dirs app_id home
      (run_compose fs tempdir runtime_files_path app_files_path runtime_metadata
        app_metadata available_runtimes install_dirs app_id home) := by
  unfold run_compose
  cases h₁ : setup_runtime fs (BwrapBuilder.new tempdir) runtime_files_path
      app_files_path with
  | error e => exact True.intro
  | ok b₁ =>
    show ComposeDecomp fs tempdir runtime_files_path app_files_path runtime_metadata
      app_metadata available_runtimes install_dirs app_id home
      (match setup_host_root_dirs fs b₁ with
        | .error e => .error e
        | .ok b =>
          match setup_runtime_extensions fs runtime_metadata b available_runtimes
              install_dirs with
          | .error e => .error e
          | .ok b =>
            match (match app_metadata with
                | some app_meta =>
                  setup_app_extensions fs app_meta b available_runtimes install_dirs
                | none => .ok b) with
            | .error e => .error e
            | .ok b =>
              match add_ld_so_conf b with
              | .error e => .error e
              | .ok b =>
                .ok (setup_env b ((mGet runtime_metadata "Environment").getD [])
                  app_id home))
    cases h₂ : setup_host_root_dirs fs b₁ with
    | error e => exact True.intro
    | ok b₂ =>
      show ComposeDecomp fs tempdir runtime_files_path app_files_path runtime_metadata
        app_metadata available_runtimes install_dirs app_id home
        (match setup_runtime_extensions fs runtime_metadata b₂ available_runtimes
            install_dirs with
          | .error e => .error e
          | .ok b =>
            match (match app_metadata with
                | some app_meta =>
                  setup_app_extensions fs app_meta b available_runtimes install_dirs
                | none => .ok b) with
            | .error e => .error e
            | .ok b =>
              match add_ld_so_conf b with
              | .error e => .error e
              | .ok b =>
                .ok (setup_env b ((mGet runtime_metadata "Environment").getD [])
                  app_id home))
      cases h₃ : setup_runtime_extensions fs runtime_metadata b₂ available_runtimes
          install_dirs with
      | error e => exact True.intro
      | ok b₃ =>
        show ComposeDecomp fs tempdir runtime_files_path app_files_path runtime_metadata
          app_metadata available_runtimes install_dirs app_id home
          (match (match app_metadata with
              | some app_meta =>
                setup_app_extensions fs app_meta b₃ available_runtimes install_dirs
              | none => .ok b₃) with
            | .error e => .error e
            | .ok b =>
              match add_ld_so_conf b with
              | .error e => .error e
              | .ok b =>
                .ok (setup_env b ((mGet runtime_metadata "Environment").getD [])
                  app_id home))
        cases h₄ : (match app_metadata with
            | some app_meta =>
              setup_app_extensions fs app_meta b₃ available_runtimes install_dirs
            | none => .ok b₃) with
        | error e => exact True.intro
        | ok b₄ =>
          show ComposeDecomp fs tempdir runtime_files_path app_files_path runtime_metadata
            app_metadata available_runtimes install_dirs app_id home
            (match add_ld_so_conf b₄ with
              | .error e => .error e
              | .ok b =>
                .ok (setup_env b ((mGet runtime_metadata "Environment").getD [])
                  app_id home))
          cases h₅ : add_ld_so_conf b₄ with
          | error e => exact True.intro
          | ok b₅ =>
            exact ⟨b₁, b₂, b₃, b₄, b₅, h₁, h₂, h₃, h₄, h₅, rfl,
              ao_setup_host_root_dirs fs b₁ b₂ h₂,
              opsExtendE_ok (aoE_setup_runtime_extensions fs runtime_metadata
                available_runtimes install_dirs b₂) h₃,
              ao_app_step fs app_metadata available_runtimes install_dirs b₃ b₄ h₄,
              ao_add_ld_so_conf b₄ b₅ h₅,
              ao_setup_env ((mGet runtime_metadata "Environment").getD []) app_id home b₅⟩

/-- Claim C4 (counterexample): in the concretely produced operation list
a Host Exposure Policy operation (the unconditional /dev device bind)
appears strictly before the extension-setup tmpfs, contradicting the
claim that every host-exposure operation comes after every extension
operation. -/
theorem c4_host_before_extensions_cex :
    (run_compose c4FS "/td" "/rt/files" none c4RuntimeMeta none [] [] none none).isOk
      = true ∧
    Op.devBind "/dev" "/dev"
      ∈ opsOf (run_compose c4FS "/td" "/rt/files" none c4RuntimeMeta none [] [] none none) ∧
    Op.tmpfs "/usr/ext"
      ∈ opsOf (run_compose c4FS "/td" "/rt/files" none c4RuntimeMeta none [] [] none none) ∧
    (opsOf (run_compose c4FS "/td" "/rt/files" none c4RuntimeMeta none [] [] none
        none)).indexOf (Op.devBind "/dev" "/dev")
      < (opsOf (run_compose c4FS "/td" "/rt/files" none c4RuntimeMeta none [] [] none
        none)).indexOf (Op.tmpfs "/usr/ext") := by
  decide

theorem simple_data_ne_nil {s : String} (h : simpleName s = true) : s.data ≠ [] := by
  intro hd
  have hs : s = "" := by cases s with | mk l => cases hd; rfl
  rw [hs] at h
  simp [simpleName] at h

theorem simple_not_contains {s : String} (h : simpleName s = true) :
    s.data.contains '/' = false := by
  have := (Bool.and_eq_true _ _).mp ((by simpa [simpleName] using h : (decide (s ≠ "") && !(s.data.contains '/')) = true))
  simpa using this.2

theorem simple_not_startsSlash {s : String} (h : simpleName s = true) :
    strStartsSlash s = false := by
  unfold strStartsSlash
  cases hd : s.data with
  | nil => simp
  | cons c rest =>
    have hc : c ≠ '/' := by
      intro hc
      have hcon := simple_not_contains h
      rw [hd, hc] at hcon
      simp [List.contains_cons] at hcon
    simp [hc]

theorem simple_not_mem_slash {s : String} (h : simpleName s = true) : '/' ∉ s.data := by
  have hc := simple_not_contains h
  simp at hc
  exact hc

theorem strEndsSlash_append_simple (x : String) {m : String} (hm : simpleName m = true) :
    strEndsSlash (x ++ m) = false := by
  unfold strEndsSlash
  have hdata : (x ++ m).data = x.data ++ m.data := by
    cases x with | mk a => cases m with | mk b => rfl
  rw [hdata, List.getLast?_append_of_ne_nil x.data (simple_data_ne_nil hm)]
  cases hl : m.data.getLast? with
  | none => simp
  | some c =>
    have hmem : c ∈ m.data := by
      obtain ⟨hne, hcel⟩ := List.mem_getLast?_eq_getLast (by rw [hl]; exact Option.mem_some_iff.mpr rfl)
      rw [hcel]
      exact List.getLast_mem hne
    have hc : c ≠ '/' := fun hceq => simple_not_mem_slash hm (hceq ▸ hmem)
    simp [hc]

theorem string_append_data (x y : String) : (x ++ y).data = x.data ++ y.data := by
  cases x with | mk a => cases y with | mk b => rfl

/-- Normal form of a double path join under slash-free nonempty components. -/
theorem pathJoin2_data (s m n : String) (hm : simpleName m = true) (hn : simpleName n = true) :
    (pathJoin (pathJoin s m) n).data =
      s.data ++ (if strEndsSlash s then [] else ['/']) ++ (m.data ++ '/' :: n.data) := by
  have hinner : pathJoin s m = (if strEndsSlash s then s else s ++ "/") ++ m := by
    unfold pathJoin
    rw [simple_not_startsSlash hm]
    cases he : strEndsSlash s with
    | true => simp
    | false => simp [String.append_assoc]
  rw [hinner]
  have hend : strEndsSlash ((if strEndsSlash s then s else s ++ "/") ++ m) = false :=
    strEndsSlash_append_simple _ hm
  unfold pathJoin
  rw [simple_not_startsSlash hn, hend]
  simp only [Bool.false_eq_true, if_false]
  rw [string_append_data, string_append_data, string_append_data]
  cases he : strEndsSlash s with
  | true => simp
  | false => simp

theorem append_slash_inj :
    ∀ (a : List Char) {x : List Char} (c : List Char) {y : List Char},
    '/' ∉ a → '/' ∉ c → a ++ '/' :: x = c ++ '/' :: y → a = c ∧ x = y := by
  intro a
  induction a with
  | nil =>
    intro x c y _ hc h
    cases c with
    | nil =>
      simp only [List.nil_append] at h
      exact ⟨rfl, (List.cons.inj h).2⟩
    | cons ch ct =>
      simp only [List.nil_append, List.cons_append] at h
      have hch := (List.cons.inj h).1
      exact absurd (hch ▸ List.mem_cons_self ch ct) hc
  | cons ah rest ih =>
    intro x c y ha hc h
    cases c with
    | nil =>
      simp only [List.cons_append, List.nil_append] at h
      have hch := (List.cons.inj h).1
      exact absurd (hch ▸ List.mem_cons_self ah rest) ha
    | cons ch ct =>
      simp only [List.cons_append] at h
      obtain ⟨h1, h2⟩ := List.cons.inj h
      have ha2 : '/' ∉ rest := fun hm => ha (List.mem_cons_of_mem _ hm)
      have hc2 : '/' ∉ ct := fun hm => hc (List.mem_cons_of_mem _ hm)
      obtain ⟨he, hxy⟩ := ih ct ha2 hc2 h2
      exact ⟨by rw [h1, he], hxy⟩

theorem string_data_inj {a b : String} (h : a.data = b.data) : a = b := by
  cases a with | mk x => cases b with | mk y => cases h; rfl

/-- Joining two slash-free nonempty components onto a fixed base is injective. -/
theorem pj2_inj {s m₁ n₁ m₂ n₂ : String}
    (hm₁ : simpleName m₁ = true) (hn₁ : simpleName n₁ = true)
    (hm₂ : simpleName m₂ = true) (hn₂ : simpleName n₂ = true)
    (h : pathJoin (pathJoin s m₁) n₁ = pathJoin (pathJoin s m₂) n₂) :
    m₁ = m₂ ∧ n₁ = n₂ := by
  have hd := congrArg String.data h
  rw [pathJoin2_data s m₁ n₁ hm₁ hn₁, pathJoin2_data s m₂ n₂ hm₂ hn₂] at hd
  rw [List.append_assoc, List.append_assoc] at hd
  have hd2 := List.append_cancel_left hd
  have hd3 := List.append_cancel_left hd2
  obtain ⟨hms, hns⟩ :=
    append_slash_inj m₁.data m₂.data (simple_not_mem_slash hm₁) (simple_not_mem_slash hm₂) hd3
  exact ⟨string_data_inj hms, string_data_inj hns⟩

theorem mem_filterMap_symDst {δ : List Op} {dd : String} :
    dd ∈ δ.filterMap symDst ↔ ∃ s, Op.symlink s dd ∈ δ := by
  rw [List.mem_filterMap]
  constructor
  · rintro ⟨op, hmem, hdst⟩
    cases op with
    | symlink s t => exact ⟨s, by cases hdst; exact hmem⟩
    | tmpfs p => cases hdst
    | bind s t => cases hdst
    | roBind s t => cases hdst
    | setEnv k v => cases hdst
    | unsetEnv k => cases hdst
    | devBind s t => cases hdst
    | roBindData a p c => cases hdst
  · rintro ⟨s, hmem⟩
    exact ⟨Op.symlink s dd, hmem, rfl⟩

theorem deltaChar_refl (b : BwrapBuilder) (ex : List String) (sh : Op → Prop) :
    DeltaChar b b ex ex sh := by
  refine ⟨[], by simp, by simp, fun dd => ?_, by simp, by simp⟩
  simp

theorem deltaChar_mono_shape {b b' : BwrapBuilder} {ex ex' : List String}
    {sh₁ sh₂ : Op → Prop} (hm : ∀ op, sh₁ op → sh₂ op) :
    DeltaChar b b' ex ex' sh₁ → DeltaChar b b' ex ex' sh₂ := by
  rintro ⟨δ, hops, hsh, hex, hnd, hfr⟩
  exact ⟨δ, hops, fun op hop => hm op (hsh op hop), hex, hnd, hfr⟩

theorem deltaChar_trans {b₁ b₂ b₃ : BwrapBuilder} {ex₁ ex₂ ex₃ : List String}
    {sh : Op → Prop} (h₁ : DeltaChar b₁ b₂ ex₁ ex₂ sh) (h₂ : DeltaChar b₂ b₃ ex₂ ex₃ sh) :
    DeltaChar b₁ b₃ ex₁ ex₃ sh := by
  rcases h₁ with ⟨δ₁, hops₁, hsh₁, hex₁, hnd₁, hfr₁⟩
  rcases h₂ with ⟨δ₂, hops₂, hsh₂, hex₂, hnd₂, hfr₂⟩
  refine ⟨δ₁ ++ δ₂, by rw [hops₂, hops₁, List.append_assoc], ?_, ?_, ?_, ?_⟩
  · intro op hop
    rcases List.mem_append.mp hop with h | h
    · exact hsh₁ op h
    · exact hsh₂ op h
  · intro dd
    rw [hex₂ dd, hex₁ dd]
    constructor
    · rintro ((h | ⟨s, hs⟩) | ⟨s, hs⟩)
      · exact Or.inl h
      · exact Or.inr ⟨s, List.mem_append.mpr (Or.inl hs)⟩
      · exact Or.inr ⟨s, List.mem_append.mpr (Or.inr hs)⟩
    · rintro (h | ⟨s, hs⟩)
      · exact Or.inl (Or.inl h)
      · rcases List.mem_append.mp hs with h | h
        · exact Or.inl (Or.inr ⟨s, h⟩)
        · exact Or.inr ⟨s, h⟩
  · rw [List.filterMap_append, List.nodup_append]
    refine ⟨hnd₁, hnd₂, ?_⟩
    intro x hx₁ hx₂
    have hxex₂ : x ∈ ex₂ := (hex₁ x).mpr (Or.inr (mem_filterMap_symDst.mp hx₁))
    exact hfr₂ x hx₂ hxex₂
  · intro dd hdd
    rw [List.filterMap_append, List.mem_append] at hdd
    rcases hdd with h | h
    · exact hfr₁ dd h
    · intro hdex₁
      exact hfr₂ dd h ((hex₁ dd).mpr (Or.inl hdex₁))

theorem deltaChar_emit_symlink {b : BwrapBuilder} {ex : List String} {sh : Op → Prop}
    {s dst : String} (hsh : sh (Op.symlink s dst)) (hfresh : dst ∉ ex) :
    DeltaChar b (b.symlink s dst) ex (dst :: ex) sh := by
  refine ⟨[Op.symlink s dst], rfl, ?_, ?_, by simp [symDst], ?_⟩
  · intro op hop
    rcases List.mem_singleton.mp hop with h
    exact h ▸ hsh
  · intro dd
    constructor
    · intro hdd
      rcases List.mem_cons.mp hdd with h | h
      · exact Or.inr ⟨s, by rw [h]; exact List.mem_singleton.mpr rfl⟩
      · exact Or.inl h
    · rintro (h | ⟨s', hs'⟩)
      · exact List.mem_cons_of_mem _ h
      · have := List.mem_singleton.mp hs'
        have hdd : dd = dst := by cases this; rfl
        exact hdd ▸ List.mem_cons_self _ _
  · intro dd hdd
    simp [symDst] at hdd
    exact hdd ▸ hfresh

theorem deltaChar_single_nosym {b b' : BwrapBuilder} {ex : List String} {sh : Op → Prop}
    (op : Op) (hops : b'.ops = b.ops ++ [op]) (hop : symDst op = none) (hsh : sh op) :
    DeltaChar b b' ex ex sh := by
  refine ⟨[op], hops, ?_, ?_, by simp [hop], by simp [hop]⟩
  · intro o ho
    rcases List.mem_singleton.mp ho with h
    exact h ▸ hsh
  · intro dd
    constructor
    · exact fun h => Or.inl h
    · rintro (h | ⟨s', hs'⟩)
      · exact h
      · have := List.mem_singleton.mp hs'
        rw [← this] at hop
        cases hop

theorem mchar3_mono_shape {b : BwrapBuilder} {ex : List String} {sh₁ sh₂ : Op → Prop}
    {r : Except String (BwrapBuilder × List String × List String)}
    (hm : ∀ op, sh₁ op → sh₂ op) (h : MChar3 b ex sh₁ r) : MChar3 b ex sh₂ r := by
  cases r with
  | error e => exact True.intro
  | ok t =>
    obtain ⟨b', p', ex'⟩ := t
    exact deltaChar_mono_shape hm h

theorem mchar2_mono_shape {b : BwrapBuilder} {ex : List String} {sh₁ sh₂ : Op → Prop}
    {r : Except String (BwrapBuilder × List String)}
    (hm : ∀ op, sh₁ op → sh₂ op) (h : MChar2 b ex sh₁ r) : MChar2 b ex sh₂ r := by
  cases r with
  | error e => exact True.intro
  | ok t =>
    obtain ⟨b', ex'⟩ := t
    exact deltaChar_mono_shape hm h

theorem mchar3_pre {b c : BwrapBuilder} {ex exc : List String} {sh : Op → Prop}
    {r : Except String (BwrapBuilder × List String × List String)}
    (h₁ : DeltaChar b c ex exc sh) (h₂ : MChar3 c exc sh r) : MChar3 b ex sh r := by
  cases r with
  | error e => exact True.intro
  | ok t =>
    obtain ⟨b', p', ex'⟩ := t
    exact deltaChar_trans h₁ h₂

theorem mchar2_pre {b c : BwrapBuilder} {ex exc : List String} {sh : Op → Prop}
    {r : Except String (BwrapBuilder × List String)}
    (h₁ : DeltaChar b c ex exc sh) (h₂ : MChar2 c exc sh r) : MChar2 b ex sh r := by
  cases r with
  | error e => exact True.intro
  | ok t =>
    obtain ⟨b', ex'⟩ := t
    exact deltaChar_trans h₁ h₂

theorem stableD3_mono {d : String} {P Q : String → Prop}
    {r : Except String (BwrapBuilder × List String × List String)}
    (h : ∀ s, P s → Q s) : StableD3 d P r → StableD3 d Q r := by
  cases r with
  | error e => exact fun _ => True.intro
  | ok t =>
    obtain ⟨b', p', ex'⟩ := t
    rintro ⟨⟨src, hmem, hP⟩, hdx⟩
    exact ⟨⟨src, hmem, h src hP⟩, hdx⟩

theorem stableD2_mono {d : String} {P Q : String → Prop}
    {r : Except String (BwrapBuilder × List String)}
    (h : ∀ s, P s → Q s) : StableD2 d P r → StableD2 d Q r := by
  cases r with
  | error e => exact fun _ => True.intro
  | ok t =>
    obtain ⟨b', ex'⟩ := t
    rintro ⟨⟨src, hmem, hP⟩, hdx⟩
    exact ⟨⟨src, hmem, h src hP⟩, hdx⟩

theorem stable3_of_char {d : String} {P : String → Prop} {b : BwrapBuilder}
    {ex : List String} {sh : Op → Prop}
    {r : Except String (BwrapBuilder × List String × List String)}
    (hc : MChar3 b ex sh r)
    (hsym : ∃ src, Op.symlink src d ∈ b.ops ∧ P src) (hd : d ∈ ex) : StableD3 d P r := by
  cases r with
  | error e => exact True.intro
  | ok t =>
    obtain ⟨b', p', ex'⟩ := t
    rcases hc with ⟨δ, hops, _, hex, _, _⟩
    rcases hsym with ⟨src, hmem, hP⟩
    exact ⟨⟨src, hops ▸ List.mem_append.mpr (Or.inl hmem), hP⟩, (hex d).mpr (Or.inl hd)⟩

theorem stable2_of_char {d : String} {P : String → Prop} {b : BwrapBuilder}
    {ex : List String} {sh : Op → Prop}
    {r : Except String (BwrapBuilder × List String)}
    (hc : MChar2 b ex sh r)
    (hsym : ∃ src, Op.symlink src d ∈ b.ops ∧ P src) (hd : d ∈ ex) : StableD2 d P r := by
  cases r with
  | error e => exact True.intro
  | ok t =>
    obtain ⟨b', ex'⟩ := t
    rcases hc with ⟨δ, hops, _, hex, _, _⟩
    rcases hsym with ⟨src, hmem, hP⟩
    exact ⟨⟨src, hops ▸ List.mem_append.mpr (Or.inl hmem), hP⟩, (hex d).mpr (Or.inl hd)⟩

theorem entrySymShape_cons {extension_base_mount_path target merge_dir : String}
    {h : Except String DirEntry} {rest : List (Except String DirEntry)} :
    ∀ op, entrySymShape extension_base_mount_path target merge_dir rest op →
      entrySymShape extension_base_mount_path target merge_dir (h :: rest) op := by
  rintro op ⟨ent, hmem, hft, heq⟩
  exact ⟨ent, List.mem_cons_of_mem _ hmem, hft, heq⟩

/-- Characterization of the per-entry merge loop: ops grow by symlinks of
the declared shape, the claimed-destination set grows by exactly their
destinations, which are pairwise distinct and fresh. -/
theorem merge_entries_char (extension_base_mount_path target source merge_dir : String) :
    ∀ (es : List (Except String DirEntry)) (b : BwrapBuilder)
      (processed_paths existing_symlinks : List String),
    MChar3 b existing_symlinks (entrySymShape extension_base_mount_path target merge_dir es)
      (merge_entries extension_base_mount_path target source merge_dir es b
        processed_paths existing_symlinks) := by
  intro es
  induction es with
  | nil =>
    intro b processed_paths existing_symlinks
    exact deltaChar_refl b existing_symlinks _
  | cons head rest ih =>
    intro b processed_paths existing_symlinks
    cases head with
    | error e => exact True.intro
    | ok entry =>
      simp only [merge_entries]
      cases hft : entry.isFileResult with
      | error e => exact True.intro
      | ok isf =>
        cases isf with
        | false => exact mchar3_mono_shape entrySymShape_cons (ih b _ _)
        | true =>
          by_cases hp : pathJoin (pathJoin source merge_dir) entry.name ∈ processed_paths
          · rw [if_pos hp]
            exact mchar3_mono_shape entrySymShape_cons (ih b _ _)
          · rw [if_neg hp]
            by_cases hx :
                pathJoin (pathJoin extension_base_mount_path merge_dir) entry.name
                  ∈ existing_symlinks
            · rw [if_pos hx]
              exact mchar3_mono_shape entrySymShape_cons (ih b _ _)
            · rw [if_neg hx]
              exact mchar3_pre
                (deltaChar_emit_symlink ⟨entry, List.mem_cons_self _ _, hft, rfl⟩ hx)
                (mchar3_mono_shape entrySymShape_cons (ih _ _ _))

/-- One merge pass preserves the first-writer-wins bookkeeping invariant. -/
theorem merge_entries_inv (extension_base_mount_path target source merge_dir : String)
    (hmd : simpleName merge_dir = true) :
    ∀ (es : List (Except String DirEntry)),
    (∀ ent, Except.ok ent ∈ es → simpleName ent.name = true) →
    ∀ (b : BwrapBuilder) (processed_paths existing_symlinks : List String),
    MergeInv source extension_base_mount_path processed_paths existing_symlinks →
    InvAfter3 source extension_base_mount_path
      (merge_entries extension_base_mount_path target source merge_dir es b
        processed_paths existing_symlinks) := by
  intro es
  induction es with
  | nil =>
    intro _ b processed_paths existing_symlinks hinv
    exact hinv
  | cons head rest ih =>
    intro hsimple b processed_paths existing_symlinks hinv
    cases head with
    | error e => exact True.intro
    | ok entry =>
      have hsimple_rest : ∀ ent, Except.ok ent ∈ rest → simpleName ent.name = true :=
        fun ent hm => hsimple ent (List.mem_cons_of_mem _ hm)
      have hname : simpleName entry.name = true :=
        hsimple entry (List.mem_cons_self _ _)
      simp only [merge_entries]
      cases hft : entry.isFileResult with
      | error e => exact True.intro
      | ok isf =>
        cases isf with
        | false => exact ih hsimple_rest b _ _ hinv
        | true =>
          by_cases hp : pathJoin (pathJoin source merge_dir) entry.name ∈ processed_paths
          · rw [if_pos hp]
            exact ih hsimple_rest b _ _ hinv
          · rw [if_neg hp]
            by_cases hx :
                pathJoin (pathJoin extension_base_mount_path merge_dir) entry.name
                  ∈ existing_symlinks
            · rw [if_pos hx]
              refine ih hsimple_rest b _ _ ?_
              intro m n hm hn hmem
              rcases List.mem_cons.mp hmem with heq | hmem2
              · obtain ⟨hmmd, hnnm⟩ := pj2_inj hm hn hmd hname heq
                rw [hmmd, hnnm]
                exact hx
              · exact hinv m n hm hn hmem2
            · rw [if_neg hx]
              refine ih hsimple_rest _ _ _ ?_
              intro m n hm hn hmem
              rcases List.mem_cons.mp hmem with heq | hmem2
              · obtain ⟨hmmd, hnnm⟩ := pj2_inj hm hn hmd hname heq
                rw [hmmd, hnnm]
                exact List.mem_cons_self _ _
              · exact List.mem_cons_of_mem _ (hinv m n hm hn hmem2)

/-- Completeness of one merge pass: if some well-formed entry of the
listing exposes the still-unclaimed destination `d`, the pass emits a
symlink to `d` whose source points at the corresponding entry of the
mount's target. -/
theorem merge_entries_complete (extension_base_mount_path target source merge_dir : String)
    (hmd : simpleName merge_dir = true) (d : String) :
    ∀ (es : List (Except String DirEntry)),
    (∀ ent, Except.ok ent ∈ es → simpleName ent.name = true) →
    ∀ (b : BwrapBuilder) (processed_paths existing_symlinks : List String),
    MergeInv source extension_base_mount_path processed_paths existing_symlinks →
    d ∉ existing_symlinks →
    (∃ ent, Except.ok ent ∈ es ∧ ent.isFileResult = .ok true ∧
      pathJoin (pathJoin extension_base_mount_path merge_dir) ent.name = d) →
    StableD3 d (fun src => ∃ ent, Except.ok ent ∈ es ∧ ent.isFileResult = .ok true ∧
        src = pathJoin (pathJoin target merge_dir) ent.name ∧
        pathJoin (pathJoin extension_base_mount_path merge_dir) ent.name = d)
      (merge_entries extension_base_mount_path target source merge_dir es b
        processed_paths existing_symlinks) := by
  intro es
  induction es with
  | nil =>
    rintro _ b processed_paths existing_symlinks _ _ ⟨ent, hmem, _, _⟩
    cases hmem
  | cons head rest ih =>
    rintro hsimple b processed_paths existing_symlinks hinv hd ⟨went, hwmem, hwft, hwdst⟩
    have hsimple_rest : ∀ ent, Except.ok ent ∈ rest → simpleName ent.name = true :=
      fun ent hm => hsimple ent (List.mem_cons_of_mem _ hm)
    have hP_rest : ∀ s,
        (∃ ent, Except.ok ent ∈ rest ∧ ent.isFileResult = .ok true ∧
          s = pathJoin (pathJoin target merge_dir) ent.name ∧
          pathJoin (pathJoin extension_base_mount_path merge_dir) ent.name = d) →
        (∃ ent, Except.ok ent ∈ head :: rest ∧ ent.isFileResult = .ok true ∧
          s = pathJoin (pathJoin target merge_dir) ent.name ∧
          pathJoin (pathJoin extension_base_mount_path merge_dir) ent.name = d) := by
      rintro s ⟨ent, hm, hft, hs, hdst⟩
      exact ⟨ent, List.mem_cons_of_mem _ hm, hft, hs, hdst⟩
    cases head with
    | error e => exact True.intro
    | ok entry =>
      have hname : simpleName entry.name = true :=
        hsimple entry (List.mem_cons_self _ _)
      simp only [merge_entries]
      cases hft : entry.isFileResult with
      | error e => exact True.intro
      | ok isf =>
        have hwrest : went = entry ∨ Except.ok went ∈ rest := by
          rcases List.mem_cons.mp hwmem with h | h
          · exact Or.inl (Except.ok.inj h)
          · exact Or.inr h
        cases isf with
        | false =>
          have hwr : Except.ok went ∈ rest := by
            rcases hwrest with h | h
            · rw [h] at hwft
              rw [hwft] at hft
              cases hft
            · exact h
          exact stableD3_mono hP_rest
            (ih hsimple_rest b _ _ hinv hd ⟨went, hwr, hwft, hwdst⟩)
        | true =>
          by_cases hp : pathJoin (pathJoin source merge_dir) entry.name ∈ processed_paths
          · rw [if_pos hp]
            have hdst_in : pathJoin (pathJoin extension_base_mount_path merge_dir) entry.name
                ∈ existing_symlinks := hinv merge_dir entry.name hmd hname hp
            have hwr : Except.ok went ∈ rest := by
              rcases hwrest with h | h
              · rw [h] at hwdst
                rw [hwdst] at hdst_in
                exact absurd hdst_in hd
              · exact h
            exact stableD3_mono hP_rest
              (ih hsimple_rest b _ _ hinv hd ⟨went, hwr, hwft, hwdst⟩)
          · rw [if_neg hp]
            by_cases hx :
                pathJoin (pathJoin extension_base_mount_path merge_dir) entry.name
                  ∈ existing_symlinks
            · rw [if_pos hx]
              have hinv2 : MergeInv source extension_base_mount_path
                  (pathJoin (pathJoin source merge_dir) entry.name :: processed_paths)
                  existing_symlinks := by
                intro m n hm hn hmem
                rcases List.mem_cons.mp hmem with heq | hmem2
                · obtain ⟨hmmd, hnnm⟩ := pj2_inj hm hn hmd hname heq
                  rw [hmmd, hnnm]
                  exact hx
                · exact hinv m n hm hn hmem2
              have hwr : Except.ok went ∈ rest := by
                rcases hwrest with h | h
                · rw [h] at hwdst
                  rw [hwdst] at hx
                  exact absurd hx hd
                · exact h
              exact stableD3_mono hP_rest
                (ih hsimple_rest b _ _ hinv2 hd ⟨went, hwr, hwft, hwdst⟩)
            · rw [if_neg hx]
              by_cases hdd :
                  pathJoin (pathJoin extension_base_mount_path merge_dir) entry.name = d
              · refine stable3_of_char (merge_entries_char _ _ _ _ rest _ _ _) ?_ ?_
                · refine ⟨pathJoin (pathJoin target merge_dir) entry.name, ?_, ?_⟩
                  · rw [hdd]
                    exact List.mem_append.mpr (Or.inr (List.mem_singleton.mpr rfl))
                  · exact ⟨entry, List.mem_cons_self _ _, hft, rfl, hdd⟩
                · rw [← hdd]
                  exact List.mem_cons_self _ _
              · have hinv2 : MergeInv source extension_base_mount_path
                    (pathJoin (pathJoin source merge_dir) entry.name :: processed_paths)
                    (pathJoin (pathJoin extension_base_mount_path merge_dir) entry.name
                      :: existing_symlinks) := by
                  intro m n hm hn hmem
                  rcases List.mem_cons.mp hmem with heq | hmem2
                  · obtain ⟨hmmd, hnnm⟩ := pj2_inj hm hn hmd hname heq
                    rw [hmmd, hnnm]
                    exact List.mem_cons_self _ _
                  · exact List.mem_cons_of_mem _ (hinv m n hm hn hmem2)
                have hd2 : d ∉ pathJoin (pathJoin extension_base_mount_path merge_dir)
                    entry.name :: existing_symlinks := by
                  intro hmem
                  rcases List.mem_cons.mp hmem with heq | hmem2
                  · exact hdd heq.symm
                  · exact hd hmem2
                have hwr : Except.ok went ∈ rest := by
                  rcases hwrest with h | h
                  · rw [h] at hwdst
                    exact absurd hwdst hdd
                  · exact h
                exact stableD3_mono hP_rest
                  (ih hsimple_rest _ _ _ hinv2 hd2 ⟨went, hwr, hwft, hwdst⟩)

theorem dirSymShape_cons {fs : FS} {extension_base_mount_path target source : String}
    {md0 : String} {rest : List String} :
    ∀ op, dirSymShape fs extension_base_mount_path target source rest op →
      dirSymShape fs extension_base_mount_path target source (md0 :: rest) op := by
  rintro op ⟨md, hmem, es, hrd, hshape⟩
  exact ⟨md, List.mem_cons_of_mem _ hmem, es, hrd, hshape⟩

theorem match_elim3 {R : Except String (BwrapBuilder × List String × List String) → Prop}
    (r : Except String (BwrapBuilder × List String × List String))
    (k : BwrapBuilder → List String → List String →
      Except String (BwrapBuilder × List String × List String))
    (herr : ∀ e, R (.error e))
    (hok : ∀ c p x, r = .ok (c, p, x) → R (k c p x)) :
    R (bindLoop3 r k) := by
  cases r with
  | error e => exact herr e
  | ok t =>
    obtain ⟨c, p, x⟩ := t
    exact hok c p x rfl

theorem match_elim2of2 {R : Except String (BwrapBuilder × List String) → Prop}
    (r : Except String (BwrapBuilder × List String))
    (k : BwrapBuilder → List String → Except String (BwrapBuilder × List String))
    (herr : ∀ e, R (.error e))
    (hok : ∀ c x, r = .ok (c, x) → R (k c x)) :
    R (bindLoop2 r k) := by
  cases r with
  | error e => exact herr e
  | ok t =>
    obtain ⟨c, x⟩ := t
    exact hok c x rfl

/-- Characterization of one mount's full merge-dirs pass. -/
theorem merge_dirs_loop_char (fs : FS) (extension_base_mount_path target source : String) :
    ∀ (merge_dirs : List String) (b : BwrapBuilder)
      (processed_paths existing_symlinks : List String),
    MChar3 b existing_symlinks (dirSymShape fs extension_base_mount_path target source merge_dirs)
      (merge_dirs_loop fs extension_base_mount_path target source merge_dirs b
        processed_paths existing_symlinks) := by
  intro merge_dirs
  induction merge_dirs with
  | nil =>
    intro b processed_paths existing_symlinks
    exact deltaChar_refl b existing_symlinks _
  | cons md0 rest ih =>
    intro b processed_paths existing_symlinks
    simp only [merge_dirs_loop]
    cases hrd : fs.readDir (pathJoin source md0) with
    | error e => exact mchar3_mono_shape dirSymShape_cons (ih b _ _)
    | ok entries =>
      refine match_elim3
        (R := MChar3 b existing_symlinks
          (dirSymShape fs extension_base_mount_path target source (md0 :: rest)))
        (merge_entries extension_base_mount_path target source md0 entries b
          processed_paths existing_symlinks)
        (fun c p x => merge_dirs_loop fs extension_base_mount_path target source rest c p x)
        (fun e => True.intro) ?_
      intro c p2 x2 hm
      have hE := merge_entries_char extension_base_mount_path target source md0 entries b
        processed_paths existing_symlinks
      rw [hm] at hE
      have hE2 : DeltaChar b c existing_symlinks x2
          (dirSymShape fs extension_base_mount_path target source (md0 :: rest)) := by
        refine deltaChar_mono_shape ?_ hE
        rintro op ⟨ent, hmem, hft, heq⟩
        exact ⟨md0, List.mem_cons_self _ _, entries, hrd, ent, hmem, hft, heq⟩
      exact mchar3_pre hE2 (mchar3_mono_shape dirSymShape_cons (ih c p2 x2))

/-- The merge-dirs loop preserves the bookkeeping invariant. -/
theorem merge_dirs_loop_inv (fs : FS) (extension_base_mount_path target source : String)
    (hf : fsSimpleNames fs) :
    ∀ (merge_dirs : List String), (∀ md ∈ merge_dirs, simpleName md = true) →
    ∀ (b : BwrapBuilder) (processed_paths existing_symlinks : List String),
    MergeInv source extension_base_mount_path processed_paths existing_symlinks →
    InvAfter3 source extension_base_mount_path
      (merge_dirs_loop fs extension_base_mount_path target source merge_dirs b
        processed_paths existing_symlinks) := by
  intro merge_dirs
  induction merge_dirs with
  | nil =>
    intro _ b processed_paths existing_symlinks hinv
    exact hinv
  | cons md0 rest ih =>
    intro hsimp b processed_paths existing_symlinks hinv
    have hsimp_rest : ∀ md ∈ rest, simpleName md = true :=
      fun md hm => hsimp md (List.mem_cons_of_mem _ hm)
    simp only [merge_dirs_loop]
    cases hrd : fs.readDir (pathJoin source md0) with
    | error e => exact ih hsimp_rest b _ _ hinv
    | ok entries =>
      refine match_elim3 (R := InvAfter3 source extension_base_mount_path)
        (merge_entries extension_base_mount_path target source md0 entries b
          processed_paths existing_symlinks)
        (fun c p x => merge_dirs_loop fs extension_base_mount_path target source rest c p x)
        (fun e => True.intro) ?_
      intro c p2 x2 hm
      have hI := merge_entries_inv extension_base_mount_path target source md0
        (hsimp md0 (List.mem_cons_self _ _)) entries
        (fun ent hmem => hf _ entries hrd ent hmem) b processed_paths existing_symlinks hinv
      rw [hm] at hI
      exact ih hsimp_rest c p2 x2 hI

/-- Completeness of one mount's merge-dirs pass: an exposed, unclaimed
destination gets a symlink pointing into this mount's target. -/
theorem merge_dirs_loop_complete (fs : FS) (extension_base_mount_path target source : String)
    (hf : fsSimpleNames fs) (d : String) :
    ∀ (merge_dirs : List String), (∀ md ∈ merge_dirs, simpleName md = true) →
    ∀ (b : BwrapBuilder) (processed_paths existing_symlinks : List String),
    MergeInv source extension_base_mount_path processed_paths existing_symlinks →
    d ∉ existing_symlinks →
    mountExposesHyp fs extension_base_mount_path source merge_dirs d →
    StableD3 d (mountSrcP fs extension_base_mount_path source target merge_dirs d)
      (merge_dirs_loop fs extension_base_mount_path target source merge_dirs b
        processed_paths existing_symlinks) := by
  intro merge_dirs
  induction merge_dirs with
  | nil =>
    rintro _ b processed_paths existing_symlinks _ _ ⟨md, hmem, _⟩
    cases hmem
  | cons md0 rest ih =>
    rintro hsimp b processed_paths existing_symlinks hinv hd hexp
    have hsimp_rest : ∀ md ∈ rest, simpleName md = true :=
      fun md hm => hsimp md (List.mem_cons_of_mem _ hm)
    have hsrc_rest : ∀ s, mountSrcP fs extension_base_mount_path source target rest d s →
        mountSrcP fs extension_base_mount_path source target (md0 :: rest) d s := by
      rintro s ⟨md, hm, es, hrd, h⟩
      exact ⟨md, List.mem_cons_of_mem _ hm, es, hrd, h⟩
    simp only [merge_dirs_loop]
    cases hrd : fs.readDir (pathJoin source md0) with
    | error e =>
      have hexp_rest : mountExposesHyp fs extension_base_mount_path source rest d := by
        rcases hexp with ⟨md, hmem, es, hrd2, h⟩
        rcases List.mem_cons.mp hmem with heq | hmem2
        · rw [heq] at hrd2
          rw [hrd2] at hrd
          cases hrd
        · exact ⟨md, hmem2, es, hrd2, h⟩
      exact stableD3_mono hsrc_rest (ih hsimp_rest b _ _ hinv hd hexp_rest)
    | ok entries =>
      refine match_elim3
        (R := StableD3 d (mountSrcP fs extension_base_mount_path source target (md0 :: rest) d))
        (merge_entries extension_base_mount_path target source md0 entries b
          processed_paths existing_symlinks)
        (fun c p x => merge_dirs_loop fs extension_base_mount_path target source rest c p x)
        (fun e => True.intro) ?_
      intro c p2 x2 hm
      have hE := merge_entries_char extension_base_mount_path target source md0 entries b
        processed_paths existing_symlinks
      rw [hm] at hE
      have hI := merge_entries_inv extension_base_mount_path target source md0
        (hsimp md0 (List.mem_cons_self _ _)) entries
        (fun ent hmem => hf _ entries hrd ent hmem) b processed_paths existing_symlinks hinv
      rw [hm] at hI
      by_cases hdx : d ∈ x2
      · rcases hE with ⟨δ, hops, hsh, hex, hnd, hfr⟩
        have hem : ∃ s, Op.symlink s d ∈ δ := by
          rcases (hex d).mp hdx with h | h
          · exact absurd h hd
          · exact h
        rcases hem with ⟨s, hs⟩
        rcases hsh _ hs with ⟨ent, hmem, hft, heq⟩
        obtain ⟨hsrc, hdst⟩ : s = pathJoin (pathJoin target md0) ent.name ∧
            d = pathJoin (pathJoin extension_base_mount_path md0) ent.name := by
          have h1 := congrArg (fun op => match op with
            | Op.symlink a _ => a | _ => "") heq
          have h2 := congrArg (fun op => match op with
            | Op.symlink _ t => t | _ => "") heq
          exact ⟨h1, h2⟩
        refine stable3_of_char (merge_dirs_loop_char fs _ _ _ rest c p2 x2) ?_ hdx
        refine ⟨s, ?_, ?_⟩
        · rw [hops]
          exact List.mem_append.mpr (Or.inr hs)
        · exact ⟨md0, List.mem_cons_self _ _, entries, hrd,
            ent, hmem, hft, hsrc, hdst.symm⟩
      · have hexp_rest : mountExposesHyp fs extension_base_mount_path source rest d := by
          rcases hexp with ⟨md, hmem, es, hrd2, hent⟩
          rcases List.mem_cons.mp hmem with heq | hmem2
          · rw [heq] at hrd2 hent
            rw [hrd2] at hrd
            have hes : es = entries := by cases hrd; rfl
            subst hes
            have hC := merge_entries_complete extension_base_mount_path target source md0
              (hsimp md0 (List.mem_cons_self _ _)) d es
              (fun ent hmem3 => hf _ es hrd2 ent hmem3) b processed_paths existing_symlinks
              hinv hd hent
            rw [hm] at hC
            exact absurd hC.2 hdx
          · exact ⟨md, hmem2, es, hrd2, hent⟩
        exact stableD3_mono
          (fun s h => hsrc_rest s h)
          (stableD3_mono
            (fun s h => h)
            (ih hsimp_rest c p2 x2 hI hdx hexp_rest))

/-- Characterization of one mount's full post pass (merge-dirs plus the
dynamic-linker drop-in). -/
theorem setup_mount_post_char (fs : FS) (extension_metadata : KeyMap)
    (name extension_base_mount_path source target : String)
    (b : BwrapBuilder) (ex : List String) :
    MChar2 b ex (mountPostShape fs extension_metadata extension_base_mount_path source target)
      (setup_mount_post fs extension_metadata name extension_base_mount_path
        source target b ex) := by
  have ld : ∀ (c : BwrapBuilder) (x : List String),
      MChar2 c x (mountPostShape fs extension_metadata extension_base_mount_path source target)
        (match kget extension_metadata "add-ld-path" with
          | some add_ld_path =>
            let ld_path := pathJoin target add_ld_path
            let ld_contents := ld_path ++ "\n"
            match pathFileName target with
            | none => .error "Invalid extension name"
            | some impl_name =>
              let filename := "runtime-" ++ name ++ "." ++ impl_name ++ ".conf"
              .ok (c.ro_bind_data (pathJoin "/run/flatpak/ld.so.conf.d" filename)
                ld_contents, x)
          | none => .ok (c, x)) := by
    intro c x
    cases kget extension_metadata "add-ld-path" with
    | none => exact deltaChar_refl c x _
    | some add_ld_path =>
      cases pathFileName target with
      | none => exact True.intro
      | some impl_name =>
        exact deltaChar_single_nosym
          (Op.roBindData c.tempfilePath
            (pathJoin "/run/flatpak/ld.so.conf.d"
              ("runtime-" ++ name ++ "." ++ impl_name ++ ".conf"))
            (pathJoin target add_ld_path ++ "\n"))
          rfl rfl (Or.inl rfl)
  unfold setup_mount_post
  cases hmd : kget extension_metadata "merge-dirs" with
  | none => exact ld b ex
  | some merge_dirs =>
    have hmain : MChar2 b ex
        (mountPostShape fs extension_metadata extension_base_mount_path source target)
        (match ((match merge_dirs_loop fs extension_base_mount_path target source
                (splitOnChar ';' merge_dirs) b [] ex with
              | .error e => .error e
              | .ok (b, _, existing_symlinks) => .ok (b, existing_symlinks)) :
              Except String (BwrapBuilder × List String)) with
          | .error e => .error e
          | .ok (b, existing_symlinks) =>
            match kget extension_metadata "add-ld-path" with
            | some add_ld_path =>
              let ld_path := pathJoin target add_ld_path
              let ld_contents := ld_path ++ "\n"
              match pathFileName target with
              | none => .error "Invalid extension name"
              | some impl_name =>
                let filename := "runtime-" ++ name ++ "." ++ impl_name ++ ".conf"
                .ok (b.ro_bind_data (pathJoin "/run/flatpak/ld.so.conf.d" filename)
                  ld_contents, existing_symlinks)
            | none => .ok (b, existing_symlinks)) := by
      have hD := merge_dirs_loop_char fs extension_base_mount_path target source
        (splitOnChar ';' merge_dirs) b [] ex
      revert hD
      cases merge_dirs_loop fs extension_base_mount_path target source
          (splitOnChar ';' merge_dirs) b [] ex with
      | error e => intro _; exact True.intro
      | ok t =>
        rcases t with ⟨c, p, x⟩
        intro hD
        have hD2 : DeltaChar b c ex x
            (mountPostShape fs extension_metadata extension_base_mount_path source target) := by
          refine deltaChar_mono_shape ?_ hD
          rintro op ⟨md, hmem, es, hrd, hshape⟩
          exact Or.inr ⟨merge_dirs, hmd, md, hmem, es, hrd, hshape⟩
        exact mchar2_pre hD2 (ld c x)
    exact hmain

/-- Completeness of one mount's post pass: an exposed, unclaimed
destination gets a symlink into this mount's target, surviving the
dynamic-linker step. -/
theorem setup_mount_post_complete (fs : FS) (extension_metadata : KeyMap)
    (name extension_base_mount_path source target : String)
    (hf : fsSimpleNames fs) (d : String) (merge_dirs_str : String)
    (hmds : kget extension_metadata "merge-dirs" = some merge_dirs_str)
    (hsimp : ∀ x ∈ splitOnChar ';' merge_dirs_str, simpleName x = true)
    (b : BwrapBuilder) (ex : List String) (hd : d ∉ ex)
    (hexp : mountExposesHyp fs extension_base_mount_path source
      (splitOnChar ';' merge_dirs_str) d) :
    StableD2 d (mountSrcP fs extension_base_mount_path source target
        (splitOnChar ';' merge_dirs_str) d)
      (setup_mount_post fs extension_metadata name extension_base_mount_path
        source target b ex) := by
  have ld : ∀ (c : BwrapBuilder) (x : List String),
      (∃ src, Op.symlink src d ∈ c.ops ∧ mountSrcP fs extension_base_mount_path source target
        (splitOnChar ';' merge_dirs_str) d src) → d ∈ x →
      StableD2 d (mountSrcP fs extension_base_mount_path source target
          (splitOnChar ';' merge_dirs_str) d)
        (match kget extension_metadata "add-ld-path" with
          | some add_ld_path =>
            let ld_path := pathJoin target add_ld_path
            let ld_contents := ld_path ++ "\n"
            match pathFileName target with
            | none => .error "Invalid extension name"
            | some impl_name =>
              let filename := "runtime-" ++ name ++ "." ++ impl_name ++ ".conf"
              .ok (c.ro_bind_data (pathJoin "/run/flatpak/ld.so.conf.d" filename)
                ld_contents, x)
          | none => .ok (c, x)) := by
    intro c x hs hdx
    cases kget extension_metadata "add-ld-path" with
    | none => exact ⟨hs, hdx⟩
    | some add_ld_path =>
      cases pathFileName target with
      | none => exact True.intro
      | some impl_name =>
        rcases hs with ⟨src, hmem, hP⟩
        exact ⟨⟨src, List.mem_append.mpr (Or.inl hmem), hP⟩, hdx⟩
  unfold setup_mount_post
  rw [hmds]
  have hmain : StableD2 d (mountSrcP fs extension_base_mount_path source target
        (splitOnChar ';' merge_dirs_str) d)
      (match ((match merge_dirs_loop fs extension_base_mount_path target source
              (splitOnChar ';' merge_dirs_str) b [] ex with
            | .error e => .error e
            | .ok (b, _, existing_symlinks) => .ok (b, existing_symlinks)) :
            Except String (BwrapBuilder × List String)) with
        | .error e => .error e
        | .ok (b, existing_symlinks) =>
          match kget extension_metadata "add-ld-path" with
          | some add_ld_path =>
            let ld_path := pathJoin target add_ld_path
            let ld_contents := ld_path ++ "\n"
            match pathFileName target with
            | none => .error "Invalid extension name"
            | some impl_name =>
              let filename := "runtime-" ++ name ++ "." ++ impl_name ++ ".conf"
              .ok (b.ro_bind_data (pathJoin "/run/flatpak/ld.so.conf.d" filename)
                ld_contents, existing_symlinks)
          | none => .ok (b, existing_symlinks)) := by
    have hC := merge_dirs_loop_complete fs extension_base_mount_path target source hf d
      (splitOnChar ';' merge_dirs_str) hsimp b [] ex
      (fun m n _ _ hmem => absurd hmem (List.not_mem_nil _)) hd hexp
    revert hC
    cases merge_dirs_loop fs extension_base_mount_path target source
        (splitOnChar ';' merge_dirs_str) b [] ex with
    | error e => intro _; exact True.intro
    | ok t =>
      rcases t with ⟨c, p, x⟩
      intro hC
      exact ld c x hC.1 hC.2
  exact hmain

theorem mountsShape_cons {fs : FS} {extension_metadata : KeyMap}
    {extension_base_mount_path : String} {st0 : String × String}
    {rest : List (String × String)} :
    ∀ op, mountsShape fs extension_metadata extension_base_mount_path rest op →
      mountsShape fs extension_metadata extension_base_mount_path (st0 :: rest) op := by
  rintro op (h | ⟨st, hmem, hsh⟩)
  · exact Or.inl h
  · exact Or.inr ⟨st, List.mem_cons_of_mem _ hmem, hsh⟩

/-- Characterization of the mounts loop of one extension. -/
theorem mounts_post_loop_char (fs : FS) (extension_metadata : KeyMap)
    (name extension_base_mount_path : String) :
    ∀ (mounts : List (String × String)) (b : BwrapBuilder) (ex : List String),
    MChar2 b ex (mountsShape fs extension_metadata extension_base_mount_path mounts)
      (mounts_post_loop fs extension_metadata name extension_base_mount_path mounts b ex) := by
  intro mounts
  induction mounts with
  | nil =>
    intro b ex
    exact deltaChar_refl b ex _
  | cons st0 rest ih =>
    obtain ⟨s, t⟩ := st0
    intro b ex
    simp only [mounts_post_loop]
    refine match_elim2of2
      (R := MChar2 b ex (mountsShape fs extension_metadata extension_base_mount_path
        ((s, t) :: rest)))
      (setup_mount_post fs extension_metadata name extension_base_mount_path s t b ex)
      (fun c x => mounts_post_loop fs extension_metadata name extension_base_mount_path
        rest c x)
      (fun e => True.intro) ?_
    intro c x hm
    have hCh := setup_mount_post_char fs extension_metadata name extension_base_mount_path
      s t b ex
    rw [hm] at hCh
    have hCh2 : DeltaChar b c ex x
        (mountsShape fs extension_metadata extension_base_mount_path ((s, t) :: rest)) := by
      refine deltaChar_mono_shape ?_ hCh
      rintro op (h | h)
      · exact Or.inl h
      · exact Or.inr ⟨(s, t), List.mem_cons_self _ _, h⟩
    exact mchar2_pre hCh2 (mchar2_mono_shape mountsShape_cons (ih c x))

/-- Completeness of the mounts loop: if no earlier mount exposes the
unclaimed destination `d` and mount `(s, t)` does, a symlink to `d`
pointing into `t` survives to the end of the loop. -/
theorem mounts_post_loop_complete (fs : FS) (extension_metadata : KeyMap)
    (name extension_base_mount_path : String) (hf : fsSimpleNames fs)
    (d merge_dirs_str : String)
    (hmds : kget extension_metadata "merge-dirs" = some merge_dirs_str)
    (hsimp : ∀ x ∈ splitOnChar ';' merge_dirs_str, simpleName x = true) :
    ∀ (pre : List (String × String)) (s t : String) (post : List (String × String))
      (b : BwrapBuilder) (ex : List String),
    d ∉ ex →
    (∀ st ∈ pre, ¬ mountExposesHyp fs extension_base_mount_path st.1
      (splitOnChar ';' merge_dirs_str) d) →
    mountExposesHyp fs extension_base_mount_path s (splitOnChar ';' merge_dirs_str) d →
    StableD2 d (mountSrcP fs extension_base_mount_path s t
        (splitOnChar ';' merge_dirs_str) d)
      (mounts_post_loop fs extension_metadata name extension_base_mount_path
        (pre ++ (s, t) :: post) b ex) := by
  intro pre
  induction pre with
  | nil =>
    intro s t post b ex hd _ hexp
    simp only [List.nil_append, mounts_post_loop]
    refine match_elim2of2
      (R := StableD2 d (mountSrcP fs extension_base_mount_path s t
        (splitOnChar ';' merge_dirs_str) d))
      (setup_mount_post fs extension_metadata name extension_base_mount_path s t b ex)
      (fun c x => mounts_post_loop fs extension_metadata name extension_base_mount_path
        post c x)
      (fun e => True.intro) ?_
    intro c x hm
    have hC := setup_mount_post_complete fs extension_metadata name
      extension_base_mount_path s t hf d merge_dirs_str hmds hsimp b ex hd hexp
    rw [hm] at hC
    exact stable2_of_char
      (mounts_post_loop_char fs extension_metadata name extension_base_mount_path post c x)
      hC.1 hC.2
  | cons st0 pre2 ih =>
    obtain ⟨s0, t0⟩ := st0
    intro s t post b ex hd hpre hexp
    simp only [List.cons_append, mounts_post_loop]
    refine match_elim2of2
      (R := StableD2 d (mountSrcP fs extension_base_mount_path s t
        (splitOnChar ';' merge_dirs_str) d))
      (setup_mount_post fs extension_metadata name extension_base_mount_path s0 t0 b ex)
      (fun c x => mounts_post_loop fs extension_metadata name extension_base_mount_path
        (pre2 ++ (s, t) :: post) c x)
      (fun e => True.intro) ?_
    intro c x hm
    have hCh := setup_mount_post_char fs extension_metadata name extension_base_mount_path
      s0 t0 b ex
    rw [hm] at hCh
    rcases hCh with ⟨δ, hops, hsh, hex, hnd, hfr⟩
    have hdx : d ∉ x := by
      intro hdx
      rcases (hex d).mp hdx with h | ⟨sl, hsl⟩
      · exact hd h
      · rcases hsh _ hsl with h | ⟨mdstr2, hmd2, md, hmem, es, hrd, ent, hmem2, hft, heq⟩
        · cases h
        · rw [hmds] at hmd2
          have hmdstr : mdstr2 = merge_dirs_str := (Option.some.inj hmd2).symm
          subst hmdstr
          have hdeq : d = pathJoin (pathJoin extension_base_mount_path md) ent.name :=
            congrArg (fun op => match op with | Op.symlink _ u => u | _ => "") heq
          exact hpre (s0, t0) (List.mem_cons_self _ _)
            ⟨md, hmem, es, hrd, ent, hmem2, hft, hdeq.symm⟩
    exact ih s t post c x hdx
      (fun st hmem => hpre st (List.mem_cons_of_mem _ hmem)) hexp

/-- The mount-collection pass appends only destination-free operations
(read-only binds). -/
theorem collect_mounts_ops (fs : FS) (extension_metadata : KeyMap)
    (name arch allowed_versions : String) (install_dirs : List String)
    (extension_base_mount_path : String) :
    ∀ (exts : List String) (b : BwrapBuilder) (mp : List (String × String)),
    ∃ δ, (collect_mounts fs extension_metadata name arch allowed_versions install_dirs
        extension_base_mount_path exts b mp).1.ops = b.ops ++ δ ∧
      ∀ op ∈ δ, symDst op = none := by
  intro exts
  induction exts with
  | nil =>
    intro b mp
    exact ⟨[], by simp [collect_mounts], by simp⟩
  | cons extension rest ih =>
    intro b mp
    simp only [collect_mounts]
    cases stripPre extension (name ++ ".") with
    | none => exact ih b mp
    | some impl =>
      by_cases hen : (impl_enable_decision fs extension_metadata name impl).1
      · simp only [hen, if_true]
        cases resolve_impl_path fs extension arch allowed_versions install_dirs with
        | none => exact ih b mp
        | some p =>
          rcases ih (b.ro_bind p (pathJoin extension_base_mount_path impl)) _ with
            ⟨δ, hops, hsh⟩
          refine ⟨Op.roBind p (pathJoin extension_base_mount_path impl) :: δ, ?_, ?_⟩
          · rw [hops]
            simp [BwrapBuilder.ro_bind, BwrapBuilder.emit]
          · intro op hop
            rcases List.mem_cons.mp hop with h | h
            · rw [h]; rfl
            · exact hsh op h
      · simp only [hen, if_false]
        exact ih b mp

theorem match_elim_final {R : Except String BwrapBuilder → Prop}
    (r : Except String (BwrapBuilder × List String))
    (herr : ∀ e, R (.error e))
    (hok : ∀ c x, r = .ok (c, x) → R (.ok c)) :
    R (bindFinal r) := by
  cases r with
  | error e => exact herr e
  | ok t =>
    obtain ⟨c, x⟩ := t
    exact hok c x rfl

theorem c8_aux (fs : FS) (extension_metadata : KeyMap) (b : BwrapBuilder)
    (name arch runtime_version : String) (available_runtimes install_dirs : List String)
    (base_path : String) (d : String)
    (hf : fsSimpleNames fs)
    (merge_dirs_str : String)
    (hmds : kget extension_metadata "merge-dirs" = some merge_dirs_str)
    (hsimp : ∀ x ∈ splitOnChar ';' merge_dirs_str, simpleName x = true)
    (directory : String) (hdir : kget extension_metadata "directory" = some directory)
    (pre post : List (String × String)) (s t : String)
    (hrec : recorded_mounts fs extension_metadata name arch
        (allowed_versions_of extension_metadata runtime_version) install_dirs
        (pathJoin base_path directory) available_runtimes = pre ++ (s, t) :: post)
    (hpre : ∀ st ∈ pre, ¬ mountExposesHyp fs (pathJoin base_path directory) st.1
      (splitOnChar ';' merge_dirs_str) d)
    (hexp : mountExposesHyp fs (pathJoin base_path directory) s
      (splitOnChar ';' merge_dirs_str) d)
    (hfreshb : ∀ src, Op.symlink src d ∉ b.ops) :
    SEOut (fun bf => ∃ δ, bf.ops = b.ops ++ δ ∧ (δ.filterMap symDst).Nodup ∧
        (δ.filterMap symDst).count d = 1 ∧
        ∃ src, Op.symlink src d ∈ δ ∧
          mountSrcP fs (pathJoin base_path directory) s t
            (splitOnChar ';' merge_dirs_str) d src)
      (setup_extension fs extension_metadata b name arch runtime_version
        available_runtimes install_dirs base_path) := by
  unfold setup_extension
  rw [hdir]
  show SEOut _ (bindFinal (mounts_post_loop fs extension_metadata name
      (pathJoin base_path directory)
      (collect_mounts fs extension_metadata name arch
        (allowed_versions_of extension_metadata runtime_version) install_dirs
        (pathJoin base_path directory) available_runtimes
        (b.tmpfs (pathJoin base_path directory)) []).2
      (collect_mounts fs extension_metadata name arch
        (allowed_versions_of extension_metadata runtime_version) install_dirs
        (pathJoin base_path directory) available_runtimes
        (b.tmpfs (pathJoin base_path directory)) []).1 []))
  rw [collect_mounts_snd_eq_recorded fs extension_metadata name arch
    (allowed_versions_of extension_metadata runtime_version) install_dirs
    (pathJoin base_path directory) available_runtimes
    (b.tmpfs (pathJoin base_path directory)), hrec]
  refine match_elim_final
    (mounts_post_loop fs extension_metadata name (pathJoin base_path directory)
      (pre ++ (s, t) :: post)
      (collect_mounts fs extension_metadata name arch
        (allowed_versions_of extension_metadata runtime_version) install_dirs
        (pathJoin base_path directory) available_runtimes
        (b.tmpfs (pathJoin base_path directory)) []).1 [])
    (fun e => True.intro) ?_
  intro bf xf hm
  have hL := mounts_post_loop_char fs extension_metadata name (pathJoin base_path directory)
    (pre ++ (s, t) :: post)
    (collect_mounts fs extension_metadata name arch
      (allowed_versions_of extension_metadata runtime_version) install_dirs
      (pathJoin base_path directory) available_runtimes
      (b.tmpfs (pathJoin base_path directory)) []).1 []
  rw [hm] at hL
  rcases hL with ⟨dl, hopsl, hshl, hexl, hndl, hfrl⟩
  have hS := mounts_post_loop_complete fs extension_metadata name
    (pathJoin base_path directory) hf d merge_dirs_str hmds hsimp pre s t post
    (collect_mounts fs extension_metadata name arch
      (allowed_versions_of extension_metadata runtime_version) install_dirs
      (pathJoin base_path directory) available_runtimes
      (b.tmpfs (pathJoin base_path directory)) []).1 []
    (List.not_mem_nil d) hpre hexp
  rw [hm] at hS
  rcases hS with ⟨⟨src, hsrcmem, hP⟩, hdxf⟩
  rcases collect_mounts_ops fs extension_metadata name arch
    (allowed_versions_of extension_metadata runtime_version) install_dirs
    (pathJoin base_path directory) available_runtimes
    (b.tmpfs (pathJoin base_path directory)) [] with ⟨dc, hopsc, hshc⟩
  have hsrcdl : Op.symlink src d ∈ dl := by
    rw [hopsl, hopsc] at hsrcmem
    rcases List.mem_append.mp hsrcmem with h | h
    · rcases List.mem_append.mp h with h2 | h2
      · have h3 : Op.symlink src d ∈ b.ops := by
          simpa [BwrapBuilder.tmpfs, BwrapBuilder.emit] using h2
        exact absurd h3 (hfreshb src)
      · have := hshc _ h2
        simp [symDst] at this
    · exact h
  have hfm : ((Op.tmpfs (pathJoin base_path directory) :: (dc ++ dl)).filterMap symDst)
      = dl.filterMap symDst := by
    rw [List.filterMap_cons]
    simp only [symDst, List.filterMap_append, List.filterMap_eq_nil_iff.mpr hshc,
      List.nil_append]
  refine ⟨Op.tmpfs (pathJoin base_path directory) :: (dc ++ dl), ?_, ?_, ?_, src, ?_, hP⟩
  · rw [hopsl, hopsc]
    simp [BwrapBuilder.tmpfs, BwrapBuilder.emit]
  · rw [hfm]
    exact hndl
  · rw [hfm]
    exact List.count_eq_one_of_mem hndl (mem_filterMap_symDst.mpr ⟨src, hsrcdl⟩)
  · exact List.mem_cons_of_mem _ (List.mem_append.mpr (Or.inr hsrcdl))

/-- C8: Within one extension's processing, every merge-dirs destination
receives at most one symlink (the emitted destinations are pairwise
distinct); and if the mounts recorded before `(s, t)` do not expose the
destination `d` while `(s, t)` does, then exactly one symlink to `d` is
emitted and its source points into `t`, the mount path of the
implementation processed first — later writers are skipped without
error. -/
theorem c8_merge_first_writer_wins (fs : FS) (extension_metadata : KeyMap)
    (b : BwrapBuilder) (name arch runtime_version : String)
    (available_runtimes install_dirs : List String) (base_path : String) (d : String)
    (hf : fsSimpleNames fs)
    (merge_dirs_str : String)
    (hmds : kget extension_metadata "merge-dirs" = some merge_dirs_str)
    (hsimp : ∀ x ∈ splitOnChar ';' merge_dirs_str, simpleName x = true)
    (directory : String) (hdir : kget extension_metadata "directory" = some directory)
    (pre post : List (String × String)) (s t : String)
    (hrec : recorded_mounts fs extension_metadata name arch
        (allowed_versions_of extension_metadata runtime_version) install_dirs
        (pathJoin base_path directory) available_runtimes = pre ++ (s, t) :: post)
    (hpre : ∀ st ∈ pre, ¬ mountExposesHyp fs (pathJoin base_path directory) st.1
      (splitOnChar ';' merge_dirs_str) d)
    (hexp : mountExposesHyp fs (pathJoin base_path directory) s
      (splitOnChar ';' merge_dirs_str) d)
    (hfreshb : ∀ src, Op.symlink src d ∉ b.ops)
    (b' : BwrapBuilder)
    (hok : setup_extension fs extension_metadata b name arch runtime_version
        available_runtimes install_dirs base_path = .ok b') :
    ∃ δ, b'.ops = b.ops ++ δ ∧ (δ.filterMap symDst).Nodup ∧
      (δ.filterMap symDst).count d = 1 ∧
      ∃ src, Op.symlink src d ∈ δ ∧
        mountSrcP fs (pathJoin base_path directory) s t
          (splitOnChar ';' merge_dirs_str) d src := by
  have haux := c8_aux fs extension_metadata b name arch runtime_version available_runtimes
    install_dirs base_path d hf merge_dirs_str hmds hsimp directory hdir pre post s t
    hrec hpre hexp hfreshb
  rw [hok] at haux
  exact haux

theorem c8FS_simple : fsSimpleNames c8FS := by
  intro p es h ent hm
  simp only [c8FS] at h
  split at h
  · cases h
    rcases List.mem_singleton.mp hm with h2
    cases h2
    decide
  · split at h
    · cases h
      rcases List.mem_singleton.mp hm with h2
      cases h2
      decide
    · cases h

theorem c8_merge_first_writer_wins_witness :
    ∃ δ, c8Result.ops = (BwrapBuilder.new "/td").ops ++ δ ∧ (δ.filterMap symDst).Nodup ∧
      (δ.filterMap symDst).count "/app/ext/lib/foo.so" = 1 ∧
      ∃ src, Op.symlink src "/app/ext/lib/foo.so" ∈ δ ∧
        mountSrcP c8FS (pathJoin "/app" "ext") c8SrcA "/app/ext/A"
          (splitOnChar ';' "lib") "/app/ext/lib/foo.so" src :=
  c8_merge_first_writer_wins c8FS c8Meta (BwrapBuilder.new "/td") "org.ex.Ext" "x86_64" "1"
    ["org.ex.Ext.A", "org.ex.Ext.B"] ["/inst"] "/app" "/app/ext/lib/foo.so"
    c8FS_simple "lib" rfl (by decide) "ext" rfl
    [] [(c8SrcB, "/app/ext/B")] c8SrcA "/app/ext/A"
    (by decide)
    (by intro st hmem; cases hmem)
    ⟨"lib", by decide, c8Entries, by decide,
      ⟨"foo.so", true, Except.ok true⟩, by decide, rfl, by decide⟩
    (by intro src h; exact absurd h (List.not_mem_nil _))
    c8Result (by decide)
